import Mathlib

/-!
# Table printer and text filter of the R binding of `corpus`

A shallow embedding of `print_range` and `print_table` (`src/print_table.c`)
and of the functions of `src/text_filter.c`, followed by the properties of the
column partition, the cell cap, the rendered lines, the registration of the
term rules and the cache of the filter.

Conventions of the embedding:

* a C `int` is an `Int`; every addition and subtraction on an `int` variable
  goes through `add32` / `sub32`, which reduce the exact result into the
  32-bit signed range. Loop counters bounded by a container size are `Nat`.
* the line buffer `buf` is a list of `Item`s: single characters, and strings
  copied by `PRINT_STRING` together with the display width `w` that the code
  computed for them. `Item.bytes` gives the characters really stored.
* `FLUSH()` hands the buffer to `Rprintf` and empties it; the text received by
  the output stream is accumulated in `out`.
* the growth of the buffer (`NEEDS`) and the interrupt poll are not modelled.
-/

namespace RCorpus

/-! ## Machine integers -/

/-- Largest value of a 32-bit C `int`. -/
def INT_MAX : Int := 2147483647

/-- Smallest value of a 32-bit C `int`. -/
def INT_MIN : Int := -2147483648

/-- The 32-bit signed integer that holds the exact result `x` after
wrap-around. -/
def wrap32 (x : Int) : Int := (x + 2147483648) % 4294967296 - 2147483648

/-- Addition of two C `int`s. -/
def add32 (a b : Int) : Int := wrap32 (a + b)

/-- Subtraction of two C `int`s. -/
def sub32 (a b : Int) : Int := wrap32 (a - b)

/-- Membership of the range of a C `int`. -/
def IsInt32 (x : Int) : Prop := INT_MIN ≤ x ∧ x ≤ INT_MAX

instance (x : Int) : Decidable (IsInt32 x) := by
  unfold IsInt32; exact inferInstance

/-! ## Strings of the host runtime -/

/-- A CHARSXP of the host runtime: the distinguished missing string
`NA_STRING`, or a string given by its text and its display width. -/
inductive CharSxp where
  | NA_STRING : CharSxp
  | mk (text : List Char) (width : Int) : CharSxp
  deriving DecidableEq, Repr

/-- Modelled from the spec: `charsxp_width` is declared in `rcorpus.h` and its
body is not among the sources. The display width of a text is an integer
supplied with the text ("display_width(text) -> non-negative integer"), and
"missing-marker cells always have display width 2". -/
def charsxp_width : CharSxp → Int
  | .NA_STRING => 2
  | .mk _ w => w

/-- Function `translate`: the text of a CHARSXP in the encoding of the output
stream. The conversion itself is done by the runtime (`Riconv`); the text kept
in a `CharSxp` is the converted text, and the missing string reads "NA". -/
def translate : CharSxp → List Char
  | .NA_STRING => ['N', 'A']
  | .mk s _ => s

/-- Accessor `STRING_ELT(x, i)` of a character vector. -/
def STRING_ELT (x : List CharSxp) (i : Nat) : CharSxp :=
  x.getD i CharSxp.NA_STRING

/-- The character matrix `sx` handed to `print_table`: its dimensions, its
cells in column-major order, and the two optional components of its
`dimnames` attribute (`none` is `R_NilValue`). -/
structure Table where
  nrow : Nat
  ncol : Nat
  cells : List CharSxp
  row_names : Option (List CharSxp)
  col_names : Option (List CharSxp)
  deriving DecidableEq, Repr

/-- A `CharSxp` whose display width is a non-negative C `int`. -/
def CharSxp.ok (e : CharSxp) : Prop := 0 ≤ charsxp_width e ∧ charsxp_width e ≤ INT_MAX

instance (e : CharSxp) : Decidable e.ok := by
  unfold CharSxp.ok; exact inferInstance

/-- Well-formed matrices: the number of cells is `nrow * ncol`, the label
vectors that exist have one entry per row (per column), the dimensions are C
`int`s and every display width is a non-negative C `int`. -/
def Table.wf (sx : Table) : Prop :=
  sx.cells.length = sx.nrow * sx.ncol ∧
  (∀ rn, sx.row_names = some rn → rn.length = sx.nrow ∧ ∀ e ∈ rn, e.ok) ∧
  (∀ cn, sx.col_names = some cn → cn.length = sx.ncol ∧ ∀ e ∈ cn, e.ok) ∧
  (∀ e ∈ sx.cells, e.ok) ∧
  (sx.nrow : Int) ≤ INT_MAX ∧ (sx.ncol : Int) ≤ INT_MAX

/-! ## The line buffer -/

/-- One entry of the line buffer. -/
inductive Item where
  | ch (c : Char) : Item
  | str (text : List Char) (w : Int) : Item
  deriving DecidableEq, Repr

/-- The characters an item stores in the buffer. -/
def Item.bytes : Item → List Char
  | .ch c => [c]
  | .str s _ => s

/-- The characters of a sequence of items. -/
def bytes (l : List Item) : List Char := l.flatMap Item.bytes

/-- Display width of an item: one column for a character, the width computed
by the code for a string. -/
def Item.width : Item → Int
  | .ch _ => 1
  | .str _ w => w

/-- Display width of a sequence of items. -/
def display_width (l : List Item) : Int := (l.map Item.width).sum

/-- Run of `n` blanks. -/
def spaces (n : Nat) : List Item := List.replicate n (Item.ch ' ')

/-- Macro `PRINT_SPACES(n)`: appends `n` blanks when `n > 0`. -/
def PRINT_SPACES (buf : List Item) (n : Int) : List Item :=
  if n > 0 then buf ++ spaces n.toNat else buf

/-- Macro `PRINT_CHAR(ch)`. -/
def PRINT_CHAR (buf : List Item) (c : Char) : List Item := buf ++ [Item.ch c]

/-- Macro `PRINT_STRING(str, n)`; `w` is the display width held by the
variable `w` at the call. -/
def PRINT_STRING (buf : List Item) (s : List Char) (w : Int) : List Item :=
  buf ++ [Item.str s w]

/-- Macro `PRINT_ENTRY(str, n, pad)`. -/
def PRINT_ENTRY (right : Bool) (buf : List Item) (s : List Char) (w : Int)
    (pad : Int) : List Item :=
  let buf1 := if right then PRINT_SPACES buf pad else buf
  let buf2 := PRINT_STRING buf1 s w
  if !right then PRINT_SPACES buf2 pad else buf2

/-! ## `print_range` -/

/-- Text printed for a row or column label (`str`): "NA" for the missing
string, its translation otherwise. -/
def label_str (name : CharSxp) : List Char :=
  if name = CharSxp.NA_STRING then ['N', 'A'] else translate name

/-- Display width used for a row or column label (`w`): 2 for the missing
string, `charsxp_width` otherwise. -/
def label_w (name : CharSxp) : Int :=
  if name = CharSxp.NA_STRING then 2 else charsxp_width name

/-- Header loop of `print_range`, `for (j = begin; j < end; j++)`, run over
the list of the column indices still to visit. -/
def print_header_cols (col_names : List CharSxp) (has_row_names : Bool)
    (begin : Nat) (print_gap : Int) (right : Bool) (colwidths : List Int) :
    List Nat → List Item → List Item
  | [], buf => buf
  | j :: js, buf =>
    let name := STRING_ELT col_names j
    let w := label_w name
    let buf1 := if j > begin || has_row_names then PRINT_SPACES buf print_gap else buf
    let buf2 := PRINT_ENTRY right buf1 (label_str name) w (sub32 (colwidths.getD j 0) w)
    print_header_cols col_names has_row_names begin print_gap right colwidths js buf2

/-- Cell loop of one data row of `print_range`, run over the list of the
column indices still to visit. The result is the buffer, the count `nprint`
and whether the function returned from inside the loop (cap reached). -/
def print_row_cells (sx : Table) (i : Nat) (begin : Nat) (print_gap : Int)
    (right : Bool) (max : Int) (colwidths : List Int) :
    List Nat → List Item → Int → List Item × Int × Bool
  | [], buf, nprint => (buf, nprint, false)
  | j :: js, buf, nprint =>
    if nprint = max then
      (PRINT_CHAR buf '\n', nprint, true)
    else
      let nprint1 := add32 nprint 1
      let width := colwidths.getD j 0
      let ix := i + j * sx.nrow
      let elt := STRING_ELT sx.cells ix
      let buf1 :=
        if j > begin || sx.row_names.isSome then PRINT_SPACES buf print_gap else buf
      let w := charsxp_width elt
      let buf2 := PRINT_ENTRY right buf1 (translate elt) w (sub32 width w)
      print_row_cells sx i begin print_gap right max colwidths js buf2 nprint1

/-- Row label of row `i` followed by its padding, appended to the buffer when
row labels exist. -/
def print_row_name (sx : Table) (i : Nat) (namewidth : Int) (buf : List Item) :
    List Item :=
  match sx.row_names with
  | none => buf
  | some row_names =>
    let name := STRING_ELT row_names i
    let w := label_w name
    PRINT_SPACES (PRINT_STRING buf (label_str name) w) (sub32 namewidth w)

/-- Row loop of `print_range`, `for (i = 0; i < nrow; i++)`, run over the list
of the row indices still to visit. Every row starts with an empty buffer,
since each earlier path ended with `FLUSH()`; `out` is the text flushed so far.
The result is the flushed text and the returned count. -/
def print_rows (sx : Table) (begin end_ : Nat) (print_gap : Int) (right : Bool)
    (max : Int) (namewidth : Int) (colwidths : List Int) :
    List Nat → List Item → Int → List Item × Int
  | [], out, nprint => (out, nprint)
  | i :: is, out, nprint =>
    if nprint = max then
      (out, nprint)
    else
      let buf := print_row_name sx i namewidth []
      let r := print_row_cells sx i begin print_gap right max colwidths
        (List.range' begin (end_ - begin)) buf nprint
      if r.2.2 then
        (out ++ r.1, r.2.1)
      else
        print_rows sx begin end_ print_gap right max namewidth colwidths is
          (out ++ PRINT_CHAR r.1 '\n') r.2.1

/-- Header line of `print_range` for the group `[begin, end)`; nothing when
there are no column labels. -/
def print_header (sx : Table) (begin end_ : Nat) (print_gap : Int) (right : Bool)
    (namewidth : Int) (colwidths : List Int) : List Item :=
  match sx.col_names with
  | none => []
  | some col_names =>
    PRINT_CHAR
      (print_header_cols col_names sx.row_names.isSome begin print_gap right colwidths
        (List.range' begin (end_ - begin)) (PRINT_SPACES [] namewidth))
      '\n'

/-- Function `print_range`: the text sent to the output stream and the number
of cells printed. -/
def print_range (sx : Table) (begin end_ : Nat) (print_gap : Int) (right : Bool)
    (max : Int) (namewidth : Int) (colwidths : List Int) : List Item × Int :=
  print_rows sx begin end_ print_gap right max namewidth colwidths
    (List.range sx.nrow)
    (print_header sx begin end_ print_gap right namewidth colwidths) 0

/-! ## `print_table` -/

/-- Width of the row-label column: the loop over the row labels of
`print_table`. -/
def compute_namewidth (sx : Table) : Int :=
  match sx.row_names with
  | none => 0
  | some row_names =>
    (List.range sx.nrow).foldl
      (fun namewidth i =>
        let w := label_w (STRING_ELT row_names i)
        if w > namewidth then w else namewidth)
      0

/-- Column widths after the `memset` and the loop over the column labels. -/
def init_colwidths (sx : Table) : List Int :=
  match sx.col_names with
  | none => List.replicate sx.ncol 0
  | some col_names =>
    (List.range sx.ncol).map (fun j => label_w (STRING_ELT col_names j))

/-- Loop of `print_table` over the cells, `for (ix = 0; ix < nx; ix++)`, run
over the list of the indices still to visit, with the column cursor `j`. The
result is `none` when the loop would index `colwidths` outside its bounds or
divide by `nrow = 0`. -/
def scan_cells (sx : Table) : List Nat → Nat → List Int → Option (List Int)
  | [], _, colwidths => some colwidths
  | ix :: ixs, j, colwidths =>
    let elt := STRING_ELT sx.cells ix
    let w := if elt = CharSxp.NA_STRING then 0 else charsxp_width elt
    if j < colwidths.length then
      let colwidths1 := if w > colwidths.getD j 0 then colwidths.set j w else colwidths
      if sx.nrow = 0 then none
      else
        scan_cells sx ixs (if (ix + 1) % sx.nrow = 0 then j + 1 else j) colwidths1
    else none

/-- Column widths computed by `print_table`. -/
def compute_colwidths (sx : Table) : Option (List Int) :=
  scan_cells sx (List.range sx.cells.length) 0 (init_colwidths sx)

/-- Inner loop of the partition, `while (end != ncol)`; `k` is the number of
columns left, `ncol - end`. The result is the value of `end` at the exit. -/
def group_end (has_row_names : Bool) (print_gap width : Int) (colwidths : List Int)
    (begin : Nat) : Nat → Nat → Int → Nat
  | 0, end_, _ => end_
  | k + 1, end_, linewidth =>
    if (end_ > begin || has_row_names) && linewidth ≥ sub32 width print_gap then
      end_
    else
      let linewidth1 :=
        if end_ > begin || has_row_names then add32 linewidth print_gap else linewidth
      if linewidth1 ≥ sub32 width (colwidths.getD end_ 0) then
        end_
      else
        group_end has_row_names print_gap width colwidths begin k (end_ + 1)
          (add32 linewidth1 (colwidths.getD end_ 0))

/-- Bounds of the group that starts at `begin`: the inner loop, then the
forced column when the loop took none. -/
def next_end (sx : Table) (print_gap width namewidth : Int) (colwidths : List Int)
    (begin : Nat) : Nat :=
  let end_ := group_end sx.row_names.isSome print_gap width colwidths begin
    (sx.ncol - begin) begin namewidth
  if begin = end_ then end_ + 1 else end_

/-- One call of `print_range` as seen from `print_table`. -/
structure Call where
  begin : Nat
  end_ : Nat
  max : Int
  deriving DecidableEq, Repr

/-- State of `print_table` while it prints: the text sent to the output
stream, the count `nprint`, and the calls of `print_range` made so far. -/
structure Render where
  out : List Item
  nprint : Int
  calls : List Call
  deriving DecidableEq, Repr

/-- One call `nprint += print_range(sx, begin, end, ..., max - nprint, ...)`. -/
def call_range (sx : Table) (print_gap : Int) (right : Bool) (max : Int)
    (namewidth : Int) (colwidths : List Int) (begin end_ : Nat) (r : Render) : Render :=
  let res := print_range sx begin end_ print_gap right (sub32 max r.nprint) namewidth
    colwidths
  { out := r.out ++ res.1,
    nprint := add32 r.nprint res.2,
    calls := r.calls ++ [{ begin := begin, end_ := end_, max := sub32 max r.nprint }] }

/-- Outer loop of `print_table`, `while (begin != ncol)`, with a bound `fuel`
on the number of iterations; `none` when the bound is reached first. -/
def print_groups (sx : Table) (print_gap : Int) (right : Bool) (max width : Int)
    (namewidth : Int) (colwidths : List Int) : Nat → Nat → Render → Option Render
  | 0, begin, r => if begin = sx.ncol then some r else none
  | fuel + 1, begin, r =>
    if begin = sx.ncol then some r
    else
      let end_ := next_end sx print_gap width namewidth colwidths begin
      print_groups sx print_gap right max width namewidth colwidths fuel end_
        (call_range sx print_gap right max namewidth colwidths begin end_ r)

/-- Function `print_table`, with `fuel` iterations allowed to the outer loop.
The result holds the returned integer `nprint`. -/
def print_table_fuel (fuel : Nat) (sx : Table) (print_gap : Int) (right : Bool)
    (max width : Int) : Option Render :=
  let namewidth := compute_namewidth sx
  match compute_colwidths sx with
  | none => none
  | some colwidths =>
    match print_groups sx print_gap right max width namewidth colwidths fuel 0
        { out := [], nprint := 0, calls := [] } with
    | none => none
    | some r =>
      if sx.ncol = 0 then
        some (call_range sx print_gap right max namewidth colwidths 0 0 r)
      else some r

/-- Function `print_table`; every iteration of the outer loop consumes a
column, so `ncol` iterations are allowed. -/
def print_table (sx : Table) (print_gap : Int) (right : Bool) (max width : Int) :
    Option Render :=
  print_table_fuel sx.ncol sx print_gap right max width

/-! ## Quantities named by the specification -/

/-- Gap printed before column `j` of the group that starts at `begin`:
`print_gap`, except before the first column when there are no row labels. -/
def gap_before (has_row_names : Bool) (print_gap : Int) (begin j : Nat) : Int :=
  if j > begin || has_row_names then print_gap else 0

/-- Computed line width of the group `[begin, end)`: the name width plus, for
each column of the group, its gap and its column width. -/
def group_width (has_row_names : Bool) (namewidth print_gap : Int)
    (colwidths : List Int) (begin end_ : Nat) : Int :=
  namewidth +
    ((List.range' begin (end_ - begin)).map
      (fun j => gap_before has_row_names print_gap begin j + colwidths.getD j 0)).sum

/-- Alignment law: a text of display width `w` in a column of width `c` is
followed by `c - w` blanks, or preceded by them when right-aligned. -/
def aligned (right : Bool) (s : List Char) (w c : Int) : List Item :=
  if right then spaces (c - w).toNat ++ [Item.str s w]
  else [Item.str s w] ++ spaces (c - w).toNat

/-- Field of column `j` in the header line of the group that starts at
`begin`: the gap, then the column label aligned to the column width; a
missing label reads "NA" and has width 2. -/
def header_field (col_names : List CharSxp) (has_row_names : Bool) (begin : Nat)
    (print_gap : Int) (right : Bool) (colwidths : List Int) (j : Nat) : List Item :=
  spaces (gap_before has_row_names print_gap begin j).toNat ++
    aligned right (label_str (STRING_ELT col_names j)) (label_w (STRING_ELT col_names j))
      (colwidths.getD j 0)

/-- Header line of the group `[begin, end)`: `namewidth` blanks, the fields of
the columns of the group in order, a newline. -/
def header_line (col_names : List CharSxp) (has_row_names : Bool) (begin end_ : Nat)
    (print_gap : Int) (right : Bool) (namewidth : Int) (colwidths : List Int) :
    List Item :=
  spaces namewidth.toNat ++
    (List.range' begin (end_ - begin)).flatMap
      (header_field col_names has_row_names begin print_gap right colwidths) ++
    [Item.ch '\n']

/-- Field of column `j` in the line of row `i`: the gap, then the cell stored
at the column-major index `i + j * nrow` aligned to the column width. -/
def cell_field (sx : Table) (i begin : Nat) (print_gap : Int) (right : Bool)
    (colwidths : List Int) (j : Nat) : List Item :=
  spaces (gap_before sx.row_names.isSome print_gap begin j).toNat ++
    aligned right (translate (STRING_ELT sx.cells (i + j * sx.nrow)))
      (charsxp_width (STRING_ELT sx.cells (i + j * sx.nrow))) (colwidths.getD j 0)

/-- Label of row `i` followed by blanks up to `namewidth` (left-justified,
whatever the alignment of the cells); nothing when there are no row labels. -/
def row_label_field (sx : Table) (i : Nat) (namewidth : Int) : List Item :=
  match sx.row_names with
  | none => []
  | some row_names =>
    [Item.str (label_str (STRING_ELT row_names i)) (label_w (STRING_ELT row_names i))] ++
      spaces (namewidth - label_w (STRING_ELT row_names i)).toNat

/-- Line of row `i` in the group `[begin, end)`, rendered in full. -/
def row_line (sx : Table) (i begin end_ : Nat) (print_gap : Int) (right : Bool)
    (namewidth : Int) (colwidths : List Int) : List Item :=
  row_label_field sx i namewidth ++
    (List.range' begin (end_ - begin)).flatMap
      (cell_field sx i begin print_gap right colwidths) ++
    [Item.ch '\n']

/-! ## Sample inputs -/

/-- Shorthand for a one-character string of display width 1. -/
def txt (c : Char) : CharSxp := CharSxp.mk [c] 1

/-- The 3-row, 2-column grid of the scenarios, columns labelled A and B, no
row labels, every cell one column wide. -/
def grid32 : Table :=
  { nrow := 3, ncol := 2,
    cells := [txt 'a', txt 'b', txt 'c', txt 'd', txt 'e', txt 'f'],
    row_names := none,
    col_names := some [txt 'A', txt 'B'] }

/-- A 1-row grid of three columns without labels, whose first cell is 10
columns wide and whose other cells are 1 column wide. -/
def wide_grid : Table :=
  { nrow := 1, ncol := 3,
    cells := [CharSxp.mk ['0', '1', '2', '3', '4', '5', '6', '7', '8', '9'] 10,
      txt 'x', txt 'y'],
    row_names := none,
    col_names := none }

/-- A 1-row, 1-column grid without labels whose only cell is the missing
string. -/
def na_grid : Table :=
  { nrow := 1, ncol := 1, cells := [CharSxp.NA_STRING], row_names := none,
    col_names := none }

/-- A grid of one row and no column, with the row label r. -/
def rows_only : Table :=
  { nrow := 1, ncol := 0, cells := [], row_names := some [txt 'r'], col_names := none }

/-- A 2-row, 2-column grid with column labels A, B and row labels: the first
is 2 columns wide, the second is the missing string. -/
def labelled_grid : Table :=
  { nrow := 2, ncol := 2,
    cells := [txt 'a', txt 'b', CharSxp.mk ['c', 'c', 'c'] 3, txt 'd'],
    row_names := some [CharSxp.mk ['r', '1'] 2, CharSxp.NA_STRING],
    col_names := some [txt 'A', txt 'B'] }

/-- A grid of one row and no column whose row label is 10 columns wide. -/
def wide_label_grid : Table :=
  { nrow := 1, ncol := 0, cells := [],
    row_names := some [CharSxp.mk ['0', '1', '2', '3', '4', '5', '6', '7', '8', '9'] 10],
    col_names := none }

/-! ## The text filter (`src/text_filter.c`)

The corpus library (type maps, filters) and the accessors of the host runtime
are outside the sources. The calls into the library are modelled by the error
codes they return, given as parameters (`CorpusLib`); the state of a filter is
the list of the rules registered on it. A function that ends with
`CHECK_ERROR(err)` returns the code `err` next to the state: a code other than
0 stands for the error raised by the runtime, which leaves the function. -/

/-- A logical scalar of the host runtime, as read by `LOGICAL(val)[0]`. -/
inductive Lgl where
  | TRUE : Lgl
  | FALSE : Lgl
  | NA : Lgl
  deriving DecidableEq, Repr

/-- The list `filter` of a text object, as read through `getListElement`: an
option is `none` when `getListElement` gives `R_NilValue`. In a list of terms
`none` stands for a missing term (a `corpus_text` whose `ptr` is null). -/
structure FilterConfig where
  map_case : Option Lgl
  map_compat : Option Lgl
  map_quote : Option Lgl
  remove_ignorable : Option Lgl
  stemmer : Option (List CharSxp)
  drop_letter : Option Lgl
  drop_mark : Option Lgl
  drop_number : Option Lgl
  drop_punct : Option Lgl
  drop_symbol : Option Lgl
  drop_other : Option Lgl
  stem_dropped : Option Lgl
  stem_except : Option (List (Option String))
  drop : Option (List (Option String))
  drop_except : Option (List (Option String))
  combine : Option (List (Option String))
  deriving DecidableEq, Repr

/-- Accessor `getListElement(filter, key)`, `key` being given by the field to
read; the result is `R_NilValue` when `filter` itself is `R_NilValue`. -/
def getListElement {α : Type} (filter : Option FilterConfig)
    (key : FilterConfig → Option α) : Option α :=
  filter.bind key

/-- Constants of the headers of the corpus library, which are not among the
sources. -/
structure CorpusConsts where
  CORPUS_TYPE_MAPCASE : Nat
  CORPUS_TYPE_MAPCOMPAT : Nat
  CORPUS_TYPE_MAPQUOTE : Nat
  CORPUS_TYPE_RMDI : Nat
  CORPUS_FILTER_IGNORE_SPACE : Nat
  CORPUS_FILTER_DROP_LETTER : Nat
  CORPUS_FILTER_DROP_MARK : Nat
  CORPUS_FILTER_DROP_NUMBER : Nat
  CORPUS_FILTER_DROP_PUNCT : Nat
  CORPUS_FILTER_DROP_SYMBOL : Nat
  CORPUS_FILTER_DROP_OTHER : Nat
  CORPUS_ERROR_INVAL : Int

/-- Function `filter_logical`. -/
def filter_logical (filter : Option FilterConfig) (key : FilterConfig → Option Lgl)
    (nullval : Int) : Int :=
  match getListElement filter key with
  | none => nullval
  | some val => if val = Lgl.TRUE then 1 else 0

/-- Function `filter_type_kind`. -/
def filter_type_kind (c : CorpusConsts) (filter : Option FilterConfig) : Nat :=
  match filter with
  | none =>
    (((0 ||| c.CORPUS_TYPE_MAPCASE) ||| c.CORPUS_TYPE_MAPCOMPAT) |||
      c.CORPUS_TYPE_MAPQUOTE) ||| c.CORPUS_TYPE_RMDI
  | some _ =>
    let kind0 := 0
    let kind1 :=
      if filter_logical filter FilterConfig.map_case 0 ≠ 0 then
        kind0 ||| c.CORPUS_TYPE_MAPCASE else kind0
    let kind2 :=
      if filter_logical filter FilterConfig.map_compat 0 ≠ 0 then
        kind1 ||| c.CORPUS_TYPE_MAPCOMPAT else kind1
    let kind3 :=
      if filter_logical filter FilterConfig.map_quote 0 ≠ 0 then
        kind2 ||| c.CORPUS_TYPE_MAPQUOTE else kind2
    if filter_logical filter FilterConfig.remove_ignorable 0 ≠ 0 then
      kind3 ||| c.CORPUS_TYPE_RMDI else kind3

/-- Function `filter_stemmer`: the name of the stemming algorithm, `none` for
`NULL`. -/
def filter_stemmer (filter : Option FilterConfig) : Option (List Char) :=
  match getListElement filter FilterConfig.stemmer with
  | none => none
  | some alg =>
    let val := STRING_ELT alg 0
    if val = CharSxp.NA_STRING ∨ (translate val).length = 0 then none
    else some (translate val)

/-- Function `filter_flags`. -/
def filter_flags (c : CorpusConsts) (filter : Option FilterConfig) : Nat :=
  let flags0 := c.CORPUS_FILTER_IGNORE_SPACE
  let flags1 :=
    if filter_logical filter FilterConfig.drop_letter 0 ≠ 0 then
      flags0 ||| c.CORPUS_FILTER_DROP_LETTER else flags0
  let flags2 :=
    if filter_logical filter FilterConfig.drop_mark 0 ≠ 0 then
      flags1 ||| c.CORPUS_FILTER_DROP_MARK else flags1
  let flags3 :=
    if filter_logical filter FilterConfig.drop_number 0 ≠ 0 then
      flags2 ||| c.CORPUS_FILTER_DROP_NUMBER else flags2
  let flags4 :=
    if filter_logical filter FilterConfig.drop_punct 0 ≠ 0 then
      flags3 ||| c.CORPUS_FILTER_DROP_PUNCT else flags3
  let flags5 :=
    if filter_logical filter FilterConfig.drop_symbol 0 ≠ 0 then
      flags4 ||| c.CORPUS_FILTER_DROP_SYMBOL else flags4
  if filter_logical filter FilterConfig.drop_other 0 ≠ 0 then
    flags5 ||| c.CORPUS_FILTER_DROP_OTHER else flags5

/-- The four registration functions of the filter library that `text_filter`
passes to `add_terms`: `corpus_filter_stem_except`, `corpus_filter_drop`,
`corpus_filter_drop_except` and `corpus_filter_combine`. -/
inductive RuleKind where
  | stem_except : RuleKind
  | drop : RuleKind
  | drop_except : RuleKind
  | combine : RuleKind
  deriving DecidableEq, Repr

/-- A term rule registered on a filter: the registration function and the
type it was given. -/
structure Rule where
  kind : RuleKind
  type : String
  deriving DecidableEq, Repr

/-- A `struct corpus_filter` as far as this file is concerned: the arguments
of its initialisation, the rules registered on it in order, and its field
`error`. -/
structure Filter where
  type_kind : Nat
  stemmer : Option (List Char)
  flags : Nat
  rules : List Rule
  error : Int
  deriving DecidableEq, Repr

/-- Outcomes of the calls into the corpus library. `typemap_init kind` and
`filter_init kind stemmer flags` are the codes returned by
`corpus_typemap_init` and `corpus_filter_init`; `typemap_set kind term` is the
code returned by `corpus_typemap_set` on a map of that kind and the type it
leaves in `map->type`; `add_term k rules type` is the code returned by the
registration function `k` on a filter that holds `rules`. The code 0 means
success. -/
structure CorpusLib where
  typemap_init : Nat → Int
  filter_init : Nat → Option (List Char) → Nat → Int
  typemap_set : Nat → String → Int × String
  add_term : RuleKind → List Rule → String → Int

/-- A call into the corpus library, as recorded in the trace. -/
inductive Event where
  | filter_destroy : Event
  | sentfilter_destroy : Event
  | typemap_init (kind : Nat) : Event
  | typemap_destroy : Event
  | filter_init (kind : Nat) (stemmer : Option (List Char)) (flags : Nat) : Event
  | typemap_set (term : String) : Event
  | add_term (k : RuleKind) (type : String) : Event
  deriving DecidableEq, Repr

/-- A `struct rcorpus_text` as far as this file is concerned. -/
structure RcorpusText where
  has_filter : Int
  filter : Filter
  has_sentfilter : Int
  deriving DecidableEq, Repr

/-- The memory behind the external pointer `handle` of a text object (`none`
when `R_ExternalPtrAddr` gives a null pointer) and the trace of the calls made
into the corpus library. -/
structure State where
  obj : Option RcorpusText
  log : List Event
  deriving DecidableEq, Repr

/-- Function `text_filter_update`. -/
def text_filter_update (s : State) : State :=
  match s.obj with
  | none => s
  | some obj =>
    let s1 : State :=
      if obj.has_filter ≠ 0 then
        { obj := some { obj with has_filter := 0 },
          log := s.log ++ [Event.filter_destroy] }
      else s
    match s1.obj with
    | none => s1
    | some obj1 =>
      if obj1.has_sentfilter ≠ 0 then
        { obj := some { obj1 with has_sentfilter := 0 },
          log := s1.log ++ [Event.sentfilter_destroy] }
      else s1

/-- Loop of `add_terms` over the terms, `for (i = 0; i < n; i++)`, run over
the list of the terms still to visit. `TRY` leaves the loop with the code of
the first call that fails. The result is the filter, the trace and `err`. -/
def add_terms_loop (lib : CorpusLib) (k : RuleKind) :
    List (Option String) → Filter → List Event → Filter × List Event × Int
  | [], f, log => (f, log, 0)
  | none :: terms, f, log => add_terms_loop lib k terms f log
  | some term :: terms, f, log =>
    let r := lib.typemap_set f.type_kind term
    let log1 := log ++ [Event.typemap_set term]
    if r.1 ≠ 0 then (f, log1, r.1)
    else
      let e := lib.add_term k f.rules r.2
      let log2 := log1 ++ [Event.add_term k r.2]
      if e ≠ 0 then (f, log2, e)
      else add_terms_loop lib k terms { f with rules := f.rules ++ [{ kind := k, type := r.2 }] } log2

/-- Function `add_terms`, on a map of the kind of the filter. When a call
fails the field `error` of the filter is set, the map is destroyed and
`CHECK_ERROR` raises the error: the code returned is then other than 0. -/
def add_terms (c : CorpusConsts) (lib : CorpusLib) (k : RuleKind)
    (sterms : Option (List (Option String))) (f : Filter) (log : List Event) :
    Filter × List Event × Int :=
  match sterms with
  | none => (f, log, 0)
  | some terms =>
    let r := add_terms_loop lib k terms f log
    if r.2.2 ≠ 0 then
      ({ r.1 with error := c.CORPUS_ERROR_INVAL }, r.2.1 ++ [Event.typemap_destroy], r.2.2)
    else r

/-- The five calls of `add_terms` made by `text_filter`, each one reached only
when the calls before it raised no error. The result is the filter, the trace
and the code of the error raised (0 when all the calls returned). -/
def text_filter_terms (c : CorpusConsts) (lib : CorpusLib) (filter : Option FilterConfig)
    (stem_dropped : Int) (f : Filter) (log : List Event) : Filter × List Event × Int :=
  let r1 :=
    if stem_dropped = 0 then
      add_terms c lib RuleKind.stem_except (getListElement filter FilterConfig.drop) f log
    else (f, log, 0)
  if r1.2.2 ≠ 0 then r1
  else
    let r2 := add_terms c lib RuleKind.stem_except
      (getListElement filter FilterConfig.stem_except) r1.1 r1.2.1
    if r2.2.2 ≠ 0 then r2
    else
      let r3 := add_terms c lib RuleKind.drop
        (getListElement filter FilterConfig.drop) r2.1 r2.2.1
      if r3.2.2 ≠ 0 then r3
      else
        let r4 := add_terms c lib RuleKind.drop_except
          (getListElement filter FilterConfig.drop_except) r3.1 r3.2.1
        if r4.2.2 ≠ 0 then r4
        else
          add_terms c lib RuleKind.combine
            (getListElement filter FilterConfig.combine) r4.1 r4.2.1

/-- Function `text_filter` from the line `filter = getListElement(x, "filter")`
on: the construction of a new filter in the object `obj`, whose `has_filter`
is 0 at that point. The result is the object, the trace and the code of the
error raised (0 when the function returns `&obj->filter`). -/
def text_filter_build (c : CorpusConsts) (lib : CorpusLib) (filter : Option FilterConfig)
    (obj : RcorpusText) (log : List Event) : RcorpusText × List Event × Int :=
  let type_kind := filter_type_kind c filter
  let stemmer := filter_stemmer filter
  let flags := filter_flags c filter
  let stem_dropped := filter_logical filter FilterConfig.stem_dropped 0
  let log1 := log ++ [Event.typemap_init type_kind]
  if lib.typemap_init type_kind ≠ 0 then
    (obj, log1, lib.typemap_init type_kind)
  else
    let log2 := log1 ++ [Event.filter_init type_kind stemmer flags]
    if lib.filter_init type_kind stemmer flags ≠ 0 then
      (obj, log2 ++ [Event.typemap_destroy], lib.filter_init type_kind stemmer flags)
    else
      let f0 : Filter :=
        { type_kind := type_kind, stemmer := stemmer, flags := flags, rules := [],
          error := 0 }
      let r := text_filter_terms c lib filter stem_dropped f0 log2
      if r.2.2 ≠ 0 then
        ({ obj with filter := r.1, has_filter := 1 }, r.2.1, r.2.2)
      else
        ({ obj with filter := r.1, has_filter := 1 }, r.2.1 ++ [Event.typemap_destroy], 0)

/-- Function `text_filter`: `none` when `obj` is a null pointer (the function
reads `obj->has_filter` at once); otherwise the state and the code of the
error raised, 0 when the function returns `&obj->filter`. -/
def text_filter (c : CorpusConsts) (lib : CorpusLib) (filter : Option FilterConfig)
    (s : State) : Option (State × Int) :=
  match s.obj with
  | none => none
  | some obj =>
    if obj.has_filter ≠ 0 then
      if obj.filter.error = 0 then
        some (s, 0)
      else
        let r := text_filter_build c lib filter { obj with has_filter := 0 }
          (s.log ++ [Event.filter_destroy])
        some ({ obj := some r.1, log := r.2.1 }, r.2.2)
    else
      let r := text_filter_build c lib filter obj s.log
      some ({ obj := some r.1, log := r.2.1 }, r.2.2)

/-- Sample values of the constants of the corpus library: within each family
every constant is a bit of its own. -/
def corpus_consts : CorpusConsts :=
  { CORPUS_TYPE_MAPCASE := 1, CORPUS_TYPE_MAPCOMPAT := 2, CORPUS_TYPE_MAPQUOTE := 4,
    CORPUS_TYPE_RMDI := 8, CORPUS_FILTER_IGNORE_SPACE := 1,
    CORPUS_FILTER_DROP_LETTER := 2, CORPUS_FILTER_DROP_MARK := 4,
    CORPUS_FILTER_DROP_NUMBER := 8, CORPUS_FILTER_DROP_PUNCT := 16,
    CORPUS_FILTER_DROP_SYMBOL := 32, CORPUS_FILTER_DROP_OTHER := 64,
    CORPUS_ERROR_INVAL := 1 }

/-- A library whose calls all succeed and whose type map leaves the term as
it is. -/
def lib_ok : CorpusLib :=
  { typemap_init := fun _ => 0, filter_init := fun _ _ _ => 0,
    typemap_set := fun _ term => (0, term), add_term := fun _ _ _ => 0 }

/-- A filter configuration without any option. -/
def empty_config : FilterConfig :=
  { map_case := none, map_compat := none, map_quote := none, remove_ignorable := none,
    stemmer := none, drop_letter := none, drop_mark := none, drop_number := none,
    drop_punct := none, drop_symbol := none, drop_other := none, stem_dropped := none,
    stem_except := none, drop := none, drop_except := none, combine := none }

/-- A filter that holds no rule. -/
def empty_filter : Filter :=
  { type_kind := 0, stemmer := none, flags := 0, rules := [], error := 0 }

/-- Position of a registration function in the order stem-except, drop,
drop-except, combine. -/
def RuleKind.rank : RuleKind → Nat
  | .stem_except => 0
  | .drop => 1
  | .drop_except => 2
  | .combine => 3

/-- Rules that a list of terms gives rise to when it is registered whole with
the function `k` on a filter of kind `kind`: one rule per term in list order,
missing terms skipped, nothing for an absent list; the type registered is the
one the type map leaves for the term. -/
def typed_terms (lib : CorpusLib) (kind : Nat) (k : RuleKind)
    (sterms : Option (List (Option String))) : List Rule :=
  match sterms with
  | none => []
  | some terms =>
    terms.filterMap
      (fun t => t.map (fun term => { kind := k, type := (lib.typemap_set kind term).2 }))

/-- Rules of a filter built whole from a configuration, in the order of
registration: the drop list as stem-except rules unless `stem_dropped` is
TRUE, the `stem_except` list as stem-except rules, the drop list as drop
rules, `drop_except` as drop-except rules, `combine` as combine rules. -/
def expected_rules (c : CorpusConsts) (lib : CorpusLib) (filter : Option FilterConfig) :
    List Rule :=
  (if getListElement filter FilterConfig.stem_dropped = some Lgl.TRUE then []
    else typed_terms lib (filter_type_kind c filter) RuleKind.stem_except
      (getListElement filter FilterConfig.drop)) ++
  typed_terms lib (filter_type_kind c filter) RuleKind.stem_except
    (getListElement filter FilterConfig.stem_except) ++
  typed_terms lib (filter_type_kind c filter) RuleKind.drop
    (getListElement filter FilterConfig.drop) ++
  typed_terms lib (filter_type_kind c filter) RuleKind.drop_except
    (getListElement filter FilterConfig.drop_except) ++
  typed_terms lib (filter_type_kind c filter) RuleKind.combine
    (getListElement filter FilterConfig.combine)

/-- A configuration with a drop list, a `stem_except` list and a `combine`
list; the drop list holds a missing term. -/
def sample_config : FilterConfig :=
  { empty_config with
    drop := some [some "a", none, some "the"],
    stem_except := some [some "data"],
    combine := some [some "new york"] }

/-- A text object that holds no filter yet. -/
def fresh_state : State :=
  { obj := some { has_filter := 0, filter := empty_filter, has_sentfilter := 0 }, log := [] }

/-- Relation between a filter `f` and what a run of registrations that ended
with the code `err` made of it, `L` being the rules that the run registers
when no call fails: the rules of `f1` are those of `f` followed by a leading
segment of `L`, the whole of `L` when `err = 0`; nothing else changes, except
the field `error` when `err ≠ 0`. -/
def Registered (f f1 : Filter) (err : Int) (L : List Rule) : Prop :=
  f1.type_kind = f.type_kind ∧ f1.stemmer = f.stemmer ∧ f1.flags = f.flags ∧
  (∃ rest, f.rules ++ L = f1.rules ++ rest) ∧
  (err = 0 → f1.rules = f.rules ++ L ∧ f1.error = f.error)

/-- Inner loop of the partition as the specification words it, in exact
integer arithmetic: column `end` joins the group exactly when the accumulated
line width, with the gap and the width of the column, stays below `width`. -/
def group_end_naive (has_row_names : Bool) (print_gap width : Int) (colwidths : List Int)
    (begin : Nat) : Nat → Nat → Int → Nat
  | 0, end_, _ => end_
  | k + 1, end_, linewidth =>
    if linewidth + gap_before has_row_names print_gap begin end_ + colwidths.getD end_ 0
        < width then
      group_end_naive has_row_names print_gap width colwidths begin k (end_ + 1)
        (linewidth + gap_before has_row_names print_gap begin end_ + colwidths.getD end_ 0)
    else end_

/-- The inner loop of the partition followed in exact integer arithmetic, with
a check at every operation on `int`s: the result is `true` when each
subtraction `width - print_gap` and `width - colwidths[end]` and each update
`linewidth += print_gap` and `linewidth += colwidths[end]` that the loop makes
has its exact value within the range of a C `int`, and `linewidth` is below
`width` after each update. -/
def group_end_checked (has_row_names : Bool) (print_gap width : Int)
    (colwidths : List Int) (begin : Nat) : Nat → Nat → Int → Bool
  | 0, _, _ => true
  | k + 1, end_, linewidth =>
    if end_ > begin || has_row_names then
      decide (IsInt32 (width - print_gap)) &&
        (if linewidth ≥ width - print_gap then true
         else
          decide (IsInt32 (linewidth + print_gap)) && decide (linewidth + print_gap < width) &&
            (decide (IsInt32 (width - colwidths.getD end_ 0)) &&
              (if linewidth + print_gap ≥ width - colwidths.getD end_ 0 then true
               else
                decide (IsInt32 (linewidth + print_gap + colwidths.getD end_ 0)) &&
                  decide (linewidth + print_gap + colwidths.getD end_ 0 < width) &&
                  group_end_checked has_row_names print_gap width colwidths begin k
                    (end_ + 1) (linewidth + print_gap + colwidths.getD end_ 0))))
    else
      decide (IsInt32 (width - colwidths.getD end_ 0)) &&
        (if linewidth ≥ width - colwidths.getD end_ 0 then true
         else
          decide (IsInt32 (linewidth + colwidths.getD end_ 0)) &&
            decide (linewidth + colwidths.getD end_ 0 < width) &&
            group_end_checked has_row_names print_gap width colwidths begin k
              (end_ + 1) (linewidth + colwidths.getD end_ 0))

/-- Width that the pass over the cells takes for the cell of index `ix`: 0 for
the missing string, its display width otherwise. -/
def cell_w (sx : Table) (ix : Nat) : Int :=
  if STRING_ELT sx.cells ix = CharSxp.NA_STRING then 0
  else charsxp_width (STRING_ELT sx.cells ix)

/-- Column widths in which entry `j` is raised to `w` when `w` is larger. -/
def raise_col (colwidths : List Int) (j : Nat) (w : Int) : List Int :=
  if w > colwidths.getD j 0 then colwidths.set j w else colwidths

/-- Column widths obtained when every cell `ix`, in index order, raises the
width of column `ix / nrow`, starting from the widths of the headers. -/
def colwidths_by_column (sx : Table) : List Int :=
  (List.range sx.cells.length).foldl
    (fun colwidths ix => raise_col colwidths (ix / sx.nrow) (cell_w sx ix))
    (init_colwidths sx)

/-! ## The cells printed by `print_range`

The loops of `print_range` once more, keeping of their effects the list of the
cells printed, each as its pair (row, column), instead of the text. -/

/-- Cell loop of a data row of `print_range`, run over the list of the column
indices still to visit: the cells printed so far, the count `nprint`, and
whether the function returned from inside the loop. -/
def row_cells_trace (i : Nat) (max : Int) :
    List Nat → List (Nat × Nat) → Int → List (Nat × Nat) × Int × Bool
  | [], cells, nprint => (cells, nprint, false)
  | j :: js, cells, nprint =>
    if nprint = max then (cells, nprint, true)
    else row_cells_trace i max js (cells ++ [(i, j)]) (add32 nprint 1)

/-- Row loop of `print_range`, run over the list of the row indices still to
visit: the cells printed and the returned count. -/
def rows_trace (begin end_ : Nat) (max : Int) :
    List Nat → List (Nat × Nat) → Int → List (Nat × Nat) × Int
  | [], cells, nprint => (cells, nprint)
  | i :: is, cells, nprint =>
    if nprint = max then (cells, nprint)
    else
      let r := row_cells_trace i max (List.range' begin (end_ - begin)) cells nprint
      if r.2.2 then (r.1, r.2.1)
      else rows_trace begin end_ max is r.1 r.2.1

/-- Cells printed by a call of `print_range`, and the returned count. -/
def range_trace (sx : Table) (begin end_ : Nat) (max : Int) : List (Nat × Nat) × Int :=
  rows_trace begin end_ max (List.range sx.nrow) [] 0

/-- Cells printed by `print_table`: those of its calls of `print_range`, in
the order of the calls. -/
def table_cells (sx : Table) (r : Render) : List (Nat × Nat) :=
  r.calls.flatMap (fun c => (range_trace sx c.begin c.end_ c.max).1)

/-- Cells of the column group `[begin, end)` in the order of an uncapped
render: rows in increasing order, and within a row columns in increasing
order. -/
def group_cells (nrow begin end_ : Nat) : List (Nat × Nat) :=
  (List.range nrow).flatMap
    (fun i => (List.range' begin (end_ - begin)).map (fun j => (i, j)))

/-- A configuration whose `map_case` is TRUE, `map_compat` FALSE and
`map_quote` NA, without any other option. -/
def case_only_config : FilterConfig :=
  { empty_config with
    map_case := some Lgl.TRUE,
    map_compat := some Lgl.FALSE,
    map_quote := some Lgl.NA }

/-- A text object that holds a filter and a sentence filter, both sound. -/
def cached_state : State :=
  { obj := some { has_filter := 1, filter := empty_filter, has_sentfilter := 1 },
    log := [] }

/-- A filter that holds no rule and whose field `error` is set. -/
def failed_filter : Filter :=
  { type_kind := 0, stemmer := none, flags := 0, rules := [], error := 1 }

/-- A text object that holds a filter whose field `error` is set. -/
def failed_state : State :=
  { obj := some { has_filter := 1, filter := failed_filter, has_sentfilter := 0 },
    log := [] }

/-- Text of the data rows of a group under a budget of cells, as the
specification words the cap: rows are rendered in order while cells remain
under the cap; a row that the budget covers is rendered in full; a row that
the budget covers in part is rendered through its last cell under the cap and
ended with a newline, and nothing follows it. -/
def capped_rows (sx : Table) (begin end_ : Nat) (print_gap : Int) (right : Bool)
    (namewidth : Int) (colwidths : List Int) : List Nat → Int → List Item
  | [], _ => []
  | i :: is, budget =>
    if budget = 0 then []
    else if ((end_ - begin : Nat) : Int) ≤ budget then
      row_line sx i begin end_ print_gap right namewidth colwidths ++
        capped_rows sx begin end_ print_gap right namewidth colwidths is
          (budget - ((end_ - begin : Nat) : Int))
    else
      row_label_field sx i namewidth ++
        ((List.range' begin (end_ - begin)).take budget.toNat).flatMap
          (cell_field sx i begin print_gap right colwidths) ++
        [Item.ch '\n']

/-- Text of the data rows of a group rebuilt from the list of the cells
printed: every row that has printed cells gives one line, made of its row
label, the fields of its printed cells in order and a newline; a row without
a printed cell gives nothing. -/
def render_trace (sx : Table) (begin : Nat) (print_gap : Int) (right : Bool)
    (namewidth : Int) (colwidths : List Int) (cells : List (Nat × Nat))
    (is : List Nat) : List Item :=
  is.flatMap (fun i =>
    if cells.filter (fun p => p.1 = i) = [] then []
    else
      row_label_field sx i namewidth ++
        (cells.filter (fun p => p.1 = i)).flatMap
          (fun p => cell_field sx p.1 begin print_gap right colwidths p.2) ++
        [Item.ch '\n'])

/-! ## Machine arithmetic -/

theorem wrap32_eq (x : Int) (h1 : INT_MIN ≤ x) (h2 : x ≤ INT_MAX) : wrap32 x = x := by
  unfold wrap32
  unfold INT_MIN at h1
  unfold INT_MAX at h2
  omega

/-! ## The loops of `print_table` -/

theorem group_end_bounds (hr : Bool) (print_gap width : Int) (colwidths : List Int)
    (begin : Nat) :
    ∀ (k e : Nat) (lw : Int),
      e ≤ group_end hr print_gap width colwidths begin k e lw ∧
      group_end hr print_gap width colwidths begin k e lw ≤ e + k := by
  intro k
  induction k with
  | zero => intro e lw; simp [group_end]
  | succ k ih =>
    intro e lw
    rw [group_end]
    dsimp only
    split_ifs
    all_goals first
      | omega
      | exact ⟨le_trans (Nat.le_succ e) (ih _ _).1, le_trans (ih _ _).2 (by omega)⟩

theorem next_end_bounds (sx : Table) (print_gap width namewidth : Int)
    (colwidths : List Int) (begin : Nat) (hb : begin < sx.ncol) :
    begin < next_end sx print_gap width namewidth colwidths begin ∧
    next_end sx print_gap width namewidth colwidths begin ≤ sx.ncol := by
  have h := group_end_bounds sx.row_names.isSome print_gap width colwidths begin
    (sx.ncol - begin) begin namewidth
  unfold next_end
  simp only []
  split <;> omega

/-- Loop rule for the outer loop of `print_table`: a property of the pair
(`begin`, state) that every iteration preserves holds at the exit, and the
loop does exit when it is allowed `ncol - begin` iterations. -/
theorem print_groups_inv (sx : Table) (print_gap : Int) (right : Bool) (max width : Int)
    (namewidth : Int) (colwidths : List Int) (P : Nat → Render → Prop)
    (step : ∀ b r, b < sx.ncol → P b r →
      P (next_end sx print_gap width namewidth colwidths b)
        (call_range sx print_gap right max namewidth colwidths b
          (next_end sx print_gap width namewidth colwidths b) r)) :
    ∀ (fuel begin : Nat) (r : Render), begin ≤ sx.ncol → sx.ncol - begin ≤ fuel →
      P begin r →
      ∃ r1, print_groups sx print_gap right max width namewidth colwidths fuel begin r
          = some r1 ∧ P sx.ncol r1 := by
  intro fuel
  induction fuel with
  | zero =>
    intro begin r hb hf hP
    have : begin = sx.ncol := by omega
    subst this
    exact ⟨r, by simp [print_groups], hP⟩
  | succ fuel ih =>
    intro begin r hb hf hP
    unfold print_groups
    by_cases hbn : begin = sx.ncol
    · subst hbn
      exact ⟨r, by simp, hP⟩
    · have hlt : begin < sx.ncol := by omega
      have hne := next_end_bounds sx print_gap width namewidth colwidths begin hlt
      simp only [hbn, if_false]
      exact ih _ _ hne.2 (by omega) (step begin r hlt hP)

/-! ## The pass over the cells -/

theorem scan_cells_total (sx : Table) (hlen : sx.cells.length = sx.nrow * sx.ncol) :
    ∀ (k ix j : Nat) (cw : List Int), ix + k = sx.cells.length → j = ix / sx.nrow →
      cw.length = sx.ncol →
      ∃ cw1, scan_cells sx (List.range' ix k) j cw = some cw1 ∧ cw1.length = sx.ncol := by
  intro k
  induction k with
  | zero => intro ix j cw _ _ hcw; exact ⟨cw, by simp [scan_cells], hcw⟩
  | succ k ih =>
    intro ix j cw hk hj hcw
    have hix : ix < sx.nrow * sx.ncol := by omega
    have hnrow : 0 < sx.nrow := by
      rcases Nat.eq_zero_or_pos sx.nrow with h | h
      · rw [h] at hix; simp at hix
      · exact h
    have hjlt : j < sx.ncol := by
      rw [hj]; exact Nat.div_lt_of_lt_mul hix
    rw [List.range'_succ]
    unfold scan_cells
    simp only [hcw, hjlt, if_true, Nat.ne_of_gt hnrow, if_false]
    apply ih
    · omega
    · rw [Nat.succ_div, hj]
      by_cases hd : (ix + 1) % sx.nrow = 0
      · simp [hd, Nat.dvd_of_mod_eq_zero hd]
      · have : ¬ sx.nrow ∣ ix + 1 := fun h => hd (Nat.mod_eq_zero_of_dvd h)
        simp [hd, this]
    · split_ifs <;> simp [hcw]

theorem init_colwidths_length (sx : Table) : (init_colwidths sx).length = sx.ncol := by
  unfold init_colwidths
  split <;> simp

theorem compute_colwidths_total (sx : Table)
    (hlen : sx.cells.length = sx.nrow * sx.ncol) :
    ∃ cw, compute_colwidths sx = some cw ∧ cw.length = sx.ncol := by
  unfold compute_colwidths
  rw [List.range_eq_range']
  exact scan_cells_total sx hlen _ 0 0 _ (by simp) (by simp) (init_colwidths_length sx)

/-- Loop rule lifted to `print_table`: on a grid with `nrow * ncol` cells the
width pass and the outer loop both succeed, and a property that holds of the
initial state and that every iteration preserves holds of the state at the
exit of the loop; when `ncol = 0` one more call of `print_range` follows. -/
theorem print_table_inv (sx : Table) (print_gap : Int) (right : Bool) (max width : Int)
    (hlen : sx.cells.length = sx.nrow * sx.ncol) (P : Nat → Render → Prop)
    (init : P 0 { out := [], nprint := 0, calls := [] })
    (step : ∀ cw, compute_colwidths sx = some cw → ∀ b r, b < sx.ncol → P b r →
      P (next_end sx print_gap width (compute_namewidth sx) cw b)
        (call_range sx print_gap right max (compute_namewidth sx) cw b
          (next_end sx print_gap width (compute_namewidth sx) cw b) r)) :
    ∃ cw r, compute_colwidths sx = some cw ∧ cw.length = sx.ncol ∧ P sx.ncol r ∧
      print_table sx print_gap right max width =
        some (if sx.ncol = 0 then
          call_range sx print_gap right max (compute_namewidth sx) cw 0 0 r else r) := by
  obtain ⟨cw, hcw, hl⟩ := compute_colwidths_total sx hlen
  obtain ⟨r, hr, hP⟩ := print_groups_inv sx print_gap right max width
    (compute_namewidth sx) cw P (step cw hcw) sx.ncol 0 _ (Nat.zero_le _) (by omega) init
  refine ⟨cw, r, hcw, hl, hP, ?_⟩
  unfold print_table print_table_fuel
  simp only [hcw, hr]
  split_ifs <;> rfl

/-! ## The column partition -/

/-- C1: for a grid with `ncol > 0`, the column groups that `print_table`
hands to `print_range` cover `[0, ncol)` once and in order: the list of their
beginnings followed by `ncol` is `0` followed by the list of their ends (the
first group begins at 0, each later one begins where the previous one ended,
the last one ends at `ncol`), and every group has `begin < end ≤ ncol`. -/
theorem print_table_groups_cover (sx : Table) (print_gap : Int) (right : Bool)
    (max width : Int) (hwf : sx.wf) (hcol : 0 < sx.ncol) :
    ∃ r, print_table sx print_gap right max width = some r ∧
      r.calls.map Call.begin ++ [sx.ncol] = 0 :: r.calls.map Call.end_ ∧
      ∀ c ∈ r.calls, c.begin < c.end_ ∧ c.end_ ≤ sx.ncol := by
  obtain ⟨cw, r, _, _, hP, hr⟩ := print_table_inv sx print_gap right max width hwf.1
    (fun b r => r.calls.map Call.begin ++ [b] = 0 :: r.calls.map Call.end_ ∧
      ∀ c ∈ r.calls, c.begin < c.end_ ∧ c.end_ ≤ sx.ncol)
    (by simp)
    (by
      intro cw _ b r hb hP
      have hne := next_end_bounds sx print_gap width (compute_namewidth sx) cw b hb
      refine ⟨?_, ?_⟩
      · simp only [call_range, List.map_append, List.map_cons, List.map_nil]
        rw [hP.1]
        simp
      · intro c hc
        simp only [call_range, List.mem_append, List.mem_singleton] at hc
        rcases hc with hc | hc
        · exact hP.2 c hc
        · subst hc
          exact hne)
  refine ⟨r, ?_, hP⟩
  rw [hr, if_neg (by omega)]

theorem grid32_wf : grid32.wf := by
  simp [Table.wf, grid32, CharSxp.ok, charsxp_width, txt, INT_MAX]

/-- The cover of C1 on the 3-row, 2-column grid. -/
theorem print_table_groups_cover_witness :
    grid32.wf ∧ 0 < grid32.ncol ∧
    ∃ r, print_table grid32 1 true 100 80 = some r ∧
      r.calls.map Call.begin ++ [grid32.ncol] = 0 :: r.calls.map Call.end_ ∧
      ∀ c ∈ r.calls, c.begin < c.end_ ∧ c.end_ ≤ grid32.ncol :=
  ⟨grid32_wf, by decide, print_table_groups_cover grid32 1 true 100 80 grid32_wf (by decide)⟩

/-! ## Ranges of the computed widths -/

theorem STRING_ELT_ok (x : List CharSxp) (hx : ∀ e ∈ x, e.ok) (i : Nat) :
    (STRING_ELT x i).ok := by
  unfold STRING_ELT
  rw [List.getD_eq_getElem?_getD]
  cases h : x[i]? with
  | none => simp [CharSxp.ok, charsxp_width, INT_MAX]
  | some e => exact hx e (List.getElem?_mem h)

theorem label_w_range (e : CharSxp) (he : e.ok) : 0 ≤ label_w e ∧ label_w e ≤ INT_MAX := by
  unfold label_w
  split_ifs
  · simp [INT_MAX]
  · exact he

theorem namewidth_loop_range (f : Nat → Int) (hf : ∀ i, 0 ≤ f i ∧ f i ≤ INT_MAX) :
    ∀ (l : List Nat) (a : Int), 0 ≤ a ∧ a ≤ INT_MAX →
      0 ≤ l.foldl (fun namewidth i => if f i > namewidth then f i else namewidth) a ∧
      l.foldl (fun namewidth i => if f i > namewidth then f i else namewidth) a ≤ INT_MAX := by
  intro l
  induction l with
  | nil => intro a ha; simpa using ha
  | cons i l ih =>
    intro a ha
    rw [List.foldl_cons]
    apply ih
    split_ifs
    · exact hf i
    · exact ha

theorem compute_namewidth_range (sx : Table) (hwf : sx.wf) :
    0 ≤ compute_namewidth sx ∧ compute_namewidth sx ≤ INT_MAX := by
  unfold compute_namewidth
  cases hrn : sx.row_names with
  | none => simp [INT_MAX]
  | some rn =>
    exact namewidth_loop_range (fun i => label_w (STRING_ELT rn i))
      (fun i => label_w_range _ (STRING_ELT_ok rn (hwf.2.1 rn hrn).2 i)) _ 0
      (by simp [INT_MAX])

theorem init_colwidths_range (sx : Table) (hwf : sx.wf) :
    ∀ x ∈ init_colwidths sx, 0 ≤ x ∧ x ≤ INT_MAX := by
  unfold init_colwidths
  cases hcn : sx.col_names with
  | none =>
    intro x hx
    rw [List.eq_of_mem_replicate hx]
    simp [INT_MAX]
  | some cn =>
    intro x hx
    simp only [List.mem_map] at hx
    obtain ⟨j, _, rfl⟩ := hx
    exact label_w_range _ (STRING_ELT_ok cn (hwf.2.2.1 cn hcn).2 j)

theorem scan_cells_range (sx : Table) (hwf : sx.wf) :
    ∀ (ixs : List Nat) (j : Nat) (cw cw1 : List Int),
      scan_cells sx ixs j cw = some cw1 →
      (∀ x ∈ cw, 0 ≤ x ∧ x ≤ INT_MAX) → ∀ x ∈ cw1, 0 ≤ x ∧ x ≤ INT_MAX := by
  intro ixs
  induction ixs with
  | nil =>
    intro j cw cw1 h hcw
    simp only [scan_cells, Option.some.injEq] at h
    subst h
    exact hcw
  | cons ix ixs ih =>
    intro j cw cw1 h hcw
    rw [scan_cells] at h
    dsimp only at h
    split_ifs at h with h1 h2 h3 h4
    all_goals first
      | exact ih _ _ _ h hcw
      | (refine ih _ _ _ h ?_
         intro x hx
         rcases List.mem_or_eq_of_mem_set hx with hx | hx
         · exact hcw x hx
         · subst hx
           first
             | exact (STRING_ELT_ok sx.cells hwf.2.2.2.1 ix)
             | simp [INT_MAX])

theorem compute_colwidths_range (sx : Table) (hwf : sx.wf) (cw : List Int)
    (h : compute_colwidths sx = some cw) : ∀ x ∈ cw, 0 ≤ x ∧ x ≤ INT_MAX :=
  scan_cells_range sx hwf _ _ _ _ h (init_colwidths_range sx hwf)

theorem getD_range (cw : List Int) (hcw : ∀ x ∈ cw, 0 ≤ x ∧ x ≤ INT_MAX) (j : Nat) :
    0 ≤ cw.getD j 0 ∧ cw.getD j 0 ≤ INT_MAX := by
  rw [List.getD_eq_getElem?_getD]
  cases h : cw[j]? with
  | none => simp [INT_MAX]
  | some e => exact hcw e (List.getElem?_mem h)

/-! ## Line width of a column group -/

theorem sub32_exact (a b : Int) (h1 : INT_MIN ≤ a - b) (h2 : a - b ≤ INT_MAX) :
    sub32 a b = a - b := wrap32_eq _ h1 h2

theorem add32_exact (a b : Int) (h1 : INT_MIN ≤ a + b) (h2 : a + b ≤ INT_MAX) :
    add32 a b = a + b := wrap32_eq _ h1 h2

theorem group_width_self (hr : Bool) (nw print_gap : Int) (cw : List Int) (begin : Nat) :
    group_width hr nw print_gap cw begin begin = nw := by
  simp [group_width]

theorem group_width_succ (hr : Bool) (nw print_gap : Int) (cw : List Int)
    (begin e : Nat) (hbe : begin ≤ e) :
    group_width hr nw print_gap cw begin (e + 1) =
      group_width hr nw print_gap cw begin e + gap_before hr print_gap begin e
        + cw.getD e 0 := by
  unfold group_width
  have h1 : e + 1 - begin = (e - begin) + 1 := by omega
  have h2 : begin + (e - begin) = e := by omega
  rw [h1, List.range'_1_concat, List.map_append, List.sum_append]
  simp only [List.map_cons, List.map_nil, List.sum_cons, List.sum_nil, h2]
  ring

/-- Invariant of the inner loop of the partition: under the preconditions on
the configuration, `linewidth` is the computed width of `[begin, end)` and
stays below `width` as soon as a column has been taken. -/
theorem group_end_width (hr : Bool) (print_gap width : Int) (cw : List Int)
    (begin : Nat) (nw : Int)
    (hgap : 0 ≤ print_gap ∧ print_gap ≤ INT_MAX) (hw : 1 ≤ width ∧ width ≤ INT_MAX)
    (hcw : ∀ x ∈ cw, 0 ≤ x ∧ x ≤ INT_MAX) :
    ∀ (k e : Nat) (lw : Int), begin ≤ e →
      lw = group_width hr nw print_gap cw begin e →
      0 ≤ lw → lw ≤ INT_MAX → (e = begin ∨ lw < width) →
      group_end hr print_gap width cw begin k e lw = begin ∨
      group_width hr nw print_gap cw begin
        (group_end hr print_gap width cw begin k e lw) < width := by
  intro k
  induction k with
  | zero =>
    intro e lw _ hlw _ _ hor
    simp only [group_end]
    rw [← hlw]
    exact hor
  | succ k ih =>
    intro e lw hbe hlw h0 hmax hor
    have hc := getD_range cw hcw e
    have hstop : e = begin ∨ group_width hr nw print_gap cw begin e < width := by
      rw [← hlw]; exact hor
    have hM : INT_MAX = 2147483647 := rfl
    have hm : INT_MIN = -2147483648 := rfl
    have hs1 : sub32 width print_gap = width - print_gap :=
      sub32_exact _ _ (by omega) (by omega)
    have hs2 : sub32 width (cw.getD e 0) = width - cw.getD e 0 :=
      sub32_exact _ _ (by omega) (by omega)
    rw [group_end]
    dsimp only
    rw [hs1, hs2]
    by_cases hg : (decide (e > begin) || hr) = true
    · simp only [hg, Bool.true_and, if_true, decide_eq_true_eq]
      by_cases h1 : lw ≥ width - print_gap
      · simp only [h1, if_true]; exact hstop
      · simp only [h1, if_false]
        have ha : add32 lw print_gap = lw + print_gap :=
          add32_exact _ _ (by omega) (by omega)
        rw [ha]
        by_cases h2 : lw + print_gap ≥ width - cw.getD e 0
        · simp only [h2, if_true]; exact hstop
        · simp only [h2, if_false]
          have hb : add32 (lw + print_gap) (cw.getD e 0) = lw + print_gap + cw.getD e 0 :=
            add32_exact _ _ (by omega) (by omega)
          rw [hb]
          refine ih (e + 1) _ (by omega) ?_ (by omega) (by omega) (Or.inr (by omega))
          rw [group_width_succ _ _ _ _ _ _ hbe, ← hlw]
          simp [gap_before, hg]
    · simp only [hg, Bool.false_and, Bool.false_eq_true, if_false]
      by_cases h2 : lw ≥ width - cw.getD e 0
      · simp only [h2, if_true]; exact hstop
      · simp only [h2, if_false]
        have hb : add32 lw (cw.getD e 0) = lw + cw.getD e 0 :=
          add32_exact _ _ (by omega) (by omega)
        rw [hb]
        refine ih (e + 1) _ (by omega) ?_ (by omega) (by omega) (Or.inr (by omega))
        rw [group_width_succ _ _ _ _ _ _ hbe, ← hlw]
        simp [gap_before, hg]

/-- Every group chosen by the partition has a computed width below `width`,
or is the forced single column. -/
theorem next_end_width (sx : Table) (print_gap width : Int) (cw : List Int)
    (begin : Nat) (nw : Int)
    (hgap : 0 ≤ print_gap ∧ print_gap ≤ INT_MAX) (hw : 1 ≤ width ∧ width ≤ INT_MAX)
    (hnw : 0 ≤ nw ∧ nw ≤ INT_MAX) (hcw : ∀ x ∈ cw, 0 ≤ x ∧ x ≤ INT_MAX) :
    group_width sx.row_names.isSome nw print_gap cw begin
        (next_end sx print_gap width nw cw begin) < width ∨
    next_end sx print_gap width nw cw begin = begin + 1 := by
  have h := group_end_width sx.row_names.isSome print_gap width cw begin nw hgap hw hcw
    (sx.ncol - begin) begin nw (le_refl _) (group_width_self _ _ _ _ _).symm hnw.1 hnw.2
    (Or.inl rfl)
  unfold next_end
  dsimp only
  split_ifs with hbe
  · right; omega
  · rcases h with h | h
    · exact absurd h.symm hbe
    · left; exact h

/-- C2: for a grid with `ncol > 0`, `print_gap ≥ 0` and `line_width ≥ 1` (both
C `int`s), every column group handed to `print_range` has a computed line
width at most `line_width`, or consists of exactly one column. -/
theorem print_table_group_fits (sx : Table) (print_gap : Int) (right : Bool)
    (max width : Int) (hwf : sx.wf) (hcol : 0 < sx.ncol)
    (hgap : 0 ≤ print_gap ∧ print_gap ≤ INT_MAX) (hw : 1 ≤ width ∧ width ≤ INT_MAX) :
    ∃ r cw, print_table sx print_gap right max width = some r ∧
      compute_colwidths sx = some cw ∧
      ∀ c ∈ r.calls,
        group_width sx.row_names.isSome (compute_namewidth sx) print_gap cw c.begin c.end_
          ≤ width ∨
        c.end_ = c.begin + 1 := by
  obtain ⟨cw, r, hcw, _, hP, hr⟩ := print_table_inv sx print_gap right max width hwf.1
    (fun _ r => ∀ cw, compute_colwidths sx = some cw → ∀ c ∈ r.calls,
        group_width sx.row_names.isSome (compute_namewidth sx) print_gap cw c.begin c.end_
          ≤ width ∨
        c.end_ = c.begin + 1)
    (by simp)
    (by
      intro cw hcw b r _ hP cw1 hcw1 c hc
      have hcc : cw1 = cw := by rw [hcw] at hcw1; exact (Option.some.inj hcw1).symm
      subst hcc
      simp only [call_range, List.mem_append, List.mem_singleton] at hc
      rcases hc with hc | hc
      · exact hP cw1 hcw c hc
      · subst hc
        rcases next_end_width sx print_gap width cw1 b (compute_namewidth sx) hgap hw
          (compute_namewidth_range sx hwf) (compute_colwidths_range sx hwf cw1 hcw) with h | h
        · left; exact le_of_lt h
        · right; exact h)
  refine ⟨r, cw, ?_, hcw, hP cw hcw⟩
  rw [hr, if_neg (by omega)]

theorem wide_grid_wf : wide_grid.wf := by
  simp [Table.wf, wide_grid, CharSxp.ok, charsxp_width, txt, INT_MAX]

/-- The bound of C2 on the grid whose first column is 10 wide, printed with
`line_width = 5`; the wide column is alone in the group `[0, 1)` and the two
narrow columns share the group `[1, 3)`. -/
theorem print_table_group_fits_witness :
    (wide_grid.wf ∧ 0 < wide_grid.ncol ∧ ((0 : Int) ≤ 1 ∧ (1 : Int) ≤ INT_MAX) ∧
      ((1 : Int) ≤ 5 ∧ (5 : Int) ≤ INT_MAX)) ∧
    (∃ r cw, print_table wide_grid 1 false 100 5 = some r ∧
      compute_colwidths wide_grid = some cw ∧
      ∀ c ∈ r.calls,
        group_width wide_grid.row_names.isSome (compute_namewidth wide_grid) 1 cw
          c.begin c.end_ ≤ 5 ∨
        c.end_ = c.begin + 1) ∧
    compute_colwidths wide_grid = some [10, 1, 1] ∧
    (print_table wide_grid 1 false 100 5).map
      (fun r => r.calls.map (fun c => (c.begin, c.end_))) = some [(0, 1), (1, 3)] :=
  ⟨⟨wide_grid_wf, by decide, by decide, by decide⟩,
    print_table_group_fits wide_grid 1 false 100 5 wide_grid_wf (by decide) (by decide)
      (by decide),
    by decide, by decide⟩

/-! ## The print macros -/

theorem PRINT_SPACES_eq (buf : List Item) (n : Int) :
    PRINT_SPACES buf n = buf ++ spaces n.toNat := by
  unfold PRINT_SPACES
  split_ifs with h
  · rfl
  · have : n.toNat = 0 := by omega
    simp [this, spaces]

theorem PRINT_ENTRY_eq (right : Bool) (buf : List Item) (s : List Char) (w c : Int) :
    PRINT_ENTRY right buf s w (c - w) = buf ++ aligned right s w c := by
  unfold PRINT_ENTRY aligned
  cases right <;> simp [PRINT_SPACES_eq, PRINT_STRING]

theorem gap_spaces_eq (hr : Bool) (print_gap : Int) (begin j : Nat) (buf : List Item) :
    (if (decide (j > begin) || hr) = true then PRINT_SPACES buf print_gap else buf) =
      buf ++ spaces (gap_before hr print_gap begin j).toNat := by
  unfold gap_before
  split_ifs
  · exact PRINT_SPACES_eq _ _
  · simp [spaces]

theorem sub32_widths (c w : Int) (hc : 0 ≤ c ∧ c ≤ INT_MAX) (hw : 0 ≤ w ∧ w ≤ INT_MAX) :
    sub32 c w = c - w := by
  have hM : INT_MAX = 2147483647 := rfl
  have hm : INT_MIN = -2147483648 := rfl
  exact sub32_exact _ _ (by omega) (by omega)

/-! ## The loops of `print_range` -/

theorem print_header_cols_eq (cn : List CharSxp) (hcn : ∀ e ∈ cn, e.ok) (hr : Bool)
    (begin : Nat) (print_gap : Int) (right : Bool) (cw : List Int)
    (hcw : ∀ x ∈ cw, 0 ≤ x ∧ x ≤ INT_MAX) :
    ∀ (js : List Nat) (buf : List Item),
      print_header_cols cn hr begin print_gap right cw js buf =
        buf ++ js.flatMap (header_field cn hr begin print_gap right cw) := by
  intro js
  induction js with
  | nil => intro buf; simp [print_header_cols]
  | cons j js ih =>
    intro buf
    rw [print_header_cols, ih, gap_spaces_eq,
      sub32_widths _ _ (getD_range cw hcw j) (label_w_range _ (STRING_ELT_ok cn hcn j)),
      PRINT_ENTRY_eq]
    simp [header_field, List.flatMap_cons]

/-- The cell loop of a data row: it prints the fields of the first
`max - nprint` columns still to visit, and returns from inside the loop, after
a newline, exactly when more columns than that remain. -/
theorem print_row_cells_eq (sx : Table) (hcells : ∀ e ∈ sx.cells, e.ok) (i begin : Nat)
    (print_gap : Int) (right : Bool) (max : Int) (hmax : max ≤ INT_MAX) (cw : List Int)
    (hcw : ∀ x ∈ cw, 0 ≤ x ∧ x ≤ INT_MAX) :
    ∀ (js : List Nat) (buf : List Item) (n : Int), 0 ≤ n → n ≤ max →
      print_row_cells sx i begin print_gap right max cw js buf n =
        (buf ++ (js.take (max - n).toNat).flatMap (cell_field sx i begin print_gap right cw)
            ++ (if n + js.length > max then [Item.ch '\n'] else []),
          min (n + js.length) max, decide (n + js.length > max)) := by
  intro js
  induction js with
  | nil =>
    intro buf n h0 hn
    have : ¬ n > max := by omega
    simp [print_row_cells, this, hn]
  | cons j js ih =>
    intro buf n h0 hn
    rw [print_row_cells]
    by_cases hnm : n = max
    · subst hnm
      have hlen : ((j :: js).length : Int) = (js.length : Int) + 1 := by simp
      have h1 : n + ((j :: js).length : Int) > n := by omega
      have h2 : min (n + ((j :: js).length : Int)) n = n := by omega
      rw [if_pos rfl, if_pos h1, h2]
      simp [h1, PRINT_CHAR]
    · have hM : INT_MAX = 2147483647 := rfl
      have hm : INT_MIN = -2147483648 := rfl
      have ha : add32 n 1 = n + 1 := add32_exact _ _ (by omega) (by omega)
      simp only [hnm, if_false]
      rw [ih _ _ (by rw [ha]; omega) (by rw [ha]; omega), gap_spaces_eq,
        sub32_widths _ _ (getD_range cw hcw j) (STRING_ELT_ok sx.cells hcells _),
        PRINT_ENTRY_eq, ha]
      have ht : (max - n).toNat = (max - (n + 1)).toNat + 1 := by omega
      have hlen : ((j :: js).length : Int) = (js.length : Int) + 1 := by simp
      rw [ht, List.take_succ_cons, List.flatMap_cons, hlen]
      have e1 : n + 1 + (js.length : Int) = n + ((js.length : Int) + 1) := by ring
      rw [e1]
      simp [cell_field, List.append_assoc]

theorem print_row_name_eq (sx : Table) (hwf : sx.wf) (i : Nat) (nw : Int)
    (hnw : 0 ≤ nw ∧ nw ≤ INT_MAX) (buf : List Item) :
    print_row_name sx i nw buf = buf ++ row_label_field sx i nw := by
  unfold print_row_name row_label_field
  cases hrn : sx.row_names with
  | none => simp
  | some rn =>
    dsimp only
    rw [sub32_widths _ _ hnw (label_w_range _ (STRING_ELT_ok rn (hwf.2.1 rn hrn).2 i)),
      PRINT_SPACES_eq]
    simp [PRINT_STRING]

/-- One iteration of the row loop when the remaining budget covers the whole
row: the line of the row is flushed and the count grows by the number of
columns of the group. -/
theorem print_rows_step (sx : Table) (hwf : sx.wf) (begin end_ : Nat) (print_gap : Int)
    (right : Bool) (max : Int) (hmax : max ≤ INT_MAX) (nw : Int)
    (hnw : 0 ≤ nw ∧ nw ≤ INT_MAX) (cw : List Int) (hcw : ∀ x ∈ cw, 0 ≤ x ∧ x ≤ INT_MAX)
    (i : Nat) (is : List Nat) (out : List Item) (n : Int) (h0 : 0 ≤ n) (hne : n ≠ max)
    (hfit : n + ((end_ - begin : Nat) : Int) ≤ max) :
    print_rows sx begin end_ print_gap right max nw cw (i :: is) out n =
      print_rows sx begin end_ print_gap right max nw cw is
        (out ++ row_line sx i begin end_ print_gap right nw cw)
        (n + ((end_ - begin : Nat) : Int)) := by
  have hle : n ≤ max := by omega
  have hlen : (List.range' begin (end_ - begin)).length = end_ - begin := by simp
  have hk : ¬ (n + ((end_ - begin : Nat) : Int) > max) := by omega
  rw [print_rows]
  simp only [hne, if_false]
  rw [print_row_cells_eq sx hwf.2.2.2.1 i begin print_gap right max hmax cw hcw _ _ n h0 hle,
    print_row_name_eq sx hwf i nw hnw, hlen]
  simp only [hk, decide_False, Bool.false_eq_true, if_false]
  rw [List.take_of_length_le (by rw [hlen]; omega), min_eq_left hfit]
  simp [row_line, PRINT_CHAR, List.append_assoc]

/-- One iteration of the row loop when the budget ends inside the row: the
label, the fields of the first `max - nprint` columns and a newline are
flushed, and the function returns `max`. -/
theorem print_rows_cut (sx : Table) (hwf : sx.wf) (begin end_ : Nat) (print_gap : Int)
    (right : Bool) (max : Int) (hmax : max ≤ INT_MAX) (nw : Int)
    (hnw : 0 ≤ nw ∧ nw ≤ INT_MAX) (cw : List Int) (hcw : ∀ x ∈ cw, 0 ≤ x ∧ x ≤ INT_MAX)
    (i : Nat) (is : List Nat) (out : List Item) (n : Int) (h0 : 0 ≤ n) (hlt : n < max)
    (hcut : max < n + ((end_ - begin : Nat) : Int)) :
    print_rows sx begin end_ print_gap right max nw cw (i :: is) out n =
      (out ++ (row_label_field sx i nw ++
          ((List.range' begin (end_ - begin)).take (max - n).toNat).flatMap
            (cell_field sx i begin print_gap right cw) ++ [Item.ch '\n']),
        max) := by
  have hle : n ≤ max := by omega
  have hne : n ≠ max := by omega
  have hlen : (List.range' begin (end_ - begin)).length = end_ - begin := by simp
  have hk : n + ((end_ - begin : Nat) : Int) > max := by omega
  rw [print_rows]
  simp only [hne, if_false]
  rw [print_row_cells_eq sx hwf.2.2.2.1 i begin print_gap right max hmax cw hcw _ _ n h0 hle,
    print_row_name_eq sx hwf i nw hnw, hlen]
  simp only [hk, decide_True, if_true]
  rw [min_eq_right (le_of_lt hcut)]
  simp [List.append_assoc]

/-- Count returned by the row loop. -/
theorem print_rows_count (sx : Table) (hwf : sx.wf) (begin end_ : Nat) (print_gap : Int)
    (right : Bool) (max : Int) (hmax : max ≤ INT_MAX) (nw : Int)
    (hnw : 0 ≤ nw ∧ nw ≤ INT_MAX) (cw : List Int) (hcw : ∀ x ∈ cw, 0 ≤ x ∧ x ≤ INT_MAX) :
    ∀ (is : List Nat) (out : List Item) (n : Int), 0 ≤ n → n ≤ max →
      (print_rows sx begin end_ print_gap right max nw cw is out n).2 =
        min max (n + (is.length : Int) * ((end_ - begin : Nat) : Int)) := by
  intro is
  induction is with
  | nil =>
    intro out n _ hn
    simp [print_rows, hn]
  | cons i is ih =>
    intro out n h0 hn
    have hprod : 0 ≤ (is.length : Int) * ((end_ - begin : Nat) : Int) :=
      mul_nonneg (Int.ofNat_nonneg _) (Int.ofNat_nonneg _)
    have hlen : ((i :: is).length : Int) * ((end_ - begin : Nat) : Int) =
        ((end_ - begin : Nat) : Int) + (is.length : Int) * ((end_ - begin : Nat) : Int) := by
      simp only [List.length_cons, Nat.cast_add, Nat.cast_one]
      ring
    rw [hlen]
    by_cases hnm : n = max
    · rw [print_rows]
      simp only [hnm, if_true]
      omega
    · by_cases hfit : n + ((end_ - begin : Nat) : Int) ≤ max
      · rw [print_rows_step sx hwf begin end_ print_gap right max hmax nw hnw cw hcw i is out
          n h0 hnm hfit, ih _ _ (by omega) hfit]
        congr 1
        ring
      · rw [print_rows_cut sx hwf begin end_ print_gap right max hmax nw hnw cw hcw i is out
          n h0 (by omega) (by omega)]
        simp only
        omega

/-- Count returned by `print_range`: the budget or the number of cells of the
group, whichever is smaller. -/
theorem print_range_count (sx : Table) (hwf : sx.wf) (begin end_ : Nat) (print_gap : Int)
    (right : Bool) (max : Int) (hmax : 0 ≤ max ∧ max ≤ INT_MAX) (nw : Int)
    (hnw : 0 ≤ nw ∧ nw ≤ INT_MAX) (cw : List Int) (hcw : ∀ x ∈ cw, 0 ≤ x ∧ x ≤ INT_MAX) :
    (print_range sx begin end_ print_gap right max nw cw).2 =
      min max ((sx.nrow : Int) * ((end_ - begin : Nat) : Int)) := by
  unfold print_range
  rw [print_rows_count sx hwf begin end_ print_gap right max hmax.2 nw hnw cw hcw _ _ 0
    (le_refl _) hmax.1]
  simp

/-- C3: for a well-formed grid and a cap `max_cells ≥ 0` (a C `int`),
`print_table` returns `min(max_cells, nrow * ncol)`; every call of
`print_range` receives the remaining budget, `max_cells` minus the cells
already printed by the groups before it. -/
theorem print_table_count (sx : Table) (print_gap : Int) (right : Bool)
    (max width : Int) (hwf : sx.wf) (hmax : 0 ≤ max ∧ max ≤ INT_MAX) :
    ∃ r, print_table sx print_gap right max width = some r ∧
      r.nprint = min max ((sx.nrow : Int) * (sx.ncol : Int)) ∧
      ∀ c ∈ r.calls, c.max = max - min max ((sx.nrow : Int) * (c.begin : Int)) := by
  have hM : INT_MAX = 2147483647 := rfl
  have hm : INT_MIN = -2147483648 := rfl
  have hnw := compute_namewidth_range sx hwf
  obtain ⟨cw, r, hcw, _, hP, hr⟩ := print_table_inv sx print_gap right max width hwf.1
    (fun b r => r.nprint = min max ((sx.nrow : Int) * (b : Int)) ∧
      ∀ c ∈ r.calls, c.max = max - min max ((sx.nrow : Int) * (c.begin : Int)))
    (by simp [hmax.1])
    (by
      intro cw hcw b r hb hP
      have hne := next_end_bounds sx print_gap width (compute_namewidth sx) cw b hb
      have hrange := compute_colwidths_range sx hwf cw hcw
      have hA : 0 ≤ (sx.nrow : Int) * (b : Int) :=
        mul_nonneg (Int.ofNat_nonneg _) (Int.ofNat_nonneg _)
      have hs : sub32 max r.nprint = max - r.nprint :=
        sub32_exact _ _ (by rw [hP.1]; omega) (by rw [hP.1]; omega)
      refine ⟨?_, ?_⟩
      · simp only [call_range]
        rw [hs, print_range_count sx hwf _ _ _ _ _ (by rw [hP.1]; omega) _ hnw cw hrange]
        have hB : 0 ≤ (sx.nrow : Int) *
            ((next_end sx print_gap width (compute_namewidth sx) cw b - b : Nat) : Int) :=
          mul_nonneg (Int.ofNat_nonneg _) (Int.ofNat_nonneg _)
        have hsum : (sx.nrow : Int) *
            (next_end sx print_gap width (compute_namewidth sx) cw b : Int) =
            (sx.nrow : Int) * (b : Int) + (sx.nrow : Int) *
              ((next_end sx print_gap width (compute_namewidth sx) cw b - b : Nat) : Int) := by
          rw [Nat.cast_sub (le_of_lt hne.1)]
          ring
        rw [hsum, add32_exact _ _ (by rw [hP.1]; omega) (by rw [hP.1]; omega), hP.1]
        omega
      · intro c hc
        simp only [call_range, List.mem_append, List.mem_singleton] at hc
        rcases hc with hc | hc
        · exact hP.2 c hc
        · subst hc
          simp only [hs]
          rw [hP.1])
  by_cases hz : sx.ncol = 0
  · refine ⟨_, hr, ?_⟩
    have hrange := compute_colwidths_range sx hwf cw hcw
    have hn0 : r.nprint = 0 := by
      rw [hP.1, hz]
      simp [hmax.1]
    have hs : sub32 max r.nprint = max := by
      rw [hn0, sub32_exact max 0 (by omega) (by omega)]
      simp
    simp only [hz, if_true, call_range]
    refine ⟨?_, ?_⟩
    · rw [hs, print_range_count sx hwf _ _ _ _ _ hmax _ hnw cw hrange, hn0]
      simp [hmax.1, add32, wrap32]
    · intro c hc
      simp only [List.mem_append, List.mem_singleton] at hc
      rcases hc with hc | hc
      · exact hP.2 c hc
      · subst hc
        simp [hs, hmax.1]
  · refine ⟨r, ?_, hP⟩
    rw [hr, if_neg hz]

/-- The count of C3 on the 3-row, 2-column grid: with `max_cells = 2` the
returned count is 2, and without an effective cap it is 6. -/
theorem print_table_count_witness :
    (grid32.wf ∧ ((0 : Int) ≤ 2 ∧ (2 : Int) ≤ INT_MAX)) ∧
    (∃ r, print_table grid32 1 true 2 80 = some r ∧
      r.nprint = min 2 ((grid32.nrow : Int) * (grid32.ncol : Int)) ∧
      ∀ c ∈ r.calls, c.max = 2 - min 2 ((grid32.nrow : Int) * (c.begin : Int))) ∧
    (print_table grid32 1 true 2 80).map (fun r => r.nprint) = some 2 ∧
    (print_table grid32 1 true 100 80).map (fun r => r.nprint) = some 6 :=
  ⟨⟨grid32_wf, by decide⟩,
    print_table_count grid32 1 true 2 80 grid32_wf (by decide), by decide, by decide⟩

/-- C4 fails on the code: on the 1-by-1 grid whose only cell is the missing
string, the width computation leaves `colwidth[0] = 0` although the cell is
printed as "NA" with display width 2, so the padding `colwidth[0] - w` that
`print_range` computes for the cell is `-2`; the cell is printed without
padding, 2 columns wide in a column of width 0. -/
theorem colwidth_below_missing_cell :
    ∃ cw, compute_colwidths na_grid = some cw ∧ cw.getD 0 0 = 0 ∧
      charsxp_width (STRING_ELT na_grid.cells (0 + 0 * na_grid.nrow)) = 2 ∧
      sub32 (cw.getD 0 0)
        (charsxp_width (STRING_ELT na_grid.cells (0 + 0 * na_grid.nrow))) = -2 ∧
      (print_table na_grid 1 false 100 80).map (fun r => r.out) =
        some [Item.str ['N', 'A'] 2, Item.ch '\n'] :=
  ⟨[0], by decide, by decide, by decide, by decide, by decide⟩

/-! ## The trace of `print_table` -/

theorem print_range_zero (sx : Table) (begin end_ : Nat) (print_gap : Int) (right : Bool)
    (nw : Int) (cw : List Int) :
    print_range sx begin end_ print_gap right 0 nw cw =
      (print_header sx begin end_ print_gap right nw cw, 0) := by
  unfold print_range
  cases List.range sx.nrow with
  | nil => simp [print_rows]
  | cons i is => simp [print_rows]

/-- Trace of `print_table` on a well-formed grid with a cap `max ≥ 0`: the
returned count, the budget handed to every call of `print_range`, and the text
written, which is the text of the calls in order. -/
theorem print_table_trace (sx : Table) (print_gap : Int) (right : Bool)
    (max width : Int) (hwf : sx.wf) (hmax : 0 ≤ max ∧ max ≤ INT_MAX) :
    ∃ r cw, print_table sx print_gap right max width = some r ∧
      compute_colwidths sx = some cw ∧
      r.nprint = min max ((sx.nrow : Int) * (sx.ncol : Int)) ∧
      (∀ c ∈ r.calls, c.max = max - min max ((sx.nrow : Int) * (c.begin : Int)) ∧
        c.begin ≤ c.end_ ∧ c.end_ ≤ sx.ncol) ∧
      r.out = r.calls.flatMap (fun c =>
        (print_range sx c.begin c.end_ print_gap right c.max (compute_namewidth sx) cw).1) := by
  have hM : INT_MAX = 2147483647 := rfl
  have hm : INT_MIN = -2147483648 := rfl
  have hnw := compute_namewidth_range sx hwf
  obtain ⟨cw, hcw0, _⟩ := compute_colwidths_total sx hwf.1
  have hrange := compute_colwidths_range sx hwf cw hcw0
  -- one call of `print_range` preserves the three properties
  have key : ∀ (b e : Nat) (r : Render), b ≤ e → e ≤ sx.ncol →
      (r.nprint = min max ((sx.nrow : Int) * (b : Int)) ∧
        (∀ c ∈ r.calls, c.max = max - min max ((sx.nrow : Int) * (c.begin : Int)) ∧
          c.begin ≤ c.end_ ∧ c.end_ ≤ sx.ncol) ∧
        r.out = r.calls.flatMap (fun c =>
          (print_range sx c.begin c.end_ print_gap right c.max (compute_namewidth sx) cw).1)) →
      ((call_range sx print_gap right max (compute_namewidth sx) cw b e r).nprint
          = min max ((sx.nrow : Int) * (e : Int)) ∧
        (∀ c ∈ (call_range sx print_gap right max (compute_namewidth sx) cw b e r).calls,
          c.max = max - min max ((sx.nrow : Int) * (c.begin : Int)) ∧
          c.begin ≤ c.end_ ∧ c.end_ ≤ sx.ncol) ∧
        (call_range sx print_gap right max (compute_namewidth sx) cw b e r).out =
          (call_range sx print_gap right max (compute_namewidth sx) cw b e r).calls.flatMap
            (fun c => (print_range sx c.begin c.end_ print_gap right c.max
              (compute_namewidth sx) cw).1)) := by
    intro b e r hbe hen hP
    have hA : 0 ≤ (sx.nrow : Int) * (b : Int) :=
      mul_nonneg (Int.ofNat_nonneg _) (Int.ofNat_nonneg _)
    have hB : 0 ≤ (sx.nrow : Int) * ((e - b : Nat) : Int) :=
      mul_nonneg (Int.ofNat_nonneg _) (Int.ofNat_nonneg _)
    have hsum : (sx.nrow : Int) * (e : Int) =
        (sx.nrow : Int) * (b : Int) + (sx.nrow : Int) * ((e - b : Nat) : Int) := by
      rw [Nat.cast_sub hbe]
      ring
    have hs : sub32 max r.nprint = max - r.nprint :=
      sub32_exact _ _ (by rw [hP.1]; omega) (by rw [hP.1]; omega)
    refine ⟨?_, ?_, ?_⟩
    · simp only [call_range]
      rw [hs, print_range_count sx hwf _ _ _ _ _ (by rw [hP.1]; omega) _ hnw cw hrange,
        hsum, add32_exact _ _ (by rw [hP.1]; omega) (by rw [hP.1]; omega), hP.1]
      omega
    · intro c hc
      simp only [call_range, List.mem_append, List.mem_singleton] at hc
      rcases hc with hc | hc
      · exact hP.2.1 c hc
      · subst hc
        refine ⟨?_, hbe, hen⟩
        simp only [hs]
        rw [hP.1]
    · simp only [call_range, List.flatMap_append, List.flatMap_cons, List.flatMap_nil,
        List.append_nil]
      rw [← hP.2.2]
  obtain ⟨cw1, r, hcw, _, hP, hr⟩ := print_table_inv sx print_gap right max width hwf.1
    (fun b r => ∀ cw1, compute_colwidths sx = some cw1 →
      (r.nprint = min max ((sx.nrow : Int) * (b : Int)) ∧
        (∀ c ∈ r.calls, c.max = max - min max ((sx.nrow : Int) * (c.begin : Int)) ∧
          c.begin ≤ c.end_ ∧ c.end_ ≤ sx.ncol) ∧
        r.out = r.calls.flatMap (fun c =>
          (print_range sx c.begin c.end_ print_gap right c.max (compute_namewidth sx) cw1).1)))
    (by intro cw1 _; simp [hmax.1])
    (by
      intro cw2 hcw2 b r hb hP cw1 hcw1
      have h1 : cw2 = cw := by rw [hcw0] at hcw2; exact (Option.some.inj hcw2).symm
      have h2 : cw1 = cw := by rw [hcw0] at hcw1; exact (Option.some.inj hcw1).symm
      subst h1
      subst h2
      have hne := next_end_bounds sx print_gap width (compute_namewidth sx) cw1 b hb
      exact key b _ r (le_of_lt hne.1) hne.2 (hP cw1 hcw0))
  have h1 : cw1 = cw := by rw [hcw0] at hcw; exact (Option.some.inj hcw).symm
  subst h1
  refine ⟨_, cw1, hr, hcw0, ?_⟩
  by_cases hz : sx.ncol = 0
  · simp only [hz, if_true]
    have h := key 0 0 r (le_refl _) (Nat.zero_le _) (by simpa [hz] using hP cw1 hcw0)
    simpa [hz] using h
  · simp only [hz, if_false]
    exact hP cw1 hcw0

/-- C5 as stated fails: with `max_cells = 0` the render of the 3-row, 2-column
grid with column labels A and B still writes the header line "A B". -/
theorem cap_zero_writes_header :
    ∃ r, print_table grid32 1 true 0 80 = some r ∧ r.nprint = 0 ∧
      bytes r.out = ['A', ' ', 'B', '\n'] ∧ r.out ≠ [] :=
  ⟨{ out := [Item.str ['A'] 1, Item.ch ' ', Item.str ['B'] 1, Item.ch '\n'],
     nprint := 0, calls := [{ begin := 0, end_ := 2, max := 0 }] },
    by decide, by decide, by decide, by decide⟩

/-- The row loop on an empty group: as long as the count differs from the
budget, every row flushes its label and a newline, and the count stays. -/
theorem print_rows_nocols (sx : Table) (hwf : sx.wf) (b : Nat) (print_gap : Int)
    (right : Bool) (max : Int) (nw : Int) (hnw : 0 ≤ nw ∧ nw ≤ INT_MAX) (cw : List Int)
    (n : Int) (hne : n ≠ max) :
    ∀ (is : List Nat) (out : List Item),
      print_rows sx b b print_gap right max nw cw is out n =
        (out ++ is.flatMap (fun i => row_label_field sx i nw ++ [Item.ch '\n']), n) := by
  intro is
  induction is with
  | nil => intro out; simp [print_rows]
  | cons i is ih =>
    intro out
    rw [print_rows]
    simp only [hne, if_false, Nat.sub_self, List.range'_zero, print_row_cells,
      Bool.false_eq_true]
    rw [ih, print_row_name_eq sx hwf i nw hnw]
    simp [PRINT_CHAR, List.append_assoc]

/-- C6 as stated fails: with `max_cells = 0` the single pass over a grid
without columns prints no row label, although row labels exist. -/
theorem no_columns_cap_zero_prints_no_label :
    rows_only.ncol = 0 ∧ rows_only.row_names = some [txt 'r'] ∧
    ∃ r, print_table rows_only 1 false 0 80 = some r ∧ r.out = [] ∧
      r.out ≠ (List.range rows_only.nrow).flatMap
        (fun i => row_label_field rows_only i (compute_namewidth rows_only)
          ++ [Item.ch '\n']) :=
  ⟨by decide, by decide,
    { out := [], nprint := 0, calls := [{ begin := 0, end_ := 0, max := 0 }] },
    by decide, by decide, by decide⟩

/-- C6, amended: for a well-formed grid with `ncol = 0`, `print_table` makes
exactly one call of `print_range`, on the empty group `[0, 0)`, and returns 0.
When `max_cells ≠ 0` the text written is the header line (present only when
column labels exist) followed by one line per row in row order, each made of
the row label padded to the name width and a newline, without any cell; when
there are no row labels each of these lines is a bare newline. When
`max_cells = 0` nothing follows the header line. -/
theorem print_table_no_columns (sx : Table) (print_gap : Int) (right : Bool)
    (max width : Int) (hwf : sx.wf) (hcol : sx.ncol = 0) (hmax : IsInt32 max) :
    ∃ r cw, print_table sx print_gap right max width = some r ∧
      compute_colwidths sx = some cw ∧
      r.calls = [{ begin := 0, end_ := 0, max := max }] ∧
      r.nprint = 0 ∧
      (max ≠ 0 → r.out =
        print_header sx 0 0 print_gap right (compute_namewidth sx) cw ++
          (List.range sx.nrow).flatMap
            (fun i => row_label_field sx i (compute_namewidth sx) ++ [Item.ch '\n'])) ∧
      (max = 0 → r.out = print_header sx 0 0 print_gap right (compute_namewidth sx) cw) := by
  have hnw := compute_namewidth_range sx hwf
  obtain ⟨cw, r, hcw, _, hP, hr⟩ := print_table_inv sx print_gap right max width hwf.1
    (fun _ r => r = { out := [], nprint := 0, calls := [] }) rfl
    (by intro cw _ b r hb _; omega)
  have hs : sub32 max 0 = max := by
    rw [sub32_exact max 0 (by simpa using hmax.1) (by simpa using hmax.2)]
    simp
  rw [if_pos hcol, hP] at hr
  refine ⟨_, cw, hr, hcw, ?_, ?_, ?_, ?_⟩
  · simp [call_range, hs]
  · simp only [call_range, hs]
    by_cases h0 : max = 0
    · rw [h0, print_range_zero]
      rfl
    · unfold print_range
      rw [print_rows_nocols sx hwf 0 print_gap right max _ hnw cw 0 (Ne.symm h0)]
      rfl
  · intro h0
    simp only [call_range, hs, List.nil_append]
    unfold print_range
    rw [print_rows_nocols sx hwf 0 print_gap right max _ hnw cw 0 (Ne.symm h0)]
  · intro h0
    simp only [call_range, hs, List.nil_append]
    rw [h0, print_range_zero]

theorem rows_only_wf : rows_only.wf := by
  simp [Table.wf, rows_only, CharSxp.ok, charsxp_width, txt, INT_MAX]

/-- The amended C6 on the grid of one labelled row and no column, with
`max_cells = 5`: the text written is the line of the label. -/
theorem print_table_no_columns_witness :
    (rows_only.wf ∧ rows_only.ncol = 0 ∧ IsInt32 5) ∧
    (∃ r cw, print_table rows_only 1 false 5 80 = some r ∧
      compute_colwidths rows_only = some cw ∧
      r.calls = [{ begin := 0, end_ := 0, max := 5 }] ∧
      r.nprint = 0 ∧
      ((5 : Int) ≠ 0 → r.out =
        print_header rows_only 0 0 1 false (compute_namewidth rows_only) cw ++
          (List.range rows_only.nrow).flatMap
            (fun i => row_label_field rows_only i (compute_namewidth rows_only)
              ++ [Item.ch '\n'])) ∧
      ((5 : Int) = 0 → r.out =
        print_header rows_only 0 0 1 false (compute_namewidth rows_only) cw)) ∧
    (print_table rows_only 1 false 5 80).map (fun r => bytes r.out) = some ['r', '\n'] :=
  ⟨⟨rows_only_wf, by decide, by decide⟩,
    print_table_no_columns rows_only 1 false 5 80 rows_only_wf (by decide) (by decide),
    by decide⟩

/-! ## Characters and display width of a buffer -/

theorem bytes_append (a b : List Item) : bytes (a ++ b) = bytes a ++ bytes b := by
  simp [bytes, List.flatMap_append]

theorem bytes_spaces (n : Nat) : bytes (spaces n) = List.replicate n ' ' := by
  induction n with
  | zero => rfl
  | succ n ih =>
    have h : bytes (spaces (n + 1)) = ' ' :: bytes (spaces n) := by
      simp [bytes, spaces, List.replicate_succ, Item.bytes]
    rw [h, ih, List.replicate_succ]

theorem bytes_str (s : List Char) (w : Int) : bytes [Item.str s w] = s := by
  simp [bytes, Item.bytes]

theorem display_width_append (a b : List Item) :
    display_width (a ++ b) = display_width a + display_width b := by
  simp [display_width, List.map_append, List.sum_append]

theorem display_width_spaces (n : Nat) : display_width (spaces n) = n := by
  induction n with
  | zero => rfl
  | succ n ih =>
    have h : display_width (spaces (n + 1)) = 1 + display_width (spaces n) := by
      simp [display_width, spaces, List.replicate_succ, Item.width]
    rw [h, ih]
    push_cast
    ring

/-- C7: alignment law of `PRINT_ENTRY` as `print_range` calls it, with the
padding `c - w` computed on C `int`s: for a text `s` of display width `w` in a
column of width `c`, `0 ≤ w ≤ c`, the entry appended to the buffer is the text
followed by `c - w` blanks when `right` is false and `c - w` blanks followed
by the text when `right` is true; the characters appended are those of the
text, unchanged, and exactly `c - w` blanks. -/
theorem PRINT_ENTRY_alignment (right : Bool) (buf : List Item) (s : List Char)
    (w c : Int) (hw : 0 ≤ w) (hwc : w ≤ c) (hc : c ≤ INT_MAX) :
    PRINT_ENTRY right buf s w (sub32 c w) =
      (if right then buf ++ (spaces (c - w).toNat ++ [Item.str s w])
       else buf ++ ([Item.str s w] ++ spaces (c - w).toNat)) ∧
    bytes (PRINT_ENTRY right buf s w (sub32 c w)) =
      (if right then bytes buf ++ (List.replicate (c - w).toNat ' ' ++ s)
       else bytes buf ++ (s ++ List.replicate (c - w).toNat ' ')) ∧
    ((c - w).toNat : Int) = c - w := by
  have hM : INT_MAX = 2147483647 := rfl
  have hm : INT_MIN = -2147483648 := rfl
  have hs : sub32 c w = c - w := sub32_exact _ _ (by omega) (by omega)
  rw [hs, PRINT_ENTRY_eq]
  refine ⟨?_, ?_, by omega⟩
  · cases right <;> simp [aligned]
  · cases right
    · simp only [aligned, Bool.false_eq_true, if_false, bytes_append, bytes_spaces,
        bytes_str]
    · simp only [aligned, if_true, bytes_append, bytes_spaces, bytes_str]

/-- The alignment law of C7 on a text of width 1 in a column of width 3. -/
theorem PRINT_ENTRY_alignment_witness :
    ((0 : Int) ≤ 1 ∧ (1 : Int) ≤ 3 ∧ (3 : Int) ≤ INT_MAX) ∧
    (PRINT_ENTRY true [] ['a'] 1 (sub32 3 1) =
      (if true then [] ++ (spaces ((3 : Int) - 1).toNat ++ [Item.str ['a'] 1])
       else [] ++ ([Item.str ['a'] 1] ++ spaces ((3 : Int) - 1).toNat)) ∧
    bytes (PRINT_ENTRY true [] ['a'] 1 (sub32 3 1)) =
      (if true then bytes [] ++ (List.replicate ((3 : Int) - 1).toNat ' ' ++ ['a'])
       else bytes [] ++ (['a'] ++ List.replicate ((3 : Int) - 1).toNat ' ')) ∧
    ((((3 : Int) - 1).toNat : Nat) : Int) = 3 - 1) ∧
    bytes (PRINT_ENTRY true [] ['a'] 1 (sub32 3 1)) = [' ', ' ', 'a'] ∧
    bytes (PRINT_ENTRY false [] ['a'] 1 (sub32 3 1)) = ['a', ' ', ' '] :=
  ⟨by decide, PRINT_ENTRY_alignment true [] ['a'] 1 3 (by decide) (by decide) (by decide),
    by decide, by decide⟩

/-! ## Text written by `print_range` -/

/-- The row loop appends to the text flushed so far. -/
theorem print_rows_out (sx : Table) (begin end_ : Nat) (print_gap : Int) (right : Bool)
    (max : Int) (nw : Int) (cw : List Int) :
    ∀ (is : List Nat) (out : List Item) (n : Int),
      print_rows sx begin end_ print_gap right max nw cw is out n =
        (out ++ (print_rows sx begin end_ print_gap right max nw cw is [] n).1,
          (print_rows sx begin end_ print_gap right max nw cw is [] n).2) := by
  intro is
  induction is with
  | nil => intro out n; simp [print_rows]
  | cons i is ih =>
    intro out n
    rw [print_rows, print_rows]
    by_cases hn : n = max
    · simp [hn]
    · simp only [hn, if_false]
      split_ifs with hs
      · simp
      · rw [ih (out ++ _), ih ([] ++ _)]
        simp [List.append_assoc]

theorem print_row_cells_col_names (sx : Table) (i begin : Nat) (print_gap : Int)
    (right : Bool) (max : Int) (cw : List Int) :
    ∀ (js : List Nat) (buf : List Item) (n : Int),
      print_row_cells { sx with col_names := none } i begin print_gap right max cw js buf n =
        print_row_cells sx i begin print_gap right max cw js buf n := by
  intro js
  induction js with
  | nil => intro buf n; rfl
  | cons j js ih =>
    intro buf n
    rw [print_row_cells, print_row_cells]
    dsimp only
    rw [ih]

/-- The row loop does not read the column labels. -/
theorem print_rows_col_names (sx : Table) (begin end_ : Nat) (print_gap : Int)
    (right : Bool) (max : Int) (nw : Int) (cw : List Int) :
    ∀ (is : List Nat) (out : List Item) (n : Int),
      print_rows { sx with col_names := none } begin end_ print_gap right max nw cw is out n =
        print_rows sx begin end_ print_gap right max nw cw is out n := by
  intro is
  induction is with
  | nil => intro out n; rfl
  | cons i is ih =>
    intro out n
    rw [print_rows, print_rows]
    have hname : ∀ buf, print_row_name { sx with col_names := none } i nw buf =
        print_row_name sx i nw buf := fun _ => rfl
    simp only [hname, print_row_cells_col_names, ih]

theorem print_header_eq (sx : Table) (hwf : sx.wf) (begin end_ : Nat) (print_gap : Int)
    (right : Bool) (nw : Int) (cw : List Int) (hcw : ∀ x ∈ cw, 0 ≤ x ∧ x ≤ INT_MAX)
    (cn : List CharSxp) (hcn : sx.col_names = some cn) :
    print_header sx begin end_ print_gap right nw cw =
      header_line cn sx.row_names.isSome begin end_ print_gap right nw cw := by
  unfold print_header header_line
  rw [hcn]
  dsimp only
  rw [print_header_cols_eq cn (hwf.2.2.1 cn hcn).2 _ _ _ _ cw hcw, PRINT_SPACES_eq]
  simp [PRINT_CHAR]

/-- C8: the text written by `print_range` for a group `[begin, end)` is its
header line followed by the text it writes for the same grid without column
labels, so the header comes once and before every data row; the header line
is empty when there are no column labels, and otherwise it is `namewidth`
blanks, then for each column `j` of the group in order the gap (`print_gap`
blanks, none when `j = begin` and there are no row labels) and the label of
column `j` aligned to `colwidths[j]` by the alignment law, then a newline. A
missing label is printed as "NA" with width 2. -/
theorem print_range_header (sx : Table) (hwf : sx.wf) (begin end_ : Nat)
    (print_gap : Int) (right : Bool) (max : Int) (nw : Int) (cw : List Int)
    (hcw : ∀ x ∈ cw, 0 ≤ x ∧ x ≤ INT_MAX) :
    (print_range sx begin end_ print_gap right max nw cw).1 =
      print_header sx begin end_ print_gap right nw cw ++
        (print_range { sx with col_names := none } begin end_ print_gap right max nw cw).1 ∧
    (sx.col_names = none → print_header sx begin end_ print_gap right nw cw = []) ∧
    (∀ cn, sx.col_names = some cn →
      print_header sx begin end_ print_gap right nw cw =
        spaces nw.toNat ++
          (List.range' begin (end_ - begin)).flatMap
            (fun j =>
              spaces (gap_before sx.row_names.isSome print_gap begin j).toNat ++
                aligned right (label_str (STRING_ELT cn j)) (label_w (STRING_ELT cn j))
                  (cw.getD j 0)) ++
          [Item.ch '\n']) ∧
    (∀ j, begin ≤ j → gap_before sx.row_names.isSome print_gap begin j =
      if j = begin ∧ sx.row_names = none then 0 else print_gap) ∧
    label_str CharSxp.NA_STRING = ['N', 'A'] ∧ label_w CharSxp.NA_STRING = 2 := by
  refine ⟨?_, ?_, ?_, ?_, rfl, rfl⟩
  · have h1 : print_header { sx with col_names := none } begin end_ print_gap right nw cw
        = [] := rfl
    unfold print_range
    rw [h1, print_rows_col_names, print_rows_out]
  · intro hnone
    simp [print_header, hnone]
  · intro cn hcn
    rw [print_header_eq sx hwf begin end_ print_gap right nw cw hcw cn hcn]
    rfl
  · intro j hj
    unfold gap_before
    cases hrn : sx.row_names with
    | none =>
      by_cases hjb : j = begin
      · simp [hjb]
      · have : j > begin := by omega
        simp [hjb, this]
    | some rn => simp

/-- The header of C8 on the 3-row, 2-column grid: column labels A and B, no
row labels, `print_gap = 1`, column widths 1 and 1 give the line "A B". -/
theorem print_range_header_witness :
    (grid32.wf ∧ ∀ x ∈ [(1 : Int), 1], 0 ≤ x ∧ x ≤ INT_MAX) ∧
    ((print_range grid32 0 2 1 true 100 0 [1, 1]).1 =
      print_header grid32 0 2 1 true 0 [1, 1] ++
        (print_range { grid32 with col_names := none } 0 2 1 true 100 0 [1, 1]).1 ∧
    (grid32.col_names = none → print_header grid32 0 2 1 true 0 [1, 1] = []) ∧
    (∀ cn, grid32.col_names = some cn →
      print_header grid32 0 2 1 true 0 [1, 1] =
        spaces (0 : Int).toNat ++
          (List.range' 0 (2 - 0)).flatMap
            (fun j =>
              spaces (gap_before grid32.row_names.isSome 1 0 j).toNat ++
                aligned true (label_str (STRING_ELT cn j)) (label_w (STRING_ELT cn j))
                  (([1, 1] : List Int).getD j 0)) ++
          [Item.ch '\n']) ∧
    (∀ j, 0 ≤ j → gap_before grid32.row_names.isSome 1 0 j =
      if j = 0 ∧ grid32.row_names = none then 0 else 1) ∧
    label_str CharSxp.NA_STRING = ['N', 'A'] ∧ label_w CharSxp.NA_STRING = 2) ∧
    bytes (print_header grid32 0 2 1 true 0 [1, 1]) = ['A', ' ', 'B', '\n'] :=
  ⟨⟨grid32_wf, by decide⟩,
    print_range_header grid32 grid32_wf 0 2 1 true 100 0 [1, 1] (by decide), by decide⟩

/-- The first `k` rows of the row loop when the budget covers them in full:
their lines are flushed in order and the loop goes on with the other rows. -/
theorem print_rows_prefix (sx : Table) (hwf : sx.wf) (begin end_ : Nat) (print_gap : Int)
    (right : Bool) (max : Int) (hmax : max ≤ INT_MAX) (nw : Int)
    (hnw : 0 ≤ nw ∧ nw ≤ INT_MAX) (cw : List Int) (hcw : ∀ x ∈ cw, 0 ≤ x ∧ x ≤ INT_MAX) :
    ∀ (k a len : Nat) (out : List Item) (n : Int), k ≤ len → 0 ≤ n →
      n + (k : Int) * ((end_ - begin : Nat) : Int) ≤ max → (k = 0 ∨ n < max) →
      print_rows sx begin end_ print_gap right max nw cw (List.range' a len) out n =
        print_rows sx begin end_ print_gap right max nw cw (List.range' (a + k) (len - k))
          (out ++ (List.range' a k).flatMap
            (fun i => row_line sx i begin end_ print_gap right nw cw))
          (n + (k : Int) * ((end_ - begin : Nat) : Int)) := by
  intro k
  induction k with
  | zero => intro a len out n _ _ _ _; simp
  | succ k ih =>
    intro a len out n hk h0 hfit hor
    have hlt : n < max := by
      rcases hor with h | h
      · omega
      · exact h
    have hm0 : (0 : Int) ≤ ((end_ - begin : Nat) : Int) := Int.ofNat_nonneg _
    have hkm : 0 ≤ (k : Int) * ((end_ - begin : Nat) : Int) :=
      mul_nonneg (Int.ofNat_nonneg _) hm0
    have hsucc : ((k + 1 : Nat) : Int) * ((end_ - begin : Nat) : Int) =
        ((end_ - begin : Nat) : Int) + (k : Int) * ((end_ - begin : Nat) : Int) := by
      push_cast
      ring
    rw [hsucc] at hfit
    have hlen : len = (len - 1) + 1 := by omega
    rw [hlen, List.range'_succ,
      print_rows_step sx hwf begin end_ print_gap right max hmax nw hnw cw hcw a _ out n h0
        (ne_of_lt hlt) (by omega),
      ih (a + 1) (len - 1) _ _ (by omega) (by omega) (by omega) ?_]
    · have e1 : a + 1 + k = a + (k + 1) := by omega
      have e2 : len - 1 - k = len - 1 + 1 - (k + 1) := by omega
      rw [e1, e2, hsucc, List.range'_succ a k]
      simp only [List.flatMap_cons, List.append_assoc]
      rw [add_assoc]
    · by_cases hk0 : k = 0
      · left; exact hk0
      · right
        rcases Nat.eq_zero_or_pos (end_ - begin) with hz | hp
        · rw [hz]; simpa using hlt
        · have hk1 : (1 : Int) ≤ (k : Int) := by omega
          have hge : ((end_ - begin : Nat) : Int) ≤
              (k : Int) * ((end_ - begin : Nat) : Int) := by nlinarith
          omega

/-- C9: for a group `[begin, end)` and a row `i` that the cap lets
`print_range` render in full (the budget covers rows `0` to `i`), the text
written by `print_range` is the header line, the lines of the rows before
`i`, then the line of row `i`, then the rest. The line of row `i` is: the row
label followed by `namewidth - w` blanks when row labels exist (so the label is
left-justified whatever `right` is; a missing label reads "NA" with width 2);
then for each column `j` of the group in order the gap (`print_gap` blanks,
none when `j = begin` and there are no row labels) and the cell stored at the
column-major index `i + j * nrow`, aligned to `colwidths[j]` by the alignment
law; then a newline. -/
theorem print_range_row_line (sx : Table) (hwf : sx.wf) (begin end_ : Nat)
    (print_gap : Int) (right : Bool) (max : Int) (hmax : 0 < max ∧ max ≤ INT_MAX)
    (nw : Int) (hnw : 0 ≤ nw ∧ nw ≤ INT_MAX) (cw : List Int)
    (hcw : ∀ x ∈ cw, 0 ≤ x ∧ x ≤ INT_MAX) (i : Nat) (hi : i < sx.nrow)
    (hfit : ((i : Int) + 1) * ((end_ - begin : Nat) : Int) ≤ max) :
    (∃ rest, (print_range sx begin end_ print_gap right max nw cw).1 =
      print_header sx begin end_ print_gap right nw cw ++
        (List.range i).flatMap (fun i1 => row_line sx i1 begin end_ print_gap right nw cw) ++
        (row_label_field sx i nw ++
          (List.range' begin (end_ - begin)).flatMap
            (fun j =>
              spaces (gap_before sx.row_names.isSome print_gap begin j).toNat ++
                aligned right (translate (STRING_ELT sx.cells (i + j * sx.nrow)))
                  (charsxp_width (STRING_ELT sx.cells (i + j * sx.nrow))) (cw.getD j 0)) ++
          [Item.ch '\n']) ++
        rest) ∧
    (sx.row_names = none → row_label_field sx i nw = []) ∧
    (∀ rn, sx.row_names = some rn →
      row_label_field sx i nw =
        [Item.str (label_str (STRING_ELT rn i)) (label_w (STRING_ELT rn i))] ++
          spaces (nw - label_w (STRING_ELT rn i)).toNat) ∧
    (∀ j, begin ≤ j → gap_before sx.row_names.isSome print_gap begin j =
      if j = begin ∧ sx.row_names = none then 0 else print_gap) := by
  refine ⟨?_, ?_, ?_, ?_⟩
  · have h := print_rows_prefix sx hwf begin end_ print_gap right max hmax.2 nw hnw cw hcw
      (i + 1) 0 sx.nrow (print_header sx begin end_ print_gap right nw cw) 0 (by omega)
      (le_refl _) (by push_cast; omega) (Or.inr hmax.1)
    refine ⟨(print_rows sx begin end_ print_gap right max nw cw
      (List.range' (0 + (i + 1)) (sx.nrow - (i + 1))) []
      (0 + ((i + 1 : Nat) : Int) * ((end_ - begin : Nat) : Int))).1, ?_⟩
    unfold print_range
    rw [List.range_eq_range', h, print_rows_out, List.range'_1_concat]
    simp only [List.flatMap_append, List.flatMap_cons, List.flatMap_nil, List.append_nil,
      Nat.zero_add, List.append_assoc, List.range_eq_range', row_line]
    rfl
  · intro hnone
    simp [row_label_field, hnone]
  · intro rn hrn
    simp [row_label_field, hrn]
  · intro j hj
    unfold gap_before
    cases hrn : sx.row_names with
    | none =>
      by_cases hjb : j = begin
      · simp [hjb]
      · have : j > begin := by omega
        simp [hjb, this]
    | some rn => simp

theorem labelled_grid_wf : labelled_grid.wf := by
  simp [Table.wf, labelled_grid, CharSxp.ok, charsxp_width, txt, INT_MAX]

/-- The line of C9 for row 1 of the labelled 2-by-2 grid, left-aligned, with
`print_gap = 1`, name width 2 and column widths 1 and 3: the text written is
the header, the line of row 0 and the line "NA b d  ". -/
theorem print_range_row_line_witness :
    (labelled_grid.wf ∧ ((0 : Int) < 100 ∧ (100 : Int) ≤ INT_MAX) ∧
      ((0 : Int) ≤ 2 ∧ (2 : Int) ≤ INT_MAX) ∧
      (∀ x ∈ [(1 : Int), 3], 0 ≤ x ∧ x ≤ INT_MAX) ∧ 1 < labelled_grid.nrow ∧
      (((1 : Nat) : Int) + 1) * ((2 - 0 : Nat) : Int) ≤ 100) ∧
    (∃ rest, (print_range labelled_grid 0 2 1 false 100 2 [1, 3]).1 =
      print_header labelled_grid 0 2 1 false 2 [1, 3] ++
        (List.range 1).flatMap (fun i1 => row_line labelled_grid i1 0 2 1 false 2 [1, 3]) ++
        (row_label_field labelled_grid 1 2 ++
          (List.range' 0 (2 - 0)).flatMap
            (fun j =>
              spaces (gap_before labelled_grid.row_names.isSome 1 0 j).toNat ++
                aligned false
                  (translate (STRING_ELT labelled_grid.cells (1 + j * labelled_grid.nrow)))
                  (charsxp_width (STRING_ELT labelled_grid.cells (1 + j * labelled_grid.nrow)))
                  (([1, 3] : List Int).getD j 0)) ++
          [Item.ch '\n']) ++
        rest) ∧
    bytes (print_range labelled_grid 0 2 1 false 100 2 [1, 3]).1 =
      [' ', ' ', ' ', 'A', ' ', 'B', ' ', ' ', '\n',
       'r', '1', ' ', 'a', ' ', 'c', 'c', 'c', '\n',
       'N', 'A', ' ', 'b', ' ', 'd', ' ', ' ', '\n'] :=
  ⟨⟨labelled_grid_wf, by decide, by decide, by decide, by decide, by decide⟩,
    (print_range_row_line labelled_grid labelled_grid_wf 0 2 1 false 100 (by decide) 2
      (by decide) [1, 3] (by decide) 1 (by decide) (by decide)).1,
    by decide⟩

/-! ## Widths of the labels and of the rendered lines -/

theorem getD_set_mono (cw : List Int) (j t : Nat) (w : Int) :
    cw.getD t 0 ≤ (if w > cw.getD j 0 then cw.set j w else cw).getD t 0 := by
  split_ifs with hw
  · simp only [List.getD_eq_getElem?_getD, List.getElem?_set] at hw ⊢
    split_ifs with h1 h2
    · subst h1
      simp only [Option.getD_some]
      omega
    · subst h1
      rw [List.getElem?_eq_none (by omega)]
    · exact le_refl _
  · exact le_refl _

theorem scan_cells_mono (sx : Table) :
    ∀ (ixs : List Nat) (j : Nat) (cw cw1 : List Int),
      scan_cells sx ixs j cw = some cw1 → ∀ t, cw.getD t 0 ≤ cw1.getD t 0 := by
  intro ixs
  induction ixs with
  | nil =>
    intro j cw cw1 h t
    simp only [scan_cells, Option.some.injEq] at h
    rw [h]
  | cons ix ixs ih =>
    intro j cw cw1 h t
    rw [scan_cells] at h
    dsimp only at h
    by_cases hj : j < cw.length
    · simp only [hj, if_true] at h
      by_cases hn : sx.nrow = 0
      · simp [hn] at h
      · simp only [hn, if_false] at h
        exact le_trans (getD_set_mono cw j t _) (ih _ _ _ h t)
    · simp [hj] at h

theorem init_colwidths_getD (sx : Table) (cn : List CharSxp) (hcn : sx.col_names = some cn)
    (j : Nat) (hj : j < sx.ncol) :
    (init_colwidths sx).getD j 0 = label_w (STRING_ELT cn j) := by
  unfold init_colwidths
  rw [hcn]
  simp [List.getD_eq_getElem?_getD, List.getElem?_map, List.getElem?_range hj]

/-- Every column width is at least the width of the label of the column. -/
theorem colwidth_ge_header (sx : Table) (cw : List Int) (hcw : compute_colwidths sx = some cw)
    (cn : List CharSxp) (hcn : sx.col_names = some cn) (j : Nat) (hj : j < sx.ncol) :
    label_w (STRING_ELT cn j) ≤ cw.getD j 0 := by
  rw [← init_colwidths_getD sx cn hcn j hj]
  exact scan_cells_mono sx _ _ _ _ hcw j

theorem namewidth_loop_ge (f : Nat → Int) :
    ∀ (l : List Nat) (a : Int),
      a ≤ l.foldl (fun namewidth i => if f i > namewidth then f i else namewidth) a ∧
      ∀ i ∈ l, f i ≤ l.foldl (fun namewidth i => if f i > namewidth then f i else namewidth) a := by
  intro l
  induction l with
  | nil => intro a; simp
  | cons i l ih =>
    intro a
    rw [List.foldl_cons]
    have h := ih (if f i > a then f i else a)
    refine ⟨le_trans ?_ h.1, ?_⟩
    · split_ifs <;> omega
    · intro k hk
      rcases List.mem_cons.1 hk with hk | hk
      · subst hk
        refine le_trans ?_ h.1
        split_ifs <;> omega
      · exact h.2 k hk

/-- The name width is at least the width of every row label. -/
theorem namewidth_ge_label (sx : Table) (rn : List CharSxp) (hrn : sx.row_names = some rn)
    (i : Nat) (hi : i < sx.nrow) :
    label_w (STRING_ELT rn i) ≤ compute_namewidth sx := by
  unfold compute_namewidth
  rw [hrn]
  exact (namewidth_loop_ge (fun i => label_w (STRING_ELT rn i)) _ 0).2 i
    (List.mem_range.2 hi)

theorem display_width_flatMap (f : Nat → List Item) (g : Nat → Int) :
    ∀ (js : List Nat), (∀ j ∈ js, display_width (f j) = g j) →
      display_width (js.flatMap f) = (js.map g).sum := by
  intro js
  induction js with
  | nil => intro _; rfl
  | cons j js ih =>
    intro h
    rw [List.flatMap_cons, display_width_append, List.map_cons, List.sum_cons,
      h j (List.mem_cons_self _ _), ih (fun k hk => h k (List.mem_cons_of_mem _ hk))]

theorem display_width_str (s : List Char) (w : Int) : display_width [Item.str s w] = w := by
  simp [display_width, Item.width]

theorem display_width_aligned (right : Bool) (s : List Char) (w c : Int) (h : w ≤ c) :
    display_width (aligned right s w c) = c := by
  unfold aligned
  split_ifs
  · rw [display_width_append, display_width_spaces, display_width_str]
    omega
  · rw [display_width_append, display_width_spaces, display_width_str]
    omega

theorem gap_before_nonneg (hr : Bool) (print_gap : Int) (h : 0 ≤ print_gap) (begin j : Nat) :
    0 ≤ gap_before hr print_gap begin j := by
  unfold gap_before
  split_ifs
  · exact h
  · exact le_refl _

/-- Display width of the text before the newline in the header line. -/
theorem display_width_header (sx : Table) (cw : List Int)
    (hcw : compute_colwidths sx = some cw) (cn : List CharSxp) (hcn : sx.col_names = some cn)
    (print_gap : Int) (hgap : 0 ≤ print_gap) (right : Bool) (nw : Int) (hnw : 0 ≤ nw)
    (begin end_ : Nat) (hbe : begin ≤ end_) (hen : end_ ≤ sx.ncol) :
    display_width (spaces nw.toNat ++
      (List.range' begin (end_ - begin)).flatMap
        (header_field cn sx.row_names.isSome begin print_gap right cw)) =
      group_width sx.row_names.isSome nw print_gap cw begin end_ := by
  rw [display_width_append, display_width_spaces,
    display_width_flatMap _
      (fun j => gap_before sx.row_names.isSome print_gap begin j + cw.getD j 0)]
  · unfold group_width
    omega
  · intro j hj
    have hj2 := List.mem_range'_1.1 hj
    have hg := gap_before_nonneg sx.row_names.isSome print_gap hgap begin j
    unfold header_field
    rw [display_width_append, display_width_spaces,
      display_width_aligned _ _ _ _ (colwidth_ge_header sx cw hcw cn hcn j (by omega))]
    omega

/-- Display width of the text before the newline in the line of a row. -/
theorem display_width_row (sx : Table) (cw : List Int)
    (hfit : ∀ i, i < sx.nrow → ∀ j, j < sx.ncol →
      charsxp_width (STRING_ELT sx.cells (i + j * sx.nrow)) ≤ cw.getD j 0)
    (print_gap : Int) (hgap : 0 ≤ print_gap) (right : Bool)
    (begin end_ : Nat) (hbe : begin ≤ end_) (hen : end_ ≤ sx.ncol)
    (i : Nat) (hi : i < sx.nrow) :
    display_width (row_label_field sx i (compute_namewidth sx) ++
      (List.range' begin (end_ - begin)).flatMap
        (cell_field sx i begin print_gap right cw)) =
      group_width sx.row_names.isSome (compute_namewidth sx) print_gap cw begin end_ := by
  have hlabel : display_width (row_label_field sx i (compute_namewidth sx)) =
      compute_namewidth sx := by
    unfold row_label_field
    cases hrn : sx.row_names with
    | none => simp [compute_namewidth, hrn, display_width]
    | some rn =>
      have h := namewidth_ge_label sx rn hrn i hi
      dsimp only
      rw [display_width_append, display_width_spaces, display_width_str]
      omega
  rw [display_width_append, hlabel,
    display_width_flatMap _
      (fun j => gap_before sx.row_names.isSome print_gap begin j + cw.getD j 0)]
  · rfl
  · intro j hj
    have hj2 := List.mem_range'_1.1 hj
    have hg := gap_before_nonneg sx.row_names.isSome print_gap hgap begin j
    unfold cell_field
    rw [display_width_append, display_width_spaces,
      display_width_aligned _ _ _ _ (hfit i hi j (by omega))]
    omega

theorem getD_set_ge (cw : List Int) (j : Nat) (w : Int) (hj : j < cw.length) :
    w ≤ (if w > cw.getD j 0 then cw.set j w else cw).getD j 0 := by
  split_ifs with hw
  · simp [List.getD_eq_getElem?_getD, List.getElem?_set, hj]
  · omega

/-- The pass over the cells leaves, in the column `t / nrow` of every cell `t`
it visits, at least the width it takes for the cell: `charsxp_width`, or 0 for
the missing string. -/
theorem scan_cells_ge (sx : Table) (hnrow : 0 < sx.nrow) :
    ∀ (k ix j : Nat) (cw cw1 : List Int), j = ix / sx.nrow →
      scan_cells sx (List.range' ix k) j cw = some cw1 →
      ∀ t, ix ≤ t → t < ix + k →
        (if STRING_ELT sx.cells t = CharSxp.NA_STRING then 0
          else charsxp_width (STRING_ELT sx.cells t)) ≤ cw1.getD (t / sx.nrow) 0 := by
  intro k
  induction k with
  | zero => intro ix j cw cw1 _ _ t h1 h2; omega
  | succ k ih =>
    intro ix j cw cw1 hj h t h1 h2
    rw [List.range'_succ, scan_cells] at h
    dsimp only at h
    by_cases hjl : j < cw.length
    · simp only [hjl, if_true, Nat.ne_of_gt hnrow, if_false] at h
      have hj1 : (if (ix + 1) % sx.nrow = 0 then j + 1 else j) = (ix + 1) / sx.nrow := by
        rw [Nat.succ_div, hj]
        by_cases hd : (ix + 1) % sx.nrow = 0
        · simp [hd, Nat.dvd_of_mod_eq_zero hd]
        · have : ¬ sx.nrow ∣ ix + 1 := fun h => hd (Nat.mod_eq_zero_of_dvd h)
          simp [hd, this]
      by_cases hti : t = ix
      · subst hti
        refine le_trans ?_ (scan_cells_mono sx _ _ _ _ h (t / sx.nrow))
        rw [← hj]
        exact getD_set_ge cw j _ hjl
      · exact ih (ix + 1) _ _ _ hj1 h t (by omega) (by omega)
    · simp [hjl] at h

theorem cell_index_div (nrow i j : Nat) (hi : i < nrow) : (i + j * nrow) / nrow = j := by
  rw [Nat.add_mul_div_right _ _ (by omega), Nat.div_eq_of_lt hi, Nat.zero_add]

/-- On a grid without missing cells every cell is at most as wide as the
computed width of its column. -/
theorem colwidth_ge_cell (sx : Table) (hwf : sx.wf) (cw : List Int)
    (hcw : compute_colwidths sx = some cw) (i : Nat) (hi : i < sx.nrow) (j : Nat)
    (hj : j < sx.ncol) (hna : STRING_ELT sx.cells (i + j * sx.nrow) ≠ CharSxp.NA_STRING) :
    charsxp_width (STRING_ELT sx.cells (i + j * sx.nrow)) ≤ cw.getD j 0 := by
  have hnrow : 0 < sx.nrow := by omega
  have hlt : i + j * sx.nrow < 0 + sx.cells.length := by
    rw [hwf.1, Nat.zero_add]
    calc i + j * sx.nrow < (j + 1) * sx.nrow := by rw [Nat.succ_mul]; omega
      _ ≤ sx.ncol * sx.nrow := Nat.mul_le_mul_right _ hj
      _ = sx.nrow * sx.ncol := Nat.mul_comm _ _
  unfold compute_colwidths at hcw
  rw [List.range_eq_range'] at hcw
  have h := scan_cells_ge sx hnrow _ 0 0 _ cw (by simp) hcw (i + j * sx.nrow)
    (Nat.zero_le _) hlt
  rw [cell_index_div sx.nrow i j hi, if_neg hna] at h
  exact h

theorem STRING_ELT_mem (x : List CharSxp) (i : Nat) (hi : i < x.length) :
    STRING_ELT x i ∈ x := by
  unfold STRING_ELT
  rw [List.getD_eq_getElem?_getD, List.getElem?_eq_getElem hi]
  exact List.getElem_mem _

theorem cell_index_lt (sx : Table) (hwf : sx.wf) (i : Nat) (hi : i < sx.nrow) (j : Nat)
    (hj : j < sx.ncol) : i + j * sx.nrow < sx.cells.length := by
  rw [hwf.1]
  calc i + j * sx.nrow < (j + 1) * sx.nrow := by rw [Nat.succ_mul]; omega
    _ ≤ sx.ncol * sx.nrow := Nat.mul_le_mul_right _ hj
    _ = sx.nrow * sx.ncol := Nat.mul_comm _ _

/-- Column groups of `print_table` under a valid configuration: every group
lies within `[0, ncol]` and, when the grid has columns, has a computed width
below `width` unless it is a forced single column. -/
theorem print_table_calls (sx : Table) (print_gap : Int) (right : Bool)
    (max width : Int) (hwf : sx.wf)
    (hgap : 0 ≤ print_gap ∧ print_gap ≤ INT_MAX) (hw : 1 ≤ width ∧ width ≤ INT_MAX) :
    ∃ r cw, print_table sx print_gap right max width = some r ∧
      compute_colwidths sx = some cw ∧
      ∀ c ∈ r.calls, c.begin ≤ c.end_ ∧ c.end_ ≤ sx.ncol ∧
        (0 < sx.ncol →
          group_width sx.row_names.isSome (compute_namewidth sx) print_gap cw c.begin c.end_
            < width ∨
          c.end_ = c.begin + 1) := by
  obtain ⟨cw, r, hcw, _, hP, hr⟩ := print_table_inv sx print_gap right max width hwf.1
    (fun _ r => ∀ cw, compute_colwidths sx = some cw → ∀ c ∈ r.calls,
      c.begin ≤ c.end_ ∧ c.end_ ≤ sx.ncol ∧
        (0 < sx.ncol →
          group_width sx.row_names.isSome (compute_namewidth sx) print_gap cw c.begin c.end_
            < width ∨
          c.end_ = c.begin + 1))
    (by simp)
    (by
      intro cw hcw b r hb hP cw1 hcw1 c hc
      have hcc : cw1 = cw := by rw [hcw] at hcw1; exact (Option.some.inj hcw1).symm
      subst hcc
      simp only [call_range, List.mem_append, List.mem_singleton] at hc
      rcases hc with hc | hc
      · exact hP cw1 hcw c hc
      · subst hc
        have hne := next_end_bounds sx print_gap width (compute_namewidth sx) cw1 b hb
        exact ⟨le_of_lt hne.1, hne.2, fun _ =>
          next_end_width sx print_gap width cw1 b (compute_namewidth sx) hgap hw
            (compute_namewidth_range sx hwf) (compute_colwidths_range sx hwf cw1 hcw)⟩)
  refine ⟨_, cw, hr, hcw, ?_⟩
  by_cases hz : sx.ncol = 0
  · intro c hc
    simp only [hz, if_true, call_range, List.mem_append, List.mem_singleton] at hc
    rcases hc with hc | hc
    · exact hP cw hcw c hc
    · subst hc
      exact ⟨le_refl _, Nat.zero_le _, fun h => absurd hz (Nat.pos_iff_ne_zero.1 h)⟩
  · simp only [hz, if_false]
    exact hP cw hcw

/-- C10 as stated fails when `ncol = 0`: the single pass over the grid of one
row whose label is 10 columns wide, printed with `line_width = 5`, renders the
group `[0, 0)`, which is not a forced single-column group, and its line is 10
columns wide. -/
theorem no_columns_line_wider_than_line_width :
    ∃ r cw, print_table wide_label_grid 1 false 100 5 = some r ∧
      compute_colwidths wide_label_grid = some cw ∧
      (∀ i, i < wide_label_grid.nrow → ∀ j, j < wide_label_grid.ncol →
        charsxp_width (STRING_ELT wide_label_grid.cells (i + j * wide_label_grid.nrow))
          ≤ cw.getD j 0) ∧
      r.calls = [{ begin := 0, end_ := 0, max := 100 }] ∧ (0 : Nat) ≠ 0 + 1 ∧
      r.out = [Item.str ['0', '1', '2', '3', '4', '5', '6', '7', '8', '9'] 10,
        Item.ch '\n'] ∧
      display_width [Item.str ['0', '1', '2', '3', '4', '5', '6', '7', '8', '9'] 10] =
        group_width wide_label_grid.row_names.isSome (compute_namewidth wide_label_grid)
          1 cw 0 0 ∧
      ¬ display_width [Item.str ['0', '1', '2', '3', '4', '5', '6', '7', '8', '9'] 10]
        ≤ 5 :=
  ⟨{ out := [Item.str ['0', '1', '2', '3', '4', '5', '6', '7', '8', '9'] 10, Item.ch '\n'],
     nprint := 0, calls := [{ begin := 0, end_ := 0, max := 100 }] },
    [], by decide, by decide, by decide, by decide, by decide, by decide, by decide,
    by decide⟩

/-- C10, amended: for a well-formed grid and a valid configuration
(`print_gap ≥ 0`, `line_width ≥ 1`). First, on a grid without missing cells
every data cell is at most as wide as the computed width of its column.
Second, on every grid with that property, for every column group handed to
`print_range`: the header line, when column labels exist, is a text of display
width equal to the computed line width of the group, followed by a newline;
every iteration of the row loop that renders a row in full flushes such a text
followed by a newline; and, when the grid has at least one column, the
computed line width of a group that is not a forced single column is at most
`line_width`. -/
theorem rendered_line_width (sx : Table) (print_gap : Int) (right : Bool)
    (max width : Int) (hwf : sx.wf)
    (hgap : 0 ≤ print_gap ∧ print_gap ≤ INT_MAX) (hw : 1 ≤ width ∧ width ≤ INT_MAX) :
    ((∀ e ∈ sx.cells, e ≠ CharSxp.NA_STRING) →
      ∀ cw, compute_colwidths sx = some cw → ∀ i, i < sx.nrow → ∀ j, j < sx.ncol →
        charsxp_width (STRING_ELT sx.cells (i + j * sx.nrow)) ≤ cw.getD j 0) ∧
    ((∀ cw, compute_colwidths sx = some cw → ∀ i, i < sx.nrow → ∀ j, j < sx.ncol →
        charsxp_width (STRING_ELT sx.cells (i + j * sx.nrow)) ≤ cw.getD j 0) →
      ∃ r cw, print_table sx print_gap right max width = some r ∧
        compute_colwidths sx = some cw ∧
        ∀ c ∈ r.calls,
          (∀ cn, sx.col_names = some cn →
            ∃ body, print_header sx c.begin c.end_ print_gap right (compute_namewidth sx) cw
                = body ++ [Item.ch '\n'] ∧
              display_width body =
                group_width sx.row_names.isSome (compute_namewidth sx) print_gap cw
                  c.begin c.end_) ∧
          (∀ (m : Int) (i : Nat) (is : List Nat) (out : List Item) (n : Int),
            i < sx.nrow → m ≤ INT_MAX → 0 ≤ n → n ≠ m →
            n + ((c.end_ - c.begin : Nat) : Int) ≤ m →
            ∃ body,
              print_rows sx c.begin c.end_ print_gap right m (compute_namewidth sx) cw
                  (i :: is) out n =
                print_rows sx c.begin c.end_ print_gap right m (compute_namewidth sx) cw
                  is (out ++ (body ++ [Item.ch '\n']))
                  (n + ((c.end_ - c.begin : Nat) : Int)) ∧
              display_width body =
                group_width sx.row_names.isSome (compute_namewidth sx) print_gap cw
                  c.begin c.end_) ∧
          (0 < sx.ncol → c.end_ ≠ c.begin + 1 →
            group_width sx.row_names.isSome (compute_namewidth sx) print_gap cw
              c.begin c.end_ ≤ width)) := by
  refine ⟨?_, ?_⟩
  · intro hna cw hcw i hi j hj
    exact colwidth_ge_cell sx hwf cw hcw i hi j hj
      (hna _ (STRING_ELT_mem _ _ (cell_index_lt sx hwf i hi j hj)))
  intro hcells
  obtain ⟨r, cw, hr, hcw, hcalls⟩ :=
    print_table_calls sx print_gap right max width hwf hgap hw
  have hnw := compute_namewidth_range sx hwf
  have hrange := compute_colwidths_range sx hwf cw hcw
  refine ⟨r, cw, hr, hcw, ?_⟩
  intro c hc
  obtain ⟨hbe, hen, hfits⟩ := hcalls c hc
  refine ⟨?_, ?_, ?_⟩
  · intro cn hcn
    refine ⟨_, ?_, display_width_header sx cw hcw cn hcn print_gap hgap.1 right
      (compute_namewidth sx) hnw.1 c.begin c.end_ hbe hen⟩
    rw [print_header_eq sx hwf c.begin c.end_ print_gap right _ cw hrange cn hcn]
    rfl
  · intro m i is out n hi hm h0 hne hfit
    refine ⟨_, ?_, display_width_row sx cw (hcells cw hcw) print_gap hgap.1 right
      c.begin c.end_ hbe hen i hi⟩
    rw [print_rows_step sx hwf c.begin c.end_ print_gap right m hm _ hnw cw hrange i is out
      n h0 hne hfit]
    rfl
  · intro hpos hns
    rcases hfits hpos with h | h
    · exact le_of_lt h
    · exact absurd h hns

/-- The amended C10 on the 3-row, 2-column grid, which has no missing cell and
whose columns are 1 wide: the only group is `[0, 2)`, of computed width 3. -/
theorem rendered_line_width_witness :
    (grid32.wf ∧ ((0 : Int) ≤ 1 ∧ (1 : Int) ≤ INT_MAX) ∧
      ((1 : Int) ≤ 80 ∧ (80 : Int) ≤ INT_MAX) ∧
      ∀ e ∈ grid32.cells, e ≠ CharSxp.NA_STRING) ∧
    (∃ r cw, print_table grid32 1 true 100 80 = some r ∧
      compute_colwidths grid32 = some cw ∧
      ∀ c ∈ r.calls,
        (∀ cn, grid32.col_names = some cn →
          ∃ body, print_header grid32 c.begin c.end_ 1 true (compute_namewidth grid32) cw
              = body ++ [Item.ch '\n'] ∧
            display_width body =
              group_width grid32.row_names.isSome (compute_namewidth grid32) 1 cw
                c.begin c.end_) ∧
        (∀ (m : Int) (i : Nat) (is : List Nat) (out : List Item) (n : Int),
          i < grid32.nrow → m ≤ INT_MAX → 0 ≤ n → n ≠ m →
          n + ((c.end_ - c.begin : Nat) : Int) ≤ m →
          ∃ body,
            print_rows grid32 c.begin c.end_ 1 true m (compute_namewidth grid32) cw
                (i :: is) out n =
              print_rows grid32 c.begin c.end_ 1 true m (compute_namewidth grid32) cw
                is (out ++ (body ++ [Item.ch '\n']))
                (n + ((c.end_ - c.begin : Nat) : Int)) ∧
            display_width body =
              group_width grid32.row_names.isSome (compute_namewidth grid32) 1 cw
                c.begin c.end_) ∧
        (0 < grid32.ncol → c.end_ ≠ c.begin + 1 →
          group_width grid32.row_names.isSome (compute_namewidth grid32) 1 cw
            c.begin c.end_ ≤ 80)) ∧
    (print_table grid32 1 true 100 80).map
      (fun r => r.calls.map (fun c => (c.begin, c.end_))) = some [(0, 2)] ∧
    group_width grid32.row_names.isSome (compute_namewidth grid32) 1 [1, 1] 0 2 = 3 :=
  ⟨⟨grid32_wf, by decide, by decide, by decide⟩,
    (rendered_line_width grid32 1 true 100 80 grid32_wf (by decide) (by decide)).2
      ((rendered_line_width grid32 1 true 100 80 grid32_wf (by decide) (by decide)).1
        (by decide)),
    by decide, by decide⟩

/-! ## Registration of the term rules -/

theorem Registered.refl (f : Filter) : Registered f f 0 [] := by
  refine ⟨rfl, rfl, rfl, ⟨[], by simp⟩, fun _ => ⟨by simp, rfl⟩⟩

theorem Registered.chain (f f1 f2 : Filter) (err : Int) (L1 L2 : List Rule)
    (h1 : Registered f f1 0 L1) (h2 : Registered f1 f2 err L2) :
    Registered f f2 err (L1 ++ L2) := by
  obtain ⟨a1, a2, a3, _, a5⟩ := h1
  obtain ⟨b1, b2, b3, ⟨rest, b4⟩, b5⟩ := h2
  have hr := (a5 rfl).1
  refine ⟨b1.trans a1, b2.trans a2, b3.trans a3, ⟨rest, ?_⟩, ?_⟩
  · rw [← b4, hr, List.append_assoc]
  · intro he
    refine ⟨?_, ((b5 he).2).trans (a5 rfl).2⟩
    rw [(b5 he).1, hr, List.append_assoc]

theorem Registered.extend (f f1 : Filter) (err : Int) (L1 L2 : List Rule)
    (h1 : Registered f f1 err L1) (herr : err ≠ 0) :
    Registered f f1 err (L1 ++ L2) := by
  obtain ⟨a1, a2, a3, ⟨rest, a4⟩, _⟩ := h1
  refine ⟨a1, a2, a3, ⟨rest ++ L2, ?_⟩, fun he => absurd he herr⟩
  rw [← List.append_assoc, a4, List.append_assoc]

theorem typed_terms_cons_none (lib : CorpusLib) (kind : Nat) (k : RuleKind)
    (terms : List (Option String)) :
    typed_terms lib kind k (some (none :: terms)) = typed_terms lib kind k (some terms) := by
  simp [typed_terms]

theorem typed_terms_cons_some (lib : CorpusLib) (kind : Nat) (k : RuleKind) (term : String)
    (terms : List (Option String)) :
    typed_terms lib kind k (some (some term :: terms)) =
      { kind := k, type := (lib.typemap_set kind term).2 } ::
        typed_terms lib kind k (some terms) := by
  simp [typed_terms]

/-- The loop of `add_terms` registers the terms in list order and stops at the
first call that fails. -/
theorem add_terms_loop_registered (lib : CorpusLib) (k : RuleKind) :
    ∀ (terms : List (Option String)) (f : Filter) (log : List Event),
      (add_terms_loop lib k terms f log).1.error = f.error ∧
      Registered f (add_terms_loop lib k terms f log).1
        (add_terms_loop lib k terms f log).2.2
        (typed_terms lib f.type_kind k (some terms)) := by
  intro terms
  induction terms with
  | nil =>
    intro f log
    exact ⟨rfl, rfl, rfl, rfl, ⟨[], by simp [add_terms_loop, typed_terms]⟩,
      fun _ => ⟨by simp [add_terms_loop, typed_terms], rfl⟩⟩
  | cons t terms ih =>
    intro f log
    cases t with
    | none =>
      rw [add_terms_loop, typed_terms_cons_none]
      exact ih f log
    | some term =>
      rw [add_terms_loop, typed_terms_cons_some]
      dsimp only
      by_cases h1 : (lib.typemap_set f.type_kind term).1 ≠ 0
      · rw [if_pos h1]
        exact ⟨rfl, rfl, rfl, rfl, ⟨_, rfl⟩, fun he => absurd he h1⟩
      · rw [if_neg h1]
        by_cases h2 : lib.add_term k f.rules (lib.typemap_set f.type_kind term).2 ≠ 0
        · rw [if_pos h2]
          exact ⟨rfl, rfl, rfl, rfl, ⟨_, rfl⟩, fun he => absurd he h2⟩
        · rw [if_neg h2]
          obtain ⟨e0, a1, a2, a3, ⟨rest, a4⟩, a5⟩ :=
            ih { f with rules := f.rules ++
              [{ kind := k, type := (lib.typemap_set f.type_kind term).2 }] }
              (log ++ [Event.typemap_set term] ++
                [Event.add_term k (lib.typemap_set f.type_kind term).2])
          refine ⟨e0, a1, a2, a3, ⟨rest, ?_⟩, ?_⟩
          · rw [← a4]
            simp
          · intro he
            refine ⟨?_, (a5 he).2⟩
            rw [(a5 he).1]
            simp

/-- Function `add_terms` registers the rules of its list, or a leading segment
of them when a call fails. -/
theorem add_terms_registered (c : CorpusConsts) (lib : CorpusLib) (k : RuleKind)
    (sterms : Option (List (Option String))) (f : Filter) (log : List Event) :
    Registered f (add_terms c lib k sterms f log).1 (add_terms c lib k sterms f log).2.2
      (typed_terms lib f.type_kind k sterms) := by
  cases sterms with
  | none =>
    exact ⟨rfl, rfl, rfl, ⟨[], by simp [add_terms, typed_terms]⟩,
      fun _ => ⟨by simp [add_terms, typed_terms], rfl⟩⟩
  | some terms =>
    obtain ⟨e0, a1, a2, a3, a4, a5⟩ := add_terms_loop_registered lib k terms f log
    unfold add_terms
    dsimp only
    by_cases h : (add_terms_loop lib k terms f log).2.2 ≠ 0
    · rw [if_pos h]
      exact ⟨a1, a2, a3, a4, fun he => absurd he h⟩
    · rw [if_neg h]
      exact ⟨a1, a2, a3, a4, fun he => ⟨(a5 he).1, e0⟩⟩

theorem Registered.step (c : CorpusConsts) (lib : CorpusLib) (k : RuleKind)
    (sterms : Option (List (Option String))) (f g : Filter) (log : List Event)
    (L : List Rule) (h : Registered f g 0 L) :
    Registered f (add_terms c lib k sterms g log).1 (add_terms c lib k sterms g log).2.2
      (L ++ typed_terms lib f.type_kind k sterms) := by
  have h2 := add_terms_registered c lib k sterms g log
  rw [h.1] at h2
  exact Registered.chain f g _ _ L _ h h2

theorem filter_logical_eq_zero (filter : Option FilterConfig)
    (key : FilterConfig → Option Lgl) :
    filter_logical filter key 0 = 0 ↔ getListElement filter key ≠ some Lgl.TRUE := by
  unfold filter_logical
  cases h : getListElement filter key with
  | none => simp
  | some v =>
    by_cases hv : v = Lgl.TRUE
    · simp [hv]
    · simp [hv]

/-- The five calls of `add_terms` register the rules of the configuration in
the fixed order, or a leading segment of them when a call fails. -/
theorem text_filter_terms_registered (c : CorpusConsts) (lib : CorpusLib)
    (filter : Option FilterConfig) (f : Filter) (log : List Event) :
    Registered f
      (text_filter_terms c lib filter (filter_logical filter FilterConfig.stem_dropped 0)
        f log).1
      (text_filter_terms c lib filter (filter_logical filter FilterConfig.stem_dropped 0)
        f log).2.2
      ((if getListElement filter FilterConfig.stem_dropped = some Lgl.TRUE then []
          else typed_terms lib f.type_kind RuleKind.stem_except
            (getListElement filter FilterConfig.drop)) ++
        typed_terms lib f.type_kind RuleKind.stem_except
          (getListElement filter FilterConfig.stem_except) ++
        typed_terms lib f.type_kind RuleKind.drop
          (getListElement filter FilterConfig.drop) ++
        typed_terms lib f.type_kind RuleKind.drop_except
          (getListElement filter FilterConfig.drop_except) ++
        typed_terms lib f.type_kind RuleKind.combine
          (getListElement filter FilterConfig.combine)) := by
  unfold text_filter_terms
  dsimp only
  -- first call, made unless `stem_dropped` is TRUE
  have hA : Registered f
      (if filter_logical filter FilterConfig.stem_dropped 0 = 0 then
        add_terms c lib RuleKind.stem_except (getListElement filter FilterConfig.drop) f log
        else (f, log, 0)).1
      (if filter_logical filter FilterConfig.stem_dropped 0 = 0 then
        add_terms c lib RuleKind.stem_except (getListElement filter FilterConfig.drop) f log
        else (f, log, 0)).2.2
      (if getListElement filter FilterConfig.stem_dropped = some Lgl.TRUE then []
        else typed_terms lib f.type_kind RuleKind.stem_except
          (getListElement filter FilterConfig.drop)) := by
    by_cases hs : filter_logical filter FilterConfig.stem_dropped 0 = 0
    · rw [if_pos hs, if_neg ((filter_logical_eq_zero _ _).1 hs)]
      exact add_terms_registered c lib _ _ f log
    · rw [if_neg hs, if_pos (not_not.1 (fun h => hs ((filter_logical_eq_zero _ _).2 h)))]
      exact Registered.refl f
  generalize (if filter_logical filter FilterConfig.stem_dropped 0 = 0 then
      add_terms c lib RuleKind.stem_except (getListElement filter FilterConfig.drop) f log
      else (f, log, 0)) = r1 at hA ⊢
  generalize (if getListElement filter FilterConfig.stem_dropped = some Lgl.TRUE then []
      else typed_terms lib f.type_kind RuleKind.stem_except
        (getListElement filter FilterConfig.drop)) = LA at hA ⊢
  by_cases e1 : r1.2.2 ≠ 0
  · rw [if_pos e1]
    exact Registered.extend _ _ _ _ _
      (Registered.extend _ _ _ _ _
        (Registered.extend _ _ _ _ _ (Registered.extend _ _ _ _ _ hA e1) e1) e1) e1
  rw [if_neg e1]
  rw [not_not] at e1
  rw [e1] at hA
  have hB := Registered.step c lib RuleKind.stem_except
    (getListElement filter FilterConfig.stem_except) f r1.1 r1.2.1 LA hA
  generalize add_terms c lib RuleKind.stem_except
    (getListElement filter FilterConfig.stem_except) r1.1 r1.2.1 = r2 at hB ⊢
  by_cases e2 : r2.2.2 ≠ 0
  · rw [if_pos e2]
    exact Registered.extend _ _ _ _ _
      (Registered.extend _ _ _ _ _ (Registered.extend _ _ _ _ _ hB e2) e2) e2
  rw [if_neg e2]
  rw [not_not] at e2
  rw [e2] at hB
  have hC := Registered.step c lib RuleKind.drop
    (getListElement filter FilterConfig.drop) f r2.1 r2.2.1 _ hB
  generalize add_terms c lib RuleKind.drop
    (getListElement filter FilterConfig.drop) r2.1 r2.2.1 = r3 at hC ⊢
  by_cases e3 : r3.2.2 ≠ 0
  · rw [if_pos e3]
    exact Registered.extend _ _ _ _ _ (Registered.extend _ _ _ _ _ hC e3) e3
  rw [if_neg e3]
  rw [not_not] at e3
  rw [e3] at hC
  have hD := Registered.step c lib RuleKind.drop_except
    (getListElement filter FilterConfig.drop_except) f r3.1 r3.2.1 _ hC
  generalize add_terms c lib RuleKind.drop_except
    (getListElement filter FilterConfig.drop_except) r3.1 r3.2.1 = r4 at hD ⊢
  by_cases e4 : r4.2.2 ≠ 0
  · rw [if_pos e4]
    exact Registered.extend _ _ _ _ _ hD e4
  rw [if_neg e4]
  rw [not_not] at e4
  rw [e4] at hD
  exact Registered.step c lib RuleKind.combine
    (getListElement filter FilterConfig.combine) f r4.1 r4.2.1 _ hD

theorem add_terms_loop_ok (lib : CorpusLib) (k : RuleKind)
    (hset : ∀ kind term, (lib.typemap_set kind term).1 = 0)
    (hadd : ∀ k rules type, lib.add_term k rules type = 0) :
    ∀ (terms : List (Option String)) (f : Filter) (log : List Event),
      (add_terms_loop lib k terms f log).2.2 = 0 := by
  intro terms
  induction terms with
  | nil => intro f log; rfl
  | cons t terms ih =>
    intro f log
    cases t with
    | none => rw [add_terms_loop]; exact ih f log
    | some term =>
      rw [add_terms_loop]
      dsimp only
      rw [if_neg (by rw [hset]; simp), if_neg (by rw [hadd]; simp)]
      exact ih _ _

theorem add_terms_ok (c : CorpusConsts) (lib : CorpusLib) (k : RuleKind)
    (hset : ∀ kind term, (lib.typemap_set kind term).1 = 0)
    (hadd : ∀ k rules type, lib.add_term k rules type = 0)
    (sterms : Option (List (Option String))) (f : Filter) (log : List Event) :
    (add_terms c lib k sterms f log).2.2 = 0 := by
  cases sterms with
  | none => rfl
  | some terms =>
    unfold add_terms
    dsimp only
    rw [if_neg (by rw [add_terms_loop_ok lib k hset hadd]; simp)]
    exact add_terms_loop_ok lib k hset hadd terms f log

theorem text_filter_terms_ok (c : CorpusConsts) (lib : CorpusLib)
    (hset : ∀ kind term, (lib.typemap_set kind term).1 = 0)
    (hadd : ∀ k rules type, lib.add_term k rules type = 0)
    (filter : Option FilterConfig) (sd : Int) (f : Filter) (log : List Event) :
    (text_filter_terms c lib filter sd f log).2.2 = 0 := by
  have h1 : (if sd = 0 then
      add_terms c lib RuleKind.stem_except (getListElement filter FilterConfig.drop) f log
      else (f, log, 0)).2.2 = 0 := by
    split_ifs
    · exact add_terms_ok c lib _ hset hadd _ _ _
    · rfl
  unfold text_filter_terms
  dsimp only
  rw [if_neg (by rw [h1]; simp), if_neg (by rw [add_terms_ok c lib _ hset hadd]; simp),
    if_neg (by rw [add_terms_ok c lib _ hset hadd]; simp),
    if_neg (by rw [add_terms_ok c lib _ hset hadd]; simp)]
  exact add_terms_ok c lib _ hset hadd _ _ _

theorem typed_terms_kind (lib : CorpusLib) (kind : Nat) (k : RuleKind)
    (sterms : Option (List (Option String))) :
    ∀ r ∈ typed_terms lib kind k sterms, r.kind = k := by
  intro r hr
  cases sterms with
  | none => simp [typed_terms] at hr
  | some terms =>
    simp only [typed_terms, List.mem_filterMap] at hr
    obtain ⟨t, _, ht⟩ := hr
    cases t with
    | none => simp at ht
    | some term =>
      simp only [Option.map_some', Option.some.injEq] at ht
      rw [← ht]

theorem rank_sorted_append (l1 l2 : List Rule) (n m : Nat) (hnm : n ≤ m)
    (h1 : List.Pairwise (fun r1 r2 : Rule => r1.kind.rank ≤ r2.kind.rank) l1)
    (hb1 : ∀ r ∈ l1, r.kind.rank ≤ n) (hb2 : ∀ r ∈ l2, r.kind.rank = m) :
    List.Pairwise (fun r1 r2 : Rule => r1.kind.rank ≤ r2.kind.rank) (l1 ++ l2) ∧
    ∀ r ∈ l1 ++ l2, r.kind.rank ≤ m := by
  refine ⟨List.pairwise_append.2 ⟨h1, ?_, ?_⟩, ?_⟩
  · rw [List.pairwise_iff_forall_sublist]
    intro a b hab
    have ha := hb2 a (hab.subset (by simp))
    have hb := hb2 b (hab.subset (by simp))
    omega
  · intro a ha b hb
    have h3 := hb1 a ha
    have h4 := hb2 b hb
    omega
  · intro r hr
    rcases List.mem_append.1 hr with h | h
    · exact le_trans (hb1 r h) hnm
    · exact le_of_eq (hb2 r h)

/-- In the rules of a configuration every stem-except rule comes before every
drop rule, every drop rule before every drop-except rule, and every
drop-except rule before every combine rule. -/
theorem expected_rules_sorted (c : CorpusConsts) (lib : CorpusLib)
    (filter : Option FilterConfig) :
    List.Pairwise (fun r1 r2 : Rule => r1.kind.rank ≤ r2.kind.rank)
      (expected_rules c lib filter) := by
  unfold expected_rules
  have hA : List.Pairwise (fun r1 r2 : Rule => r1.kind.rank ≤ r2.kind.rank)
      ([] ++ (if getListElement filter FilterConfig.stem_dropped = some Lgl.TRUE then []
        else typed_terms lib (filter_type_kind c filter) RuleKind.stem_except
          (getListElement filter FilterConfig.drop))) ∧
      ∀ r ∈ [] ++ (if getListElement filter FilterConfig.stem_dropped = some Lgl.TRUE then []
        else typed_terms lib (filter_type_kind c filter) RuleKind.stem_except
          (getListElement filter FilterConfig.drop)), r.kind.rank ≤ 0 := by
    refine rank_sorted_append [] _ 0 0 (le_refl _) List.Pairwise.nil (by simp) ?_
    intro r hr
    split_ifs at hr
    · simp at hr
    · rw [typed_terms_kind _ _ _ _ r hr]
      rfl
  rw [List.nil_append] at hA
  have hB := rank_sorted_append _
    (typed_terms lib (filter_type_kind c filter) RuleKind.stem_except
      (getListElement filter FilterConfig.stem_except)) 0 0 (le_refl _) hA.1 hA.2
    (fun r hr => by rw [typed_terms_kind _ _ _ _ r hr]; rfl)
  have hC := rank_sorted_append _
    (typed_terms lib (filter_type_kind c filter) RuleKind.drop
      (getListElement filter FilterConfig.drop)) 0 1 (by omega) hB.1 hB.2
    (fun r hr => by rw [typed_terms_kind _ _ _ _ r hr]; rfl)
  have hD := rank_sorted_append _
    (typed_terms lib (filter_type_kind c filter) RuleKind.drop_except
      (getListElement filter FilterConfig.drop_except)) 1 2 (by omega) hC.1 hC.2
    (fun r hr => by rw [typed_terms_kind _ _ _ _ r hr]; rfl)
  exact (rank_sorted_append _
    (typed_terms lib (filter_type_kind c filter) RuleKind.combine
      (getListElement filter FilterConfig.combine)) 2 3 (by omega) hD.1 hD.2
    (fun r hr => by rw [typed_terms_kind _ _ _ _ r hr]; rfl)).1

/-- The construction of a filter by `text_filter`, once the type map and the
filter are initialised: the object holds the new filter, whose rules are the
rules of the configuration or a leading segment of them. -/
theorem text_filter_build_registered (c : CorpusConsts) (lib : CorpusLib)
    (filter : Option FilterConfig) (obj : RcorpusText) (log : List Event)
    (hmap : lib.typemap_init (filter_type_kind c filter) = 0)
    (hinit : lib.filter_init (filter_type_kind c filter) (filter_stemmer filter)
      (filter_flags c filter) = 0) :
    (text_filter_build c lib filter obj log).1.has_filter = 1 ∧
    (text_filter_build c lib filter obj log).1.has_sentfilter = obj.has_sentfilter ∧
    (∃ rest, expected_rules c lib filter =
      (text_filter_build c lib filter obj log).1.filter.rules ++ rest) ∧
    ((text_filter_build c lib filter obj log).2.2 = 0 →
      (text_filter_build c lib filter obj log).1.filter =
        { type_kind := filter_type_kind c filter, stemmer := filter_stemmer filter,
          flags := filter_flags c filter, rules := expected_rules c lib filter,
          error := 0 }) ∧
    ((∀ kind term, (lib.typemap_set kind term).1 = 0) →
      (∀ k rules type, lib.add_term k rules type = 0) →
      (text_filter_build c lib filter obj log).2.2 = 0) := by
  have hreg := text_filter_terms_registered c lib filter
    { type_kind := filter_type_kind c filter, stemmer := filter_stemmer filter,
      flags := filter_flags c filter, rules := [], error := 0 }
    (log ++ [Event.typemap_init (filter_type_kind c filter)] ++
      [Event.filter_init (filter_type_kind c filter) (filter_stemmer filter)
        (filter_flags c filter)])
  unfold text_filter_build
  dsimp only
  rw [if_neg (by rw [hmap]; simp), if_neg (by rw [hinit]; simp)]
  obtain ⟨a1, a2, a3, ⟨rest, a4⟩, a5⟩ := hreg
  simp only [List.nil_append] at a4 a5
  refine ⟨?_, ?_, ⟨rest, ?_⟩, ?_, ?_⟩
  · split_ifs <;> rfl
  · split_ifs <;> rfl
  · split_ifs
    · exact a4
    · exact a4
  · intro he
    split_ifs at he ⊢ with h0
    · exact absurd he h0
    · rw [not_not] at h0
      obtain ⟨b1, b2⟩ := a5 h0
      dsimp only
      cases hf : (text_filter_terms c lib filter
          (filter_logical filter FilterConfig.stem_dropped 0)
          { type_kind := filter_type_kind c filter, stemmer := filter_stemmer filter,
            flags := filter_flags c filter, rules := [], error := 0 }
          (log ++ [Event.typemap_init (filter_type_kind c filter)] ++
            [Event.filter_init (filter_type_kind c filter) (filter_stemmer filter)
              (filter_flags c filter)])).1 with
      | mk tk st fl ru er =>
        rw [hf] at a1 a2 a3 b1 b2
        simp only at a1 a2 a3 b1 b2
        rw [a1, a2, a3, b1, b2]
        rfl
  · intro hset hadd
    rw [if_neg (by rw [text_filter_terms_ok c lib hset hadd]; simp)]

/-- C11: when `text_filter` builds a new filter (the object holds none, or
holds one whose field `error` is set) and the type map and the filter are
initialised, the rules registered on the filter are, in this order: the terms
of the drop list as stem-except rules unless `stem_dropped` is TRUE, the terms
of `stem_except` as stem-except rules, the terms of the drop list as drop
rules, the terms of `drop_except` as drop-except rules, the terms of `combine`
as combine rules, each list in list order with its missing terms skipped and
an absent list giving nothing. They are all registered when `text_filter`
returns, which it does when no call into the library fails, and a leading
segment of them is registered when a call fails. In every case all stem-except
registrations precede all drop registrations, which precede all drop-except
registrations, which precede all combine registrations. -/
theorem text_filter_registration_order (c : CorpusConsts) (lib : CorpusLib)
    (filter : Option FilterConfig) (s : State) (obj : RcorpusText)
    (hobj : s.obj = some obj)
    (hbuild : obj.has_filter = 0 ∨ obj.filter.error ≠ 0)
    (hmap : lib.typemap_init (filter_type_kind c filter) = 0)
    (hinit : lib.filter_init (filter_type_kind c filter) (filter_stemmer filter)
      (filter_flags c filter) = 0) :
    ∃ s1 err obj1, text_filter c lib filter s = some (s1, err) ∧ s1.obj = some obj1 ∧
      (∃ rest, expected_rules c lib filter = obj1.filter.rules ++ rest) ∧
      (err = 0 → obj1.filter.rules = expected_rules c lib filter) ∧
      ((∀ kind term, (lib.typemap_set kind term).1 = 0) →
        (∀ k rules type, lib.add_term k rules type = 0) → err = 0) ∧
      List.Pairwise (fun r1 r2 : Rule => r1.kind.rank ≤ r2.kind.rank) obj1.filter.rules ∧
      expected_rules c lib filter =
        (if getListElement filter FilterConfig.stem_dropped = some Lgl.TRUE then []
          else typed_terms lib (filter_type_kind c filter) RuleKind.stem_except
            (getListElement filter FilterConfig.drop)) ++
        typed_terms lib (filter_type_kind c filter) RuleKind.stem_except
          (getListElement filter FilterConfig.stem_except) ++
        typed_terms lib (filter_type_kind c filter) RuleKind.drop
          (getListElement filter FilterConfig.drop) ++
        typed_terms lib (filter_type_kind c filter) RuleKind.drop_except
          (getListElement filter FilterConfig.drop_except) ++
        typed_terms lib (filter_type_kind c filter) RuleKind.combine
          (getListElement filter FilterConfig.combine) := by
  have key : ∀ (o : RcorpusText) (log : List Event),
      (∃ rest, expected_rules c lib filter =
        (text_filter_build c lib filter o log).1.filter.rules ++ rest) ∧
      ((text_filter_build c lib filter o log).2.2 = 0 →
        (text_filter_build c lib filter o log).1.filter.rules =
          expected_rules c lib filter) ∧
      ((∀ kind term, (lib.typemap_set kind term).1 = 0) →
        (∀ k rules type, lib.add_term k rules type = 0) →
        (text_filter_build c lib filter o log).2.2 = 0) ∧
      List.Pairwise (fun r1 r2 : Rule => r1.kind.rank ≤ r2.kind.rank)
        (text_filter_build c lib filter o log).1.filter.rules := by
    intro o log
    obtain ⟨_, _, ⟨rest, h3⟩, h4, h5⟩ :=
      text_filter_build_registered c lib filter o log hmap hinit
    refine ⟨⟨rest, h3⟩, fun he => by rw [h4 he], h5, ?_⟩
    have hs := expected_rules_sorted c lib filter
    rw [h3] at hs
    exact hs.sublist (List.sublist_append_left _ _)
  unfold text_filter
  rw [hobj]
  dsimp only
  by_cases hf : obj.has_filter ≠ 0
  · have herr : obj.filter.error ≠ 0 := by
      rcases hbuild with h | h
      · exact absurd h hf
      · exact h
    rw [if_pos hf, if_neg herr]
    obtain ⟨k1, k2, k3, k4⟩ := key { obj with has_filter := 0 }
      (s.log ++ [Event.filter_destroy])
    exact ⟨_, _, _, rfl, rfl, k1, k2, k3, k4, rfl⟩
  · rw [if_neg hf]
    obtain ⟨k1, k2, k3, k4⟩ := key obj s.log
    exact ⟨_, _, _, rfl, rfl, k1, k2, k3, k4, rfl⟩

/-- The order of C11 on a configuration with a drop list (holding a missing
term), a `stem_except` list and a `combine` list, built in an object that
holds no filter, by a library whose calls all succeed. -/
theorem text_filter_registration_order_witness :
    (fresh_state.obj = some { has_filter := 0, filter := empty_filter, has_sentfilter := 0 } ∧
      ((0 : Int) = 0 ∨ empty_filter.error ≠ 0) ∧
      lib_ok.typemap_init (filter_type_kind corpus_consts (some sample_config)) = 0 ∧
      lib_ok.filter_init (filter_type_kind corpus_consts (some sample_config))
        (filter_stemmer (some sample_config))
        (filter_flags corpus_consts (some sample_config)) = 0) ∧
    (∃ s1 err obj1, text_filter corpus_consts lib_ok (some sample_config) fresh_state
        = some (s1, err) ∧ s1.obj = some obj1 ∧
      (∃ rest, expected_rules corpus_consts lib_ok (some sample_config) =
        obj1.filter.rules ++ rest) ∧
      (err = 0 → obj1.filter.rules = expected_rules corpus_consts lib_ok (some sample_config)) ∧
      ((∀ kind term, (lib_ok.typemap_set kind term).1 = 0) →
        (∀ k rules type, lib_ok.add_term k rules type = 0) → err = 0) ∧
      List.Pairwise (fun r1 r2 : Rule => r1.kind.rank ≤ r2.kind.rank) obj1.filter.rules ∧
      expected_rules corpus_consts lib_ok (some sample_config) =
        (if getListElement (some sample_config) FilterConfig.stem_dropped = some Lgl.TRUE
          then []
          else typed_terms lib_ok (filter_type_kind corpus_consts (some sample_config))
            RuleKind.stem_except (getListElement (some sample_config) FilterConfig.drop)) ++
        typed_terms lib_ok (filter_type_kind corpus_consts (some sample_config))
          RuleKind.stem_except (getListElement (some sample_config) FilterConfig.stem_except) ++
        typed_terms lib_ok (filter_type_kind corpus_consts (some sample_config))
          RuleKind.drop (getListElement (some sample_config) FilterConfig.drop) ++
        typed_terms lib_ok (filter_type_kind corpus_consts (some sample_config))
          RuleKind.drop_except (getListElement (some sample_config) FilterConfig.drop_except) ++
        typed_terms lib_ok (filter_type_kind corpus_consts (some sample_config))
          RuleKind.combine (getListElement (some sample_config) FilterConfig.combine)) ∧
    (text_filter corpus_consts lib_ok (some sample_config) fresh_state).map
        (fun r => (r.1.obj.map (fun o => o.filter.rules), r.2)) =
      some (some [{ kind := RuleKind.stem_except, type := "a" },
          { kind := RuleKind.stem_except, type := "the" },
          { kind := RuleKind.stem_except, type := "data" },
          { kind := RuleKind.drop, type := "a" },
          { kind := RuleKind.drop, type := "the" },
          { kind := RuleKind.combine, type := "new york" }], 0) :=
  ⟨⟨rfl, Or.inl rfl, rfl, rfl⟩,
    text_filter_registration_order corpus_consts lib_ok (some sample_config) fresh_state
      { has_filter := 0, filter := empty_filter, has_sentfilter := 0 } rfl (Or.inl rfl)
      rfl rfl,
    by decide⟩

/-! ## Greedy choice of the column groups -/

/-- The two comparisons of one iteration of the inner loop, made on C `int`s,
accept the column exactly when the naive test does. -/
theorem partition_tests_iff (hr : Bool) (print_gap width : Int) (cw : List Int)
    (begin : Nat) (hgap : 0 ≤ print_gap ∧ print_gap ≤ INT_MAX)
    (hw : 1 ≤ width ∧ width ≤ INT_MAX) (hcw : ∀ x ∈ cw, 0 ≤ x ∧ x ≤ INT_MAX)
    (e : Nat) (lw : Int) (h0 : 0 ≤ lw) (hmax : lw ≤ INT_MAX) :
    (¬ ((decide (e > begin) || hr) = true ∧ lw ≥ sub32 width print_gap) ∧
      ¬ ((if (decide (e > begin) || hr) = true then add32 lw print_gap else lw)
          ≥ sub32 width (cw.getD e 0))) ↔
    lw + gap_before hr print_gap begin e + cw.getD e 0 < width := by
  have hc := getD_range cw hcw e
  have hM : INT_MAX = 2147483647 := rfl
  have hm : INT_MIN = -2147483648 := rfl
  have hs1 : sub32 width print_gap = width - print_gap :=
    sub32_exact _ _ (by omega) (by omega)
  have hs2 : sub32 width (cw.getD e 0) = width - cw.getD e 0 :=
    sub32_exact _ _ (by omega) (by omega)
  rw [hs1, hs2]
  unfold gap_before
  by_cases hg : (decide (e > begin) || hr) = true
  · simp only [hg, true_and, if_true]
    by_cases h1 : lw ≥ width - print_gap
    · simp only [h1, not_true_eq_false, false_and, false_iff]
      omega
    · have ha : add32 lw print_gap = lw + print_gap :=
        add32_exact _ _ (by omega) (by omega)
      rw [ha]
      simp only [h1, not_false_eq_true, true_and]
      omega
  · simp only [hg, false_and, not_false_eq_true, true_and, Bool.false_eq_true, if_false]
    omega

/-- Under a valid configuration the inner loop of the partition computes what
the naive loop computes. -/
theorem group_end_eq_naive (hr : Bool) (print_gap width : Int) (cw : List Int)
    (begin : Nat) (hgap : 0 ≤ print_gap ∧ print_gap ≤ INT_MAX)
    (hw : 1 ≤ width ∧ width ≤ INT_MAX) (hcw : ∀ x ∈ cw, 0 ≤ x ∧ x ≤ INT_MAX) :
    ∀ (k e : Nat) (lw : Int), 0 ≤ lw → lw ≤ INT_MAX →
      group_end hr print_gap width cw begin k e lw =
        group_end_naive hr print_gap width cw begin k e lw := by
  intro k
  induction k with
  | zero => intro e lw _ _; rfl
  | succ k ih =>
    intro e lw h0 hmax
    have hc := getD_range cw hcw e
    have hM : INT_MAX = 2147483647 := rfl
    have hm : INT_MIN = -2147483648 := rfl
    have hiff := partition_tests_iff hr print_gap width cw begin hgap hw hcw e lw h0 hmax
    have hs1 : sub32 width print_gap = width - print_gap :=
      sub32_exact _ _ (by omega) (by omega)
    have hs2 : sub32 width (cw.getD e 0) = width - cw.getD e 0 :=
      sub32_exact _ _ (by omega) (by omega)
    rw [hs1, hs2] at hiff
    rw [group_end, group_end_naive]
    dsimp only
    rw [hs1, hs2]
    by_cases hn : lw + gap_before hr print_gap begin e + cw.getD e 0 < width
    · obtain ⟨t1, t2⟩ := hiff.2 hn
      rw [if_pos hn]
      have hc1 : ¬ (((decide (e > begin) || hr) && decide (lw ≥ width - print_gap)) = true) := by
        intro h
        rw [Bool.and_eq_true, decide_eq_true_eq] at h
        exact t1 h
      rw [if_neg hc1, if_neg t2]
      have hlw : add32 (if (decide (e > begin) || hr) = true then add32 lw print_gap else lw)
          (cw.getD e 0) = lw + gap_before hr print_gap begin e + cw.getD e 0 := by
        unfold gap_before at hn ⊢
        by_cases hg : (decide (e > begin) || hr) = true
        · simp only [hg, if_true] at hn ⊢
          have ha : add32 lw print_gap = lw + print_gap :=
            add32_exact _ _ (by omega) (by omega)
          rw [ha]
          exact add32_exact _ _ (by omega) (by omega)
        · simp only [hg, Bool.false_eq_true, if_false] at hn ⊢
          rw [add32_exact _ _ (by omega) (by omega)]
          omega
      rw [hlw]
      have hgb := gap_before_nonneg hr print_gap hgap.1 begin e
      exact ih _ _ (by omega) (by omega)
    · rw [if_neg hn]
      have hnot := fun h => hn (hiff.1 h)
      by_cases hc1 : ((decide (e > begin) || hr) && decide (lw ≥ width - print_gap)) = true
      · rw [if_pos hc1]
      · rw [if_neg hc1]
        have t1 : ¬ ((decide (e > begin) || hr) = true ∧ lw ≥ width - print_gap) := by
          intro h
          apply hc1
          rw [Bool.and_eq_true, decide_eq_true_eq]
          exact h
        by_cases t2 : (if (decide (e > begin) || hr) = true then add32 lw print_gap else lw)
            ≥ width - cw.getD e 0
        · rw [if_pos t2]
        · exact absurd ⟨t1, t2⟩ hnot

/-- A run of the naive loop that stops before the last column stops at a
column that does not fit. -/
theorem group_end_naive_maximal (hr : Bool) (nw print_gap width : Int) (cw : List Int)
    (begin : Nat) :
    ∀ (k e : Nat) (lw : Int), begin ≤ e → lw = group_width hr nw print_gap cw begin e →
      group_end_naive hr print_gap width cw begin k e lw < e + k →
      width ≤ group_width hr nw print_gap cw begin
        (group_end_naive hr print_gap width cw begin k e lw + 1) := by
  intro k
  induction k with
  | zero =>
    intro e lw _ _ h
    simp only [group_end_naive] at h
    omega
  | succ k ih =>
    intro e lw hbe hlw h
    rw [group_end_naive] at h ⊢
    by_cases hn : lw + gap_before hr print_gap begin e + cw.getD e 0 < width
    · rw [if_pos hn] at h ⊢
      refine ih (e + 1) _ (by omega) ?_ (by omega)
      rw [group_width_succ _ _ _ _ _ _ hbe, ← hlw]
    · rw [if_neg hn]
      rw [group_width_succ _ _ _ _ _ _ hbe, ← hlw]
      omega

theorem group_end_naive_ge (hr : Bool) (print_gap width : Int) (cw : List Int)
    (begin : Nat) :
    ∀ (k e : Nat) (lw : Int), e ≤ group_end_naive hr print_gap width cw begin k e lw := by
  intro k
  induction k with
  | zero => intro e lw; exact le_refl _
  | succ k ih =>
    intro e lw
    rw [group_end_naive]
    split_ifs
    · exact le_trans (Nat.le_succ e) (ih _ _)
    · exact le_refl _

/-- Every group that stops before the last column is maximal: with its next
column its computed width reaches `width`. -/
theorem next_end_maximal (sx : Table) (print_gap width : Int) (cw : List Int)
    (begin : Nat) (nw : Int) (hb : begin < sx.ncol)
    (hgap : 0 ≤ print_gap ∧ print_gap ≤ INT_MAX) (hw : 1 ≤ width ∧ width ≤ INT_MAX)
    (hnw : 0 ≤ nw ∧ nw ≤ INT_MAX) (hcw : ∀ x ∈ cw, 0 ≤ x ∧ x ≤ INT_MAX)
    (hlt : next_end sx print_gap width nw cw begin < sx.ncol) :
    width ≤ group_width sx.row_names.isSome nw print_gap cw begin
      (next_end sx print_gap width nw cw begin + 1) := by
  have heq := group_end_eq_naive sx.row_names.isSome print_gap width cw begin hgap hw hcw
    (sx.ncol - begin) begin nw hnw.1 hnw.2
  have hmaxi := group_end_naive_maximal sx.row_names.isSome nw print_gap width cw begin
    (sx.ncol - begin) begin nw (le_refl _) (group_width_self _ _ _ _ _).symm
  have hge := group_end_naive_ge sx.row_names.isSome print_gap width cw begin
    (sx.ncol - begin) begin nw
  unfold next_end at hlt ⊢
  dsimp only at hlt ⊢
  rw [heq] at hlt ⊢
  split_ifs at hlt ⊢ with hbe
  · have h1 := hmaxi (by omega)
    rw [← hbe] at h1 ⊢
    rw [group_width_succ _ _ _ _ _ _ (by omega : begin ≤ begin + 1)]
    have hg := gap_before_nonneg sx.row_names.isSome print_gap hgap.1 begin (begin + 1)
    have hc := getD_range cw hcw (begin + 1)
    omega
  · exact hmaxi (by omega)

/-- C12: for a valid configuration (`print_gap ≥ 0`, `line_width ≥ 1`, C
`int`s) and column widths that are non-negative C `int`s: the two comparisons
of an iteration of the inner loop, `linewidth >= width - print_gap` and
`linewidth >= width - colwidths[end]`, let column `end` join the group exactly
when `linewidth + gap + colwidths[end] < width`, the gap being `print_gap`, or
0 for the first column of a group without row labels; hence the inner loop
computes the same end of group as the naive loop; and every group handed to
`print_range` that does not end at `ncol` is maximal: with its next column its
computed line width would reach `line_width`. -/
theorem partition_greedy (sx : Table) (print_gap : Int) (right : Bool)
    (max width : Int) (hwf : sx.wf)
    (hgap : 0 ≤ print_gap ∧ print_gap ≤ INT_MAX) (hw : 1 ≤ width ∧ width ≤ INT_MAX) :
    (∀ (hr : Bool) (cw : List Int), (∀ x ∈ cw, 0 ≤ x ∧ x ≤ INT_MAX) →
      ∀ (begin e : Nat) (lw : Int), 0 ≤ lw → lw ≤ INT_MAX →
        ((¬ ((decide (e > begin) || hr) = true ∧ lw ≥ sub32 width print_gap) ∧
          ¬ ((if (decide (e > begin) || hr) = true then add32 lw print_gap else lw)
              ≥ sub32 width (cw.getD e 0))) ↔
        lw + gap_before hr print_gap begin e + cw.getD e 0 < width)) ∧
    (∀ (hr : Bool) (cw : List Int), (∀ x ∈ cw, 0 ≤ x ∧ x ≤ INT_MAX) →
      ∀ (begin k : Nat) (nw : Int), 0 ≤ nw → nw ≤ INT_MAX →
        group_end hr print_gap width cw begin k begin nw =
          group_end_naive hr print_gap width cw begin k begin nw) ∧
    ∃ r cw, print_table sx print_gap right max width = some r ∧
      compute_colwidths sx = some cw ∧
      ∀ c ∈ r.calls, c.end_ < sx.ncol →
        width ≤ group_width sx.row_names.isSome (compute_namewidth sx) print_gap cw
          c.begin (c.end_ + 1) := by
  refine ⟨?_, ?_, ?_⟩
  · intro hr cw hcw begin e lw h0 hmax
    exact partition_tests_iff hr print_gap width cw begin hgap hw hcw e lw h0 hmax
  · intro hr cw hcw begin k nw h0 hmax
    exact group_end_eq_naive hr print_gap width cw begin hgap hw hcw k begin nw h0 hmax
  · obtain ⟨cw, r, hcw, _, hP, hr⟩ := print_table_inv sx print_gap right max width hwf.1
      (fun _ r => ∀ cw, compute_colwidths sx = some cw → ∀ c ∈ r.calls, c.end_ < sx.ncol →
        width ≤ group_width sx.row_names.isSome (compute_namewidth sx) print_gap cw
          c.begin (c.end_ + 1))
      (by simp)
      (by
        intro cw hcw b r hb hP cw1 hcw1 c hc hlt
        have hcc : cw1 = cw := by rw [hcw] at hcw1; exact (Option.some.inj hcw1).symm
        subst hcc
        simp only [call_range, List.mem_append, List.mem_singleton] at hc
        rcases hc with hc | hc
        · exact hP cw1 hcw c hc hlt
        · subst hc
          exact next_end_maximal sx print_gap width cw1 b (compute_namewidth sx) hb hgap hw
            (compute_namewidth_range sx hwf) (compute_colwidths_range sx hwf cw1 hcw) hlt)
    refine ⟨_, cw, hr, hcw, ?_⟩
    by_cases hz : sx.ncol = 0
    · intro c _ hlt
      omega
    · simp only [hz, if_false]
      exact hP cw hcw

/-- The greedy choice of C12 on the grid whose first column is 10 wide,
printed with `line_width = 5`: the group `[0, 1)` stops before the last column
and with column 1 its computed width would be 12. -/
theorem partition_greedy_witness :
    (wide_grid.wf ∧ ((0 : Int) ≤ 1 ∧ (1 : Int) ≤ INT_MAX) ∧
      ((1 : Int) ≤ 5 ∧ (5 : Int) ≤ INT_MAX)) ∧
    (∃ r cw, print_table wide_grid 1 false 100 5 = some r ∧
      compute_colwidths wide_grid = some cw ∧
      ∀ c ∈ r.calls, c.end_ < wide_grid.ncol →
        5 ≤ group_width wide_grid.row_names.isSome (compute_namewidth wide_grid) 1 cw
          c.begin (c.end_ + 1)) ∧
    group_end false 1 5 [10, 1, 1] 1 2 1 0 = 3 ∧
    group_end_naive false 1 5 [10, 1, 1] 1 2 1 0 = 3 ∧
    group_width false 0 1 [10, 1, 1] 0 2 = 12 :=
  ⟨⟨wide_grid_wf, by decide, by decide⟩,
    (partition_greedy wide_grid 1 false 100 5 wide_grid_wf (by decide) (by decide)).2.2,
    by decide, by decide, by decide⟩

/-! ## The name width -/

theorem namewidth_loop_attained (f : Nat → Int) :
    ∀ (l : List Nat) (a : Int),
      l.foldl (fun namewidth i => if f i > namewidth then f i else namewidth) a = a ∨
      ∃ i ∈ l, l.foldl (fun namewidth i => if f i > namewidth then f i else namewidth) a
        = f i := by
  intro l
  induction l with
  | nil => intro a; left; rfl
  | cons i l ih =>
    intro a
    rw [List.foldl_cons]
    rcases ih (if f i > a then f i else a) with h | ⟨k, hk, h⟩
    · rw [h]
      split_ifs
      · right; exact ⟨i, List.mem_cons_self _ _, rfl⟩
      · left; rfl
    · right
      exact ⟨k, List.mem_cons_of_mem _ hk, h⟩

/-- C14: on a well-formed grid the name width computed by `print_table` is 0
when there are no row labels or no rows; with row labels it is at least the
display width of every row label and, when there are rows, it is the display
width of one of them, a missing row label counting for 2; hence the padding
`namewidth - w` computed by `print_range` after a row label is never
negative. -/
theorem namewidth_is_max (sx : Table) (hwf : sx.wf) :
    (sx.row_names = none → compute_namewidth sx = 0) ∧
    (sx.nrow = 0 → compute_namewidth sx = 0) ∧
    (∀ rn, sx.row_names = some rn →
      (∀ i, i < sx.nrow → label_w (STRING_ELT rn i) ≤ compute_namewidth sx) ∧
      (0 < sx.nrow → ∃ i, i < sx.nrow ∧ compute_namewidth sx = label_w (STRING_ELT rn i)) ∧
      (∀ i, i < sx.nrow → 0 ≤ sub32 (compute_namewidth sx) (label_w (STRING_ELT rn i)))) ∧
    label_w CharSxp.NA_STRING = 2 := by
  refine ⟨?_, ?_, ?_, rfl⟩
  · intro hnone
    simp [compute_namewidth, hnone]
  · intro h0
    unfold compute_namewidth
    cases sx.row_names with
    | none => rfl
    | some rn => simp [h0]
  · intro rn hrn
    have hok : ∀ i, 0 ≤ label_w (STRING_ELT rn i) ∧ label_w (STRING_ELT rn i) ≤ INT_MAX :=
      fun i => label_w_range _ (STRING_ELT_ok rn (hwf.2.1 rn hrn).2 i)
    refine ⟨fun i hi => namewidth_ge_label sx rn hrn i hi, ?_, ?_⟩
    · intro hpos
      have hge := fun i hi => namewidth_ge_label sx rn hrn i hi
      have hatt := namewidth_loop_attained (fun i => label_w (STRING_ELT rn i))
        (List.range sx.nrow) 0
      have hdef : compute_namewidth sx =
          (List.range sx.nrow).foldl
            (fun namewidth i =>
              if label_w (STRING_ELT rn i) > namewidth then label_w (STRING_ELT rn i)
              else namewidth) 0 := by
        simp [compute_namewidth, hrn]
      rw [← hdef] at hatt
      rcases hatt with h | ⟨i, hi, h⟩
      · refine ⟨0, hpos, ?_⟩
        have h1 := hge 0 hpos
        have h2 := (hok 0).1
        omega
      · exact ⟨i, List.mem_range.1 hi, h⟩
    · intro i hi
      have h1 := namewidth_ge_label sx rn hrn i hi
      rw [sub32_widths _ _ (compute_namewidth_range sx hwf) (hok i)]
      omega

/-- The name width of C14 on the labelled 2-by-2 grid, whose row labels are a
text 2 columns wide and the missing string: the name width is 2. -/
theorem namewidth_is_max_witness :
    labelled_grid.wf ∧
    ((labelled_grid.row_names = none → compute_namewidth labelled_grid = 0) ∧
    (labelled_grid.nrow = 0 → compute_namewidth labelled_grid = 0) ∧
    (∀ rn, labelled_grid.row_names = some rn →
      (∀ i, i < labelled_grid.nrow →
        label_w (STRING_ELT rn i) ≤ compute_namewidth labelled_grid) ∧
      (0 < labelled_grid.nrow → ∃ i, i < labelled_grid.nrow ∧
        compute_namewidth labelled_grid = label_w (STRING_ELT rn i)) ∧
      (∀ i, i < labelled_grid.nrow →
        0 ≤ sub32 (compute_namewidth labelled_grid) (label_w (STRING_ELT rn i)))) ∧
    label_w CharSxp.NA_STRING = 2) ∧
    compute_namewidth labelled_grid = 2 ∧ compute_namewidth grid32 = 0 :=
  ⟨labelled_grid_wf, namewidth_is_max labelled_grid labelled_grid_wf, by decide, by decide⟩

/-! ## Range of the integers of the partition loop -/

theorem group_end_checked_true (hr : Bool) (print_gap width : Int) (cw : List Int)
    (begin : Nat) (hgap : 0 ≤ print_gap ∧ print_gap ≤ INT_MAX)
    (hw : 1 ≤ width ∧ width ≤ INT_MAX) (hcw : ∀ x ∈ cw, 0 ≤ x ∧ x ≤ INT_MAX) :
    ∀ (k e : Nat) (lw : Int), 0 ≤ lw → lw ≤ INT_MAX →
      group_end_checked hr print_gap width cw begin k e lw = true := by
  intro k
  induction k with
  | zero => intro e lw _ _; rfl
  | succ k ih =>
    intro e lw h0 hmax
    have hc := getD_range cw hcw e
    have hM : INT_MAX = 2147483647 := rfl
    have hm : INT_MIN = -2147483648 := rfl
    have r1 : IsInt32 (width - print_gap) := ⟨by omega, by omega⟩
    have r2 : IsInt32 (width - cw.getD e 0) := ⟨by omega, by omega⟩
    rw [group_end_checked]
    by_cases hg : (decide (e > begin) || hr) = true
    · rw [if_pos hg]
      simp only [r1, r2, decide_True, Bool.true_and]
      by_cases h1 : lw ≥ width - print_gap
      · rw [if_pos h1]
      · rw [if_neg h1]
        have r3 : IsInt32 (lw + print_gap) := ⟨by omega, by omega⟩
        have r4 : lw + print_gap < width := by omega
        simp only [r3, r4, decide_True, Bool.true_and]
        by_cases h2 : lw + print_gap ≥ width - cw.getD e 0
        · rw [if_pos h2]
        · rw [if_neg h2]
          have r5 : IsInt32 (lw + print_gap + cw.getD e 0) := ⟨by omega, by omega⟩
          have r6 : lw + print_gap + cw.getD e 0 < width := by omega
          simp only [r5, r6, decide_True, Bool.true_and]
          exact ih _ _ (by omega) (by omega)
    · rw [if_neg hg]
      simp only [r2, decide_True, Bool.true_and]
      by_cases h2 : lw ≥ width - cw.getD e 0
      · rw [if_pos h2]
      · rw [if_neg h2]
        have r5 : IsInt32 (lw + cw.getD e 0) := ⟨by omega, by omega⟩
        have r6 : lw + cw.getD e 0 < width := by omega
        simp only [r5, r6, decide_True, Bool.true_and]
        exact ih _ _ (by omega) (by omega)

/-- C15: for `0 ≤ print_gap ≤ INT_MAX`, `1 ≤ line_width ≤ INT_MAX`,
`0 ≤ name_width ≤ INT_MAX` and column widths in `[0, INT_MAX]`, in the inner
loop of the partition started at any column with `linewidth = name_width`,
every subtraction and every update has its exact value within the range of a
C `int`, and `linewidth` is below `line_width` after every update; so the
loop on C `int`s ends where the loop in exact arithmetic ends. -/
theorem partition_no_overflow (hr : Bool) (print_gap width nw : Int) (cw : List Int)
    (hgap : 0 ≤ print_gap ∧ print_gap ≤ INT_MAX) (hw : 1 ≤ width ∧ width ≤ INT_MAX)
    (hnw : 0 ≤ nw ∧ nw ≤ INT_MAX) (hcw : ∀ x ∈ cw, 0 ≤ x ∧ x ≤ INT_MAX)
    (begin k : Nat) :
    group_end_checked hr print_gap width cw begin k begin nw = true ∧
    group_end hr print_gap width cw begin k begin nw =
      group_end_naive hr print_gap width cw begin k begin nw := by
  exact ⟨group_end_checked_true hr print_gap width cw begin hgap hw hcw k begin nw
      hnw.1 hnw.2,
    group_end_eq_naive hr print_gap width cw begin hgap hw hcw k begin nw hnw.1 hnw.2⟩

/-- The check of C15 on widths at the top of the range: `line_width` and a
column width equal to `INT_MAX`, name width 5 and `print_gap` 1, with row
labels. Outside the preconditions the check can fail: with `print_gap = -1`
the subtraction `INT_MAX - print_gap` leaves the range. -/
theorem partition_no_overflow_witness :
    (((0 : Int) ≤ 1 ∧ (1 : Int) ≤ INT_MAX) ∧ ((1 : Int) ≤ INT_MAX ∧ INT_MAX ≤ INT_MAX) ∧
      ((0 : Int) ≤ 5 ∧ (5 : Int) ≤ INT_MAX) ∧
      ∀ x ∈ [(3 : Int), INT_MAX, 1], 0 ≤ x ∧ x ≤ INT_MAX) ∧
    (group_end_checked true 1 INT_MAX [3, INT_MAX, 1] 0 3 0 5 = true ∧
      group_end true 1 INT_MAX [3, INT_MAX, 1] 0 3 0 5 =
        group_end_naive true 1 INT_MAX [3, INT_MAX, 1] 0 3 0 5) ∧
    group_end true 1 INT_MAX [3, INT_MAX, 1] 0 3 0 5 = 1 ∧
    group_end_checked true (-1) INT_MAX [3] 0 1 0 5 = false :=
  ⟨⟨by decide, by decide, by decide, by decide⟩,
    partition_no_overflow true 1 INT_MAX 5 [3, INT_MAX, 1] (by decide) (by decide)
      (by decide) (by decide) 0 3,
    by decide, by decide⟩

/-! ## The pass over the cells, column by column -/

theorem raise_col_length (cw : List Int) (j : Nat) (w : Int) :
    (raise_col cw j w).length = cw.length := by
  unfold raise_col
  split_ifs <;> simp

theorem raise_col_getD (cw : List Int) (j t : Nat) (w : Int) :
    (raise_col cw j w).getD t 0 = cw.getD t 0 ∨
      (t = j ∧ (raise_col cw j w).getD t 0 = w) := by
  unfold raise_col
  split_ifs with hw
  · by_cases htj : j = t
    · subst htj
      by_cases hj : j < cw.length
      · right
        exact ⟨rfl, by simp [List.getD_eq_getElem?_getD, List.getElem?_set, hj]⟩
      · left
        simp [List.getD_eq_getElem?_getD, List.getElem?_set, hj,
          List.getElem?_eq_none (Nat.le_of_not_lt hj)]
    · left
      simp [List.getD_eq_getElem?_getD, List.getElem?_set, htj]
  · left; rfl

theorem succ_div_cursor (nrow ix : Nat) :
    (if (ix + 1) % nrow = 0 then ix / nrow + 1 else ix / nrow) = (ix + 1) / nrow := by
  rw [Nat.succ_div]
  by_cases hd : (ix + 1) % nrow = 0
  · simp [hd, Nat.dvd_of_mod_eq_zero hd]
  · have : ¬ nrow ∣ ix + 1 := fun h => hd (Nat.mod_eq_zero_of_dvd h)
    simp [hd, this]

/-- The pass over the cells is the pass in which cell `ix` raises the width of
column `ix / nrow`, and it stays within the bounds of `colwidths` as long as
the cells left fit in the columns. -/
theorem scan_cells_fold (sx : Table) :
    ∀ (k ix : Nat) (cw : List Int), ix + k ≤ sx.nrow * cw.length →
      scan_cells sx (List.range' ix k) (ix / sx.nrow) cw =
        some ((List.range' ix k).foldl
          (fun colwidths t => raise_col colwidths (t / sx.nrow) (cell_w sx t)) cw) := by
  intro k
  induction k with
  | zero => intro ix cw _; rfl
  | succ k ih =>
    intro ix cw hk
    have hix : ix < sx.nrow * cw.length := by omega
    have hnrow : 0 < sx.nrow := by
      rcases Nat.eq_zero_or_pos sx.nrow with h | h
      · rw [h] at hix; simp at hix
      · exact h
    have hjlt : ix / sx.nrow < cw.length := Nat.div_lt_of_lt_mul hix
    rw [List.range'_succ, scan_cells, List.foldl_cons]
    dsimp only
    rw [if_pos hjlt, if_neg (Nat.ne_of_gt hnrow), succ_div_cursor]
    exact ih (ix + 1) (raise_col cw (ix / sx.nrow) (cell_w sx ix))
      (by rw [raise_col_length]; omega)

/-- Every entry of the column widths left by the pass over the cells is the
entry it started from or the width taken for a cell of that column. -/
theorem scan_fold_attained (sx : Table) :
    ∀ (k ix : Nat) (cw : List Int) (t : Nat),
      ((List.range' ix k).foldl
        (fun colwidths t => raise_col colwidths (t / sx.nrow) (cell_w sx t)) cw).getD t 0
          = cw.getD t 0 ∨
      ∃ ix1, ix ≤ ix1 ∧ ix1 < ix + k ∧ ix1 / sx.nrow = t ∧
        ((List.range' ix k).foldl
          (fun colwidths t => raise_col colwidths (t / sx.nrow) (cell_w sx t)) cw).getD t 0
            = cell_w sx ix1 := by
  intro k
  induction k with
  | zero => intro ix cw t; left; rfl
  | succ k ih =>
    intro ix cw t
    rw [List.range'_succ, List.foldl_cons]
    rcases ih (ix + 1) (raise_col cw (ix / sx.nrow) (cell_w sx ix)) t with h | ⟨ix1, h1, h2, h3, h4⟩
    · rcases raise_col_getD cw (ix / sx.nrow) t (cell_w sx ix) with h5 | ⟨h5, h6⟩
      · left
        rw [h, h5]
      · right
        exact ⟨ix, le_refl _, by omega, h5.symm, by rw [h, h6]⟩
    · right
      exact ⟨ix1, by omega, by omega, h3, h4⟩

/-- C16: on a grid stored column-major with `nrow * ncol` cells the pass of
`print_table` over the cells ends without indexing `colwidths` outside
`[0, ncol)` and without a modulus by `nrow = 0`; it is the pass in which cell
`ix` raises the width of column `ix / nrow`; and it leaves in `colwidths[j]`
the maximum of the header width of column `j` (the width of its label, 2 for a
missing label, 0 when there are no column labels) and of the widths of the
cells of column `j`, a missing cell counting for 0: `colwidths[j]` is at least
each of them and equals one of them. -/
theorem colwidths_pass (sx : Table) (hlen : sx.cells.length = sx.nrow * sx.ncol) :
    ∃ cw, compute_colwidths sx = some cw ∧ cw.length = sx.ncol ∧
      cw = colwidths_by_column sx ∧
      (∀ j, j < sx.ncol →
        (init_colwidths sx).getD j 0 ≤ cw.getD j 0 ∧
        (∀ i, i < sx.nrow → cell_w sx (i + j * sx.nrow) ≤ cw.getD j 0) ∧
        (cw.getD j 0 = (init_colwidths sx).getD j 0 ∨
          ∃ i, i < sx.nrow ∧ cw.getD j 0 = cell_w sx (i + j * sx.nrow))) ∧
      (sx.col_names = none → ∀ j, j < sx.ncol → (init_colwidths sx).getD j 0 = 0) ∧
      (∀ cn, sx.col_names = some cn → ∀ j, j < sx.ncol →
        (init_colwidths sx).getD j 0 = label_w (STRING_ELT cn j)) ∧
      label_w CharSxp.NA_STRING = 2 ∧
      (∀ ix, STRING_ELT sx.cells ix = CharSxp.NA_STRING → cell_w sx ix = 0) ∧
      (∀ ix, STRING_ELT sx.cells ix ≠ CharSxp.NA_STRING →
        cell_w sx ix = charsxp_width (STRING_ELT sx.cells ix)) := by
  have hfold : compute_colwidths sx = some (colwidths_by_column sx) := by
    unfold compute_colwidths colwidths_by_column
    rw [List.range_eq_range']
    have h := scan_cells_fold sx sx.cells.length 0 (init_colwidths sx)
      (by rw [init_colwidths_length, hlen]; omega)
    rw [Nat.zero_div] at h
    exact h
  obtain ⟨cw, hcw, hl⟩ := compute_colwidths_total sx hlen
  have hcc : cw = colwidths_by_column sx := by
    rw [hfold] at hcw
    exact (Option.some.inj hcw).symm
  refine ⟨cw, hcw, hl, hcc, ?_, ?_, ?_, rfl, ?_, ?_⟩
  · intro j hj
    refine ⟨scan_cells_mono sx _ _ _ _ hcw j, ?_, ?_⟩
    · intro i hi
      have hlt : i + j * sx.nrow < 0 + sx.cells.length := by
        rw [hlen, Nat.zero_add]
        calc i + j * sx.nrow < (j + 1) * sx.nrow := by rw [Nat.succ_mul]; omega
          _ ≤ sx.ncol * sx.nrow := Nat.mul_le_mul_right _ hj
          _ = sx.nrow * sx.ncol := Nat.mul_comm _ _
      have hcw2 := hcw
      unfold compute_colwidths at hcw2
      rw [List.range_eq_range'] at hcw2
      have h := scan_cells_ge sx (by omega) _ 0 0 _ cw (by simp) hcw2 (i + j * sx.nrow)
        (Nat.zero_le _) hlt
      rw [cell_index_div sx.nrow i j hi] at h
      exact h
    · rw [hcc]
      unfold colwidths_by_column
      rw [List.range_eq_range']
      rcases scan_fold_attained sx sx.cells.length 0 (init_colwidths sx) j with h | ⟨ix1, _, h2, h3, h4⟩
      · left; exact h
      · right
        have hpos : 0 < sx.nrow := by
          rcases Nat.eq_zero_or_pos sx.nrow with h | h
          · rw [hlen, h] at h2; simp at h2
          · exact h
        refine ⟨ix1 % sx.nrow, Nat.mod_lt _ hpos, ?_⟩
        rw [h4, ← h3, Nat.mul_comm, Nat.mod_add_div]
  · intro hnone j hj
    unfold init_colwidths
    rw [hnone]
    simp [List.getD_eq_getElem?_getD, List.getElem?_replicate, hj]
  · intro cn hcn j hj
    exact init_colwidths_getD sx cn hcn j hj
  · intro ix h
    simp [cell_w, h]
  · intro ix h
    simp [cell_w, h]

/-- The pass of C16 on the labelled 2-by-2 grid: widths 1 and 3. On the 1-by-1
grid whose cell is missing the width left is 0. -/
theorem colwidths_pass_witness :
    labelled_grid.cells.length = labelled_grid.nrow * labelled_grid.ncol ∧
    (∃ cw, compute_colwidths labelled_grid = some cw ∧ cw.length = labelled_grid.ncol ∧
      cw = colwidths_by_column labelled_grid) ∧
    compute_colwidths labelled_grid = some [1, 3] ∧
    compute_colwidths na_grid = some [0] :=
  ⟨by decide,
    (colwidths_pass labelled_grid (by decide)).imp
      (fun _ h => ⟨h.1, h.2.1, h.2.2.1⟩),
    by decide, by decide⟩

/-! ## The cells printed under the cap -/

/-- The cell loop and its trace take the same decisions, and the text of the
cell loop is made of the fields of the cells of the trace, followed by a
newline exactly when the loop returned on the cap. -/
theorem print_row_cells_trace (sx : Table) (hcells : ∀ e ∈ sx.cells, e.ok) (i begin : Nat)
    (print_gap : Int) (right : Bool) (max : Int) (cw : List Int)
    (hcw : ∀ x ∈ cw, 0 ≤ x ∧ x ≤ INT_MAX) :
    ∀ (js : List Nat) (buf : List Item) (cells : List (Nat × Nat)) (n : Int),
      ∃ new, (row_cells_trace i max js cells n).1 = cells ++ new ∧
        print_row_cells sx i begin print_gap right max cw js buf n =
          (buf ++ new.flatMap (fun p => cell_field sx p.1 begin print_gap right cw p.2) ++
              (if (row_cells_trace i max js cells n).2.2 then [Item.ch '\n'] else []),
            (row_cells_trace i max js cells n).2.1,
            (row_cells_trace i max js cells n).2.2) := by
  intro js
  induction js with
  | nil =>
    intro buf cells n
    exact ⟨[], by simp [row_cells_trace], by simp [row_cells_trace, print_row_cells]⟩
  | cons j js ih =>
    intro buf cells n
    rw [row_cells_trace, print_row_cells]
    by_cases hn : n = max
    · rw [if_pos hn, if_pos hn]
      exact ⟨[], by simp, by simp [PRINT_CHAR]⟩
    · rw [if_neg hn, if_neg hn]
      dsimp only
      rw [gap_spaces_eq,
        sub32_widths _ _ (getD_range cw hcw j) (STRING_ELT_ok sx.cells hcells _),
        PRINT_ENTRY_eq]
      obtain ⟨new, h1, h2⟩ := ih
        (buf ++ spaces (gap_before sx.row_names.isSome print_gap begin j).toNat ++
          aligned right (translate (STRING_ELT sx.cells (i + j * sx.nrow)))
            (charsxp_width (STRING_ELT sx.cells (i + j * sx.nrow))) (cw.getD j 0))
        (cells ++ [(i, j)]) (add32 n 1)
      refine ⟨(i, j) :: new, by rw [h1]; simp, ?_⟩
      rw [h2]
      simp [cell_field, List.append_assoc]

theorem row_cells_trace_eq (i : Nat) (max : Int) (hmax : max ≤ INT_MAX) :
    ∀ (js : List Nat) (cells : List (Nat × Nat)) (n : Int), 0 ≤ n → n ≤ max →
      row_cells_trace i max js cells n =
        (cells ++ (js.take (max - n).toNat).map (fun j => (i, j)),
          min (n + js.length) max, decide (n + js.length > max)) := by
  intro js
  induction js with
  | nil =>
    intro cells n h0 hn
    have : ¬ n > max := by omega
    simp [row_cells_trace, this, hn]
  | cons j js ih =>
    intro cells n h0 hn
    rw [row_cells_trace]
    have hlen : ((j :: js).length : Int) = (js.length : Int) + 1 := by simp
    by_cases hnm : n = max
    · subst hnm
      have h1 : n + ((j :: js).length : Int) > n := by omega
      have h2 : min (n + ((j :: js).length : Int)) n = n := by omega
      rw [if_pos rfl, h2]
      simp [h1]
    · have hM : INT_MAX = 2147483647 := rfl
      have hm : INT_MIN = -2147483648 := rfl
      have ha : add32 n 1 = n + 1 := add32_exact _ _ (by omega) (by omega)
      rw [if_neg hnm, ha, ih _ _ (by omega) (by omega)]
      have ht : (max - n).toNat = (max - (n + 1)).toNat + 1 := by omega
      have e1 : n + 1 + (js.length : Int) = n + ((js.length : Int) + 1) := by ring
      rw [ht, List.take_succ_cons, hlen, e1]
      simp [List.append_assoc]

/-- The row loop and its trace return the same count. -/
theorem print_rows_trace_count (sx : Table) (begin end_ : Nat) (print_gap : Int)
    (right : Bool) (max : Int) (nw : Int) (cw : List Int) (hcells : ∀ e ∈ sx.cells, e.ok)
    (hcw : ∀ x ∈ cw, 0 ≤ x ∧ x ≤ INT_MAX) :
    ∀ (is : List Nat) (out : List Item) (cells : List (Nat × Nat)) (n : Int),
      (print_rows sx begin end_ print_gap right max nw cw is out n).2 =
        (rows_trace begin end_ max is cells n).2 := by
  intro is
  induction is with
  | nil => intro out cells n; rfl
  | cons i is ih =>
    intro out cells n
    rw [print_rows, rows_trace]
    by_cases hn : n = max
    · rw [if_pos hn, if_pos hn]
    · rw [if_neg hn, if_neg hn]
      dsimp only
      obtain ⟨new, _, h2⟩ := print_row_cells_trace sx hcells i begin print_gap right max cw
        hcw (List.range' begin (end_ - begin)) (print_row_name sx i nw []) cells n
      rw [h2]
      dsimp only
      split_ifs
      · rfl
      · exact ih _ _ _

theorem group_cells_length (nrow begin end_ : Nat) :
    (group_cells nrow begin end_).length = nrow * (end_ - begin) := by
  unfold group_cells
  induction nrow with
  | zero => simp
  | succ n ih =>
    rw [List.range_succ, List.flatMap_append, List.length_append, ih]
    simp [Nat.succ_mul]

/-- The trace of the row loop: the cells of the rows still to visit, in order,
cut at the remaining budget. -/
theorem rows_trace_eq (begin end_ : Nat) (max : Int) (hmax : max ≤ INT_MAX) :
    ∀ (is : List Nat) (cells : List (Nat × Nat)) (n : Int), 0 ≤ n → n ≤ max →
      (rows_trace begin end_ max is cells n).1 =
        cells ++ (is.flatMap
          (fun i => (List.range' begin (end_ - begin)).map (fun j => (i, j)))).take
            (max - n).toNat := by
  intro is
  induction is with
  | nil => intro cells n _ _; simp [rows_trace]
  | cons i is ih =>
    intro cells n h0 hn
    rw [rows_trace]
    by_cases hnm : n = max
    · rw [if_pos hnm, hnm]
      simp
    · rw [if_neg hnm]
      dsimp only
      rw [row_cells_trace_eq i max hmax _ _ n h0 hn]
      dsimp only
      have hlen : (List.range' begin (end_ - begin)).length = end_ - begin := by simp
      rw [hlen, List.flatMap_cons]
      by_cases hcut : n + ((end_ - begin : Nat) : Int) > max
      · rw [if_pos (by simpa using hcut)]
        rw [List.take_append_of_le_length (by rw [List.length_map, hlen]; omega),
          List.map_take]
      · rw [if_neg (by simpa using hcut), min_eq_left (by omega),
          ih _ _ (by omega) (by omega)]
        have ht : (max - n).toNat =
            ((List.range' begin (end_ - begin)).map (fun j => (i, j))).length +
              (max - (n + ((end_ - begin : Nat) : Int))).toNat := by
          rw [List.length_map, hlen]
          omega
        rw [ht, List.take_append, List.take_of_length_le (by rw [hlen]; omega),
          List.append_assoc]

/-- Cells printed by a call of `print_range`: the cells of its group in order,
cut at the budget. -/
theorem range_trace_eq (sx : Table) (begin end_ : Nat) (max : Int)
    (hmax : 0 ≤ max ∧ max ≤ INT_MAX) :
    (range_trace sx begin end_ max).1 =
      (group_cells sx.nrow begin end_).take max.toNat := by
  unfold range_trace group_cells
  rw [rows_trace_eq begin end_ max hmax.2 _ _ 0 (le_refl _) hmax.1]
  simp

/-- The calls of `print_range` made by `print_table` form a chain from column
0 to column `ncol`. -/
theorem print_table_chain (sx : Table) (print_gap : Int) (right : Bool) (max width : Int)
    (hlen : sx.cells.length = sx.nrow * sx.ncol) :
    ∃ r, print_table sx print_gap right max width = some r ∧
      r.calls.map Call.begin ++ [sx.ncol] = 0 :: r.calls.map Call.end_ := by
  obtain ⟨cw, r, _, _, hP, hr⟩ := print_table_inv sx print_gap right max width hlen
    (fun b r => r.calls.map Call.begin ++ [b] = 0 :: r.calls.map Call.end_)
    (by simp)
    (by
      intro cw _ b r _ hP
      simp only [call_range, List.map_append, List.map_cons, List.map_nil]
      rw [hP]
      simp)
  refine ⟨_, hr, ?_⟩
  by_cases hz : sx.ncol = 0
  · simp only [hz, if_true, call_range, List.map_append, List.map_cons, List.map_nil]
    rw [hz] at hP
    rw [hP]
    simp
  · simpa [hz] using hP

theorem print_groups_groups (sx : Table) (print_gap : Int) (right1 right2 : Bool)
    (max1 max2 width : Int) (nw : Int) (cw : List Int) :
    ∀ (fuel b : Nat) (r1 r2 : Render),
      r1.calls.map (fun c => (c.begin, c.end_)) = r2.calls.map (fun c => (c.begin, c.end_)) →
      (print_groups sx print_gap right1 max1 width nw cw fuel b r1).map
          (fun r => r.calls.map (fun c => (c.begin, c.end_))) =
        (print_groups sx print_gap right2 max2 width nw cw fuel b r2).map
          (fun r => r.calls.map (fun c => (c.begin, c.end_))) := by
  intro fuel
  induction fuel with
  | zero =>
    intro b r1 r2 h
    rw [print_groups, print_groups]
    split_ifs
    · simp [h]
    · rfl
  | succ fuel ih =>
    intro b r1 r2 h
    rw [print_groups, print_groups]
    split_ifs
    · simp [h]
    · apply ih
      simp [call_range, h]

/-- The column groups of `print_table` do not depend on the cap nor on the
alignment. -/
theorem print_table_groups (sx : Table) (print_gap : Int) (right1 right2 : Bool)
    (max1 max2 width : Int) :
    (print_table sx print_gap right1 max1 width).map
        (fun r => r.calls.map (fun c => (c.begin, c.end_))) =
      (print_table sx print_gap right2 max2 width).map
        (fun r => r.calls.map (fun c => (c.begin, c.end_))) := by
  unfold print_table print_table_fuel
  dsimp only
  cases compute_colwidths sx with
  | none => rfl
  | some cw =>
    dsimp only
    have h := print_groups_groups sx print_gap right1 right2 max1 max2 width
      (compute_namewidth sx) cw sx.ncol 0 { out := [], nprint := 0, calls := [] }
      { out := [], nprint := 0, calls := [] } rfl
    cases h1 : print_groups sx print_gap right1 max1 width (compute_namewidth sx) cw
        sx.ncol 0 { out := [], nprint := 0, calls := [] } with
    | none =>
      rw [h1] at h
      cases h2 : print_groups sx print_gap right2 max2 width (compute_namewidth sx) cw
          sx.ncol 0 { out := [], nprint := 0, calls := [] } with
      | none => rfl
      | some r2 => rw [h2] at h; simp at h
    | some r1 =>
      rw [h1] at h
      cases h2 : print_groups sx print_gap right2 max2 width (compute_namewidth sx) cw
          sx.ncol 0 { out := [], nprint := 0, calls := [] } with
      | none => rw [h2] at h; simp at h
      | some r2 =>
        rw [h2] at h
        simp only [Option.map_some', Option.some.injEq] at h
        dsimp only
        split_ifs
        · simp [call_range, h]
        · simp [h]

/-- Along a chain of calls, each with the budget left by the calls before it,
the cells printed are the cells of the groups in order, cut at the budget. -/
theorem chain_cells (sx : Table) (max : Int) (hmax : 0 ≤ max ∧ max ≤ INT_MAX) (N : Nat) :
    ∀ (calls : List Call) (b0 : Nat),
      calls.map Call.begin ++ [N] = b0 :: calls.map Call.end_ →
      (∀ c ∈ calls, c.begin ≤ c.end_ ∧
        c.max = max - min max ((sx.nrow : Int) * (c.begin : Int))) →
      b0 ≤ N ∧
      (calls.flatMap (fun c => group_cells sx.nrow c.begin c.end_)).length =
        sx.nrow * (N - b0) ∧
      calls.flatMap (fun c => (range_trace sx c.begin c.end_ c.max).1) =
        (calls.flatMap (fun c => group_cells sx.nrow c.begin c.end_)).take
          (max - min max ((sx.nrow : Int) * (b0 : Int))).toNat := by
  intro calls
  induction calls with
  | nil =>
    intro b0 hch _
    simp only [List.map_nil, List.nil_append, List.cons.injEq, and_true] at hch
    subst hch
    simp
  | cons c cs ih =>
    intro b0 hch hall
    simp only [List.map_cons, List.cons_append, List.cons.injEq] at hch
    obtain ⟨hb, hrest⟩ := hch
    obtain ⟨hbe, hcm⟩ := hall c (List.mem_cons_self _ _)
    obtain ⟨h1, h2, h3⟩ := ih c.end_ hrest (fun d hd => hall d (List.mem_cons_of_mem _ hd))
    have hA : 0 ≤ (sx.nrow : Int) * (c.begin : Int) :=
      mul_nonneg (Int.ofNat_nonneg _) (Int.ofNat_nonneg _)
    have hsum : (sx.nrow : Int) * (c.end_ : Int) =
        (sx.nrow : Int) * (c.begin : Int) + ((sx.nrow * (c.end_ - c.begin) : Nat) : Int) := by
      push_cast
      rw [Nat.cast_sub hbe]
      ring
    subst hb
    refine ⟨by omega, ?_, ?_⟩
    · rw [List.flatMap_cons, List.length_append, h2, group_cells_length, ← Nat.mul_add]
      congr 1
      omega
    · rw [List.flatMap_cons, List.flatMap_cons, h3,
        range_trace_eq sx c.begin c.end_ c.max (by rw [hcm]; omega), hcm,
        List.take_append_eq_append_take, group_cells_length]
      congr 2
      omega

/-! ## The type flags of a filter -/

theorem filter_logical_ne_zero (cfg : FilterConfig) (key : FilterConfig → Option Lgl) :
    filter_logical (some cfg) key 0 ≠ 0 ↔ key cfg = some Lgl.TRUE := by
  unfold filter_logical getListElement
  cases h : key cfg with
  | none => simp [h]
  | some v =>
    by_cases hv : v = Lgl.TRUE
    · simp [h, hv]
    · simp [h, hv]

/-- C17: `filter_type_kind` returns the union of the four type flags when the
filter is `NULL`. For a filter that is not `NULL` it returns the union of the
flags whose option (`map_case`, `map_compat`, `map_quote`, `remove_ignorable`)
is present and TRUE, an option that is absent, FALSE or NA giving nothing: a
bit is set in the result exactly when it is set in the flag of such an option.
A filter without any of the four options gives the empty set of flags. -/
theorem filter_type_kind_flags (c : CorpusConsts) :
    filter_type_kind c none =
      c.CORPUS_TYPE_MAPCASE ||| c.CORPUS_TYPE_MAPCOMPAT ||| c.CORPUS_TYPE_MAPQUOTE |||
        c.CORPUS_TYPE_RMDI ∧
    (∀ cfg : FilterConfig, filter_type_kind c (some cfg) =
      (if cfg.map_case = some Lgl.TRUE then c.CORPUS_TYPE_MAPCASE else 0) |||
      (if cfg.map_compat = some Lgl.TRUE then c.CORPUS_TYPE_MAPCOMPAT else 0) |||
      (if cfg.map_quote = some Lgl.TRUE then c.CORPUS_TYPE_MAPQUOTE else 0) |||
      (if cfg.remove_ignorable = some Lgl.TRUE then c.CORPUS_TYPE_RMDI else 0)) ∧
    (∀ (cfg : FilterConfig) (i : Nat), (filter_type_kind c (some cfg)).testBit i = true ↔
      (cfg.map_case = some Lgl.TRUE ∧ c.CORPUS_TYPE_MAPCASE.testBit i = true) ∨
      (cfg.map_compat = some Lgl.TRUE ∧ c.CORPUS_TYPE_MAPCOMPAT.testBit i = true) ∨
      (cfg.map_quote = some Lgl.TRUE ∧ c.CORPUS_TYPE_MAPQUOTE.testBit i = true) ∨
      (cfg.remove_ignorable = some Lgl.TRUE ∧ c.CORPUS_TYPE_RMDI.testBit i = true)) ∧
    (∀ cfg : FilterConfig, cfg.map_case = none → cfg.map_compat = none →
      cfg.map_quote = none → cfg.remove_ignorable = none →
      filter_type_kind c (some cfg) = 0) := by
  have hform : ∀ cfg : FilterConfig, filter_type_kind c (some cfg) =
      (if cfg.map_case = some Lgl.TRUE then c.CORPUS_TYPE_MAPCASE else 0) |||
      (if cfg.map_compat = some Lgl.TRUE then c.CORPUS_TYPE_MAPCOMPAT else 0) |||
      (if cfg.map_quote = some Lgl.TRUE then c.CORPUS_TYPE_MAPQUOTE else 0) |||
      (if cfg.remove_ignorable = some Lgl.TRUE then c.CORPUS_TYPE_RMDI else 0) := by
    intro cfg
    unfold filter_type_kind
    dsimp only
    by_cases h1 : cfg.map_case = some Lgl.TRUE <;>
    by_cases h2 : cfg.map_compat = some Lgl.TRUE <;>
    by_cases h3 : cfg.map_quote = some Lgl.TRUE <;>
    by_cases h4 : cfg.remove_ignorable = some Lgl.TRUE <;>
    simp [filter_logical_ne_zero, h1, h2, h3, h4]
  refine ⟨?_, hform, ?_, ?_⟩
  · simp [filter_type_kind]
  · intro cfg i
    rw [hform]
    simp only [Nat.testBit_lor, Bool.or_eq_true]
    by_cases h1 : cfg.map_case = some Lgl.TRUE <;>
    by_cases h2 : cfg.map_compat = some Lgl.TRUE <;>
    by_cases h3 : cfg.map_quote = some Lgl.TRUE <;>
    by_cases h4 : cfg.remove_ignorable = some Lgl.TRUE <;>
    simp [h1, h2, h3, h4, or_assoc]
  · intro cfg h1 h2 h3 h4
    rw [hform, h1, h2, h3, h4]
    simp

/-- The flags of C17 with the sample constants 1, 2, 4 and 8: a `NULL` filter
gives 15, a filter without options gives 0, and a filter whose `map_case` is
TRUE, `map_compat` FALSE and `map_quote` NA gives the flag of `map_case`
alone. -/
theorem filter_type_kind_flags_witness :
    (filter_type_kind corpus_consts none =
      corpus_consts.CORPUS_TYPE_MAPCASE ||| corpus_consts.CORPUS_TYPE_MAPCOMPAT |||
        corpus_consts.CORPUS_TYPE_MAPQUOTE ||| corpus_consts.CORPUS_TYPE_RMDI) ∧
    (empty_config.map_case = none ∧ empty_config.map_compat = none ∧
      empty_config.map_quote = none ∧ empty_config.remove_ignorable = none) ∧
    filter_type_kind corpus_consts (some empty_config) = 0 ∧
    filter_type_kind corpus_consts none = 15 ∧
    filter_type_kind corpus_consts (some case_only_config) = 1 :=
  ⟨(filter_type_kind_flags corpus_consts).1, ⟨rfl, rfl, rfl, rfl⟩,
    (filter_type_kind_flags corpus_consts).2.2.2 empty_config rfl rfl rfl rfl,
    by decide, by decide⟩

/-! ## The cache of the filter in a text object -/

theorem add_terms_loop_log (lib : CorpusLib) (k : RuleKind) :
    ∀ (terms : List (Option String)) (f : Filter) (log : List Event),
      ∃ rest, (add_terms_loop lib k terms f log).2.1 = log ++ rest := by
  intro terms
  induction terms with
  | nil => intro f log; exact ⟨[], by simp [add_terms_loop]⟩
  | cons t terms ih =>
    intro f log
    cases t with
    | none => rw [add_terms_loop]; exact ih f log
    | some term =>
      rw [add_terms_loop]
      dsimp only
      split_ifs
      · exact ⟨_, rfl⟩
      · exact ⟨_, List.append_assoc _ _ _⟩
      · obtain ⟨rest, h⟩ := ih
          { f with rules := f.rules ++
            [{ kind := k, type := (lib.typemap_set f.type_kind term).2 }] }
          (log ++ [Event.typemap_set term] ++
            [Event.add_term k (lib.typemap_set f.type_kind term).2])
        exact ⟨_, by rw [h, List.append_assoc, List.append_assoc]⟩

theorem add_terms_log (c : CorpusConsts) (lib : CorpusLib) (k : RuleKind)
    (sterms : Option (List (Option String))) (f : Filter) (log : List Event) :
    ∃ rest, (add_terms c lib k sterms f log).2.1 = log ++ rest := by
  cases sterms with
  | none => exact ⟨[], by simp [add_terms]⟩
  | some terms =>
    obtain ⟨rest, h⟩ := add_terms_loop_log lib k terms f log
    unfold add_terms
    dsimp only
    split_ifs
    · exact ⟨rest ++ [Event.typemap_destroy], by rw [h, List.append_assoc]⟩
    · exact ⟨rest, h⟩

theorem text_filter_terms_log (c : CorpusConsts) (lib : CorpusLib)
    (filter : Option FilterConfig) (sd : Int) (f : Filter) (log : List Event) :
    ∃ rest, (text_filter_terms c lib filter sd f log).2.1 = log ++ rest := by
  have hA : ∃ rest, (if sd = 0 then
      add_terms c lib RuleKind.stem_except (getListElement filter FilterConfig.drop) f log
      else (f, log, 0)).2.1 = log ++ rest := by
    split_ifs
    · exact add_terms_log c lib _ _ f log
    · exact ⟨[], by simp⟩
  unfold text_filter_terms
  dsimp only
  generalize (if sd = 0 then
      add_terms c lib RuleKind.stem_except (getListElement filter FilterConfig.drop) f log
      else (f, log, 0)) = r1 at hA ⊢
  obtain ⟨rest1, h1⟩ := hA
  by_cases e1 : r1.2.2 ≠ 0
  · rw [if_pos e1]; exact ⟨rest1, h1⟩
  rw [if_neg e1]
  obtain ⟨rest2, h2⟩ := add_terms_log c lib RuleKind.stem_except
    (getListElement filter FilterConfig.stem_except) r1.1 r1.2.1
  generalize add_terms c lib RuleKind.stem_except
    (getListElement filter FilterConfig.stem_except) r1.1 r1.2.1 = r2 at h2 ⊢
  by_cases e2 : r2.2.2 ≠ 0
  · rw [if_pos e2]; exact ⟨rest1 ++ rest2, by rw [h2, h1, List.append_assoc]⟩
  rw [if_neg e2]
  obtain ⟨rest3, h3⟩ := add_terms_log c lib RuleKind.drop
    (getListElement filter FilterConfig.drop) r2.1 r2.2.1
  generalize add_terms c lib RuleKind.drop
    (getListElement filter FilterConfig.drop) r2.1 r2.2.1 = r3 at h3 ⊢
  by_cases e3 : r3.2.2 ≠ 0
  · rw [if_pos e3]
    exact ⟨rest1 ++ rest2 ++ rest3, by rw [h3, h2, h1]; simp [List.append_assoc]⟩
  rw [if_neg e3]
  obtain ⟨rest4, h4⟩ := add_terms_log c lib RuleKind.drop_except
    (getListElement filter FilterConfig.drop_except) r3.1 r3.2.1
  generalize add_terms c lib RuleKind.drop_except
    (getListElement filter FilterConfig.drop_except) r3.1 r3.2.1 = r4 at h4 ⊢
  by_cases e4 : r4.2.2 ≠ 0
  · rw [if_pos e4]
    exact ⟨rest1 ++ rest2 ++ rest3 ++ rest4, by rw [h4, h3, h2, h1]; simp [List.append_assoc]⟩
  rw [if_neg e4]
  obtain ⟨rest5, h5⟩ := add_terms_log c lib RuleKind.combine
    (getListElement filter FilterConfig.combine) r4.1 r4.2.1
  exact ⟨rest1 ++ rest2 ++ rest3 ++ rest4 ++ rest5,
    by rw [h5, h4, h3, h2, h1]; simp [List.append_assoc]⟩

/-- The construction of a filter starts with the initialisation of the type
map and, when that succeeds, goes on with the initialisation of the filter. -/
theorem text_filter_build_log (c : CorpusConsts) (lib : CorpusLib)
    (filter : Option FilterConfig) (obj : RcorpusText) (log : List Event) :
    (∃ rest, (text_filter_build c lib filter obj log).2.1 =
      log ++ Event.typemap_init (filter_type_kind c filter) :: rest) ∧
    (lib.typemap_init (filter_type_kind c filter) = 0 →
      ∃ rest, (text_filter_build c lib filter obj log).2.1 =
        log ++ Event.typemap_init (filter_type_kind c filter) ::
          Event.filter_init (filter_type_kind c filter) (filter_stemmer filter)
            (filter_flags c filter) :: rest) := by
  obtain ⟨rest, h⟩ := text_filter_terms_log c lib filter
    (filter_logical filter FilterConfig.stem_dropped 0)
    { type_kind := filter_type_kind c filter, stemmer := filter_stemmer filter,
      flags := filter_flags c filter, rules := [], error := 0 }
    (log ++ [Event.typemap_init (filter_type_kind c filter)] ++
      [Event.filter_init (filter_type_kind c filter) (filter_stemmer filter)
        (filter_flags c filter)])
  unfold text_filter_build
  dsimp only
  by_cases h1 : lib.typemap_init (filter_type_kind c filter) ≠ 0
  · rw [if_pos h1]
    exact ⟨⟨[], rfl⟩, fun h0 => absurd h0 h1⟩
  · rw [if_neg h1]
    by_cases h2 : lib.filter_init (filter_type_kind c filter) (filter_stemmer filter)
        (filter_flags c filter) ≠ 0
    · rw [if_pos h2]
      exact ⟨⟨[Event.filter_init (filter_type_kind c filter) (filter_stemmer filter)
          (filter_flags c filter), Event.typemap_destroy], by simp [List.append_assoc]⟩,
        fun _ => ⟨[Event.typemap_destroy], by simp [List.append_assoc]⟩⟩
    · rw [if_neg h2]
      split_ifs
      · exact ⟨⟨Event.filter_init (filter_type_kind c filter) (filter_stemmer filter)
          (filter_flags c filter) :: rest, by rw [h]; simp [List.append_assoc]⟩,
          fun _ => ⟨rest, by rw [h]; simp [List.append_assoc]⟩⟩
      · exact ⟨⟨Event.filter_init (filter_type_kind c filter) (filter_stemmer filter)
          (filter_flags c filter) :: (rest ++ [Event.typemap_destroy]),
            by rw [h]; simp [List.append_assoc]⟩,
          fun _ => ⟨rest ++ [Event.typemap_destroy], by rw [h]; simp [List.append_assoc]⟩⟩

/-- The construction of a filter that raises no error leaves `has_filter = 1`
and has initialised the type map and the filter. -/
theorem text_filter_build_ok (c : CorpusConsts) (lib : CorpusLib)
    (filter : Option FilterConfig) (obj : RcorpusText) (log : List Event)
    (h : (text_filter_build c lib filter obj log).2.2 = 0) :
    (text_filter_build c lib filter obj log).1.has_filter = 1 ∧
    lib.typemap_init (filter_type_kind c filter) = 0 ∧
    lib.filter_init (filter_type_kind c filter) (filter_stemmer filter)
      (filter_flags c filter) = 0 := by
  unfold text_filter_build at h ⊢
  dsimp only at h ⊢
  by_cases h1 : lib.typemap_init (filter_type_kind c filter) ≠ 0
  · rw [if_pos h1] at h
    exact absurd h h1
  · rw [if_neg h1] at h ⊢
    by_cases h2 : lib.filter_init (filter_type_kind c filter) (filter_stemmer filter)
        (filter_flags c filter) ≠ 0
    · rw [if_pos h2] at h
      exact absurd h h2
    · rw [if_neg h2] at h ⊢
      refine ⟨?_, not_not.1 h1, not_not.1 h2⟩
      split_ifs <;> rfl

/-- C18: the cache of the filter in a text object. `text_filter_update`
changes nothing when the handle is null; on an object it leaves
`has_filter = 0` and `has_sentfilter = 0`, destroying the filter only if
`has_filter` was set and the sentence filter only if `has_sentfilter` was set;
and it is idempotent. `text_filter` on an object whose `has_filter` is set and
whose filter has `error = 0` returns that filter and leaves the state as it
is: no initialisation, no registration. On an object whose `has_filter` is set
and whose filter has `error ≠ 0` it destroys the filter and builds one anew:
the calls it makes start with the destruction of the filter and the
initialisation of a type map, followed by the initialisation of the filter
when that of the type map succeeds. When `text_filter` returns, from an object
whose `has_filter` is 0 or 1, `has_filter = 1`. -/
theorem filter_cache (c : CorpusConsts) (lib : CorpusLib)
    (filter : Option FilterConfig) (s : State) :
    (s.obj = none → text_filter_update s = s) ∧
    (∀ obj, s.obj = some obj →
      text_filter_update s =
        { obj := some { obj with has_filter := 0, has_sentfilter := 0 },
          log := s.log ++ (if obj.has_filter ≠ 0 then [Event.filter_destroy] else []) ++
            (if obj.has_sentfilter ≠ 0 then [Event.sentfilter_destroy] else []) }) ∧
    text_filter_update (text_filter_update s) = text_filter_update s ∧
    (∀ obj, s.obj = some obj → obj.has_filter ≠ 0 → obj.filter.error = 0 →
      text_filter c lib filter s = some (s, 0)) ∧
    (∀ obj, s.obj = some obj → obj.has_filter ≠ 0 → obj.filter.error ≠ 0 →
      ∃ s1 err, text_filter c lib filter s = some (s1, err) ∧
        (∃ rest, s1.log = s.log ++ Event.filter_destroy ::
          Event.typemap_init (filter_type_kind c filter) :: rest) ∧
        (lib.typemap_init (filter_type_kind c filter) = 0 →
          ∃ rest, s1.log = s.log ++ Event.filter_destroy ::
            Event.typemap_init (filter_type_kind c filter) ::
            Event.filter_init (filter_type_kind c filter) (filter_stemmer filter)
              (filter_flags c filter) :: rest) ∧
        (err = 0 → ∃ obj1, s1.obj = some obj1 ∧
          obj1.filter =
            { type_kind := filter_type_kind c filter, stemmer := filter_stemmer filter,
              flags := filter_flags c filter, rules := expected_rules c lib filter,
              error := 0 })) ∧
    (∀ obj s1, s.obj = some obj → (obj.has_filter = 0 ∨ obj.has_filter = 1) →
      text_filter c lib filter s = some (s1, 0) →
      ∃ obj1, s1.obj = some obj1 ∧ obj1.has_filter = 1) := by
  have hupd : ∀ (t : State) (obj : RcorpusText), t.obj = some obj →
      text_filter_update t =
        { obj := some { obj with has_filter := 0, has_sentfilter := 0 },
          log := t.log ++ (if obj.has_filter ≠ 0 then [Event.filter_destroy] else []) ++
            (if obj.has_sentfilter ≠ 0 then [Event.sentfilter_destroy] else []) } := by
    intro t obj hobj
    cases t with
    | mk tobj tlog =>
      simp only at hobj
      subst hobj
      cases obj with
      | mk hf fl hsf =>
        unfold text_filter_update
        dsimp only
        by_cases h1 : hf ≠ 0 <;> by_cases h2 : hsf ≠ 0
        · simp [h1, h2]
        · rw [not_not] at h2
          simp [h1, h2]
        · rw [not_not] at h1
          simp [h1, h2]
        · rw [not_not] at h1 h2
          simp [h1, h2]
  refine ⟨?_, hupd s, ?_, ?_, ?_, ?_⟩
  · intro hnone
    unfold text_filter_update
    rw [hnone]
  · cases hs : s.obj with
    | none =>
      have h1 : text_filter_update s = s := by
        unfold text_filter_update
        rw [hs]
      rw [h1, h1]
    | some obj =>
      rw [hupd s obj hs, hupd _ _ rfl]
      simp
  · intro obj hobj hf herr
    unfold text_filter
    rw [hobj]
    dsimp only
    rw [if_pos hf, if_pos herr]
  · intro obj hobj hf herr
    obtain ⟨⟨rest1, h1⟩, h2⟩ := text_filter_build_log c lib filter
      { obj with has_filter := 0 } (s.log ++ [Event.filter_destroy])
    unfold text_filter
    rw [hobj]
    dsimp only
    rw [if_pos hf, if_neg herr]
    refine ⟨_, _, rfl, ⟨rest1, ?_⟩, ?_, ?_⟩
    · dsimp only
      rw [h1]
      simp [List.append_assoc]
    · intro hm
      obtain ⟨rest2, h3⟩ := h2 hm
      refine ⟨rest2, ?_⟩
      dsimp only
      rw [h3]
      simp [List.append_assoc]
    · intro he
      obtain ⟨_, hm, hi⟩ := text_filter_build_ok c lib filter _ _ he
      exact ⟨_, rfl, (text_filter_build_registered c lib filter _ _ hm hi).2.2.2.1 he⟩
  · intro obj s1 hobj hflag hres
    unfold text_filter at hres
    rw [hobj] at hres
    dsimp only at hres
    by_cases hf : obj.has_filter ≠ 0
    · rw [if_pos hf] at hres
      by_cases herr : obj.filter.error = 0
      · rw [if_pos herr] at hres
        simp only [Option.some.injEq, Prod.mk.injEq, and_true] at hres
        subst hres
        refine ⟨obj, hobj, ?_⟩
        rcases hflag with h | h
        · exact absurd h hf
        · exact h
      · rw [if_neg herr] at hres
        simp only [Option.some.injEq, Prod.mk.injEq] at hres
        obtain ⟨hs1, he⟩ := hres
        subst hs1
        exact ⟨_, rfl, (text_filter_build_ok c lib filter _ _ he).1⟩
    · rw [if_neg hf] at hres
      simp only [Option.some.injEq, Prod.mk.injEq] at hres
      obtain ⟨hs1, he⟩ := hres
      subst hs1
      exact ⟨_, rfl, (text_filter_build_ok c lib filter _ _ he).1⟩

/-- The cache of C18 on sample objects: an update of an object that holds both
filters destroys both; `text_filter` on an object with a sound filter leaves
the state as it is; on an object whose filter has its field `error` set it
destroys the filter and builds the filter of the configuration. -/
theorem filter_cache_witness :
    (cached_state.obj = some { has_filter := 1, filter := empty_filter, has_sentfilter := 1 } ∧
      (1 : Int) ≠ 0 ∧ empty_filter.error = 0) ∧
    text_filter corpus_consts lib_ok (some sample_config) cached_state =
      some (cached_state, 0) ∧
    text_filter_update cached_state =
      { obj := some { has_filter := 0, filter := empty_filter, has_sentfilter := 0 },
        log := [Event.filter_destroy, Event.sentfilter_destroy] } ∧
    text_filter_update (text_filter_update cached_state) = text_filter_update cached_state ∧
    text_filter_update { obj := none, log := [] } = { obj := none, log := [] } ∧
    (text_filter corpus_consts lib_ok (some sample_config) failed_state).map
        (fun r => (r.1.log.take 3, r.1.obj.map (fun o => (o.has_filter, o.filter.error)),
          r.2)) =
      some ([Event.filter_destroy, Event.typemap_init 0, Event.filter_init 0 none 1],
        some (1, 0), 0) :=
  ⟨⟨rfl, by decide, rfl⟩,
    (filter_cache corpus_consts lib_ok (some sample_config) cached_state).2.2.2.1
      { has_filter := 1, filter := empty_filter, has_sentfilter := 1 } rfl (by decide) rfl,
    by decide, by decide, by decide, by decide⟩

/-! ## The text of a call of `print_range` under the cap -/

/-- The row loop writes the rows as the cap prescribes: full rows while the
budget covers them, then the part of a row that the budget covers, ended with
a newline, and nothing after the budget is used up. -/
theorem print_rows_capped (sx : Table) (hwf : sx.wf) (begin end_ : Nat) (print_gap : Int)
    (right : Bool) (max : Int) (hmax : max ≤ INT_MAX) (nw : Int)
    (hnw : 0 ≤ nw ∧ nw ≤ INT_MAX) (cw : List Int) (hcw : ∀ x ∈ cw, 0 ≤ x ∧ x ≤ INT_MAX) :
    ∀ (is : List Nat) (out : List Item) (n : Int), 0 ≤ n → n ≤ max →
      (print_rows sx begin end_ print_gap right max nw cw is out n).1 =
        out ++ capped_rows sx begin end_ print_gap right nw cw is (max - n) := by
  intro is
  induction is with
  | nil => intro out n _ _; simp [print_rows, capped_rows]
  | cons i is ih =>
    intro out n h0 hn
    rw [capped_rows]
    by_cases hnm : n = max
    · rw [print_rows, if_pos hnm, if_pos (by omega)]
      simp
    · rw [if_neg (by omega)]
      by_cases hfit : n + ((end_ - begin : Nat) : Int) ≤ max
      · rw [print_rows_step sx hwf begin end_ print_gap right max hmax nw hnw cw hcw i is out
          n h0 hnm hfit, ih _ _ (by omega) hfit, if_pos (by omega), List.append_assoc]
        congr 3
        ring
      · rw [print_rows_cut sx hwf begin end_ print_gap right max hmax nw hnw cw hcw i is out
          n h0 (by omega) (by omega), if_neg (by omega)]

/-- Text written by a call of `print_range` with a budget `max ≥ 0`: the
header line, then the rows as the cap prescribes. -/
theorem print_range_capped (sx : Table) (hwf : sx.wf) (begin end_ : Nat) (print_gap : Int)
    (right : Bool) (max : Int) (hmax : 0 ≤ max ∧ max ≤ INT_MAX) (nw : Int)
    (hnw : 0 ≤ nw ∧ nw ≤ INT_MAX) (cw : List Int) (hcw : ∀ x ∈ cw, 0 ≤ x ∧ x ≤ INT_MAX) :
    (print_range sx begin end_ print_gap right max nw cw).1 =
      print_header sx begin end_ print_gap right nw cw ++
        capped_rows sx begin end_ print_gap right nw cw (List.range sx.nrow) max := by
  unfold print_range
  rw [print_rows_capped sx hwf begin end_ print_gap right max hmax.2 nw hnw cw hcw _ _ 0
    (le_refl _) hmax.1, sub_zero]

/-- Closed form of `capped_rows` on the rows `s, s + 1, …`: with a budget of
`k` full rows and `t` more cells, `t` less than the width of the group, the
first `k` rows are rendered in full, and, when `t > 0`, row `s + k` is
rendered through its first `t` cells and ended with a newline. -/
theorem capped_rows_closed (sx : Table) (begin end_ : Nat) (print_gap : Int) (right : Bool)
    (nw : Int) (cw : List Int) :
    ∀ (k s len t : Nat), k < len → t < end_ - begin →
      capped_rows sx begin end_ print_gap right nw cw (List.range' s len)
          ((k : Int) * ((end_ - begin : Nat) : Int) + (t : Int)) =
        (List.range' s k).flatMap
            (fun i => row_line sx i begin end_ print_gap right nw cw) ++
          (if t = 0 then []
           else row_label_field sx (s + k) nw ++
             ((List.range' begin (end_ - begin)).take t).flatMap
               (cell_field sx (s + k) begin print_gap right cw) ++
             [Item.ch '\n']) := by
  intro k
  induction k with
  | zero =>
    intro s len t hk ht
    obtain ⟨len1, rfl⟩ : ∃ len1, len = len1 + 1 := ⟨len - 1, by omega⟩
    rw [List.range'_succ, capped_rows]
    by_cases h0 : t = 0
    · subst h0
      simp
    · rw [if_neg (by omega), if_neg (by omega), if_neg h0]
      simp
  | succ k ih =>
    intro s len t hk ht
    obtain ⟨len1, rfl⟩ : ∃ len1, len = len1 + 1 := ⟨len - 1, by omega⟩
    rw [List.range'_succ, capped_rows]
    have hm : (0 : Int) < ((end_ - begin : Nat) : Int) := by omega
    have hk0 : (0 : Int) ≤ (k : Int) * ((end_ - begin : Nat) : Int) :=
      mul_nonneg (Int.ofNat_nonneg _) (Int.ofNat_nonneg _)
    have hexp : ((k + 1 : Nat) : Int) * ((end_ - begin : Nat) : Int) + (t : Int) =
        (k : Int) * ((end_ - begin : Nat) : Int) + (t : Int) +
          ((end_ - begin : Nat) : Int) := by
      push_cast
      ring
    rw [hexp, if_neg (by omega), if_pos (by omega)]
    have hsub : (k : Int) * ((end_ - begin : Nat) : Int) + (t : Int) +
        ((end_ - begin : Nat) : Int) - ((end_ - begin : Nat) : Int) =
        (k : Int) * ((end_ - begin : Nat) : Int) + (t : Int) := by ring
    have hs : s + 1 + k = s + (k + 1) := by omega
    rw [hsub, ih (s + 1) len1 t (by omega) ht, List.range'_succ, List.flatMap_cons, hs]
    simp only [List.append_assoc]

/-- A budget that is positive and covers every row: `capped_rows` renders
every row in full. -/
theorem capped_rows_full (sx : Table) (begin end_ : Nat) (print_gap : Int) (right : Bool)
    (nw : Int) (cw : List Int) :
    ∀ (is : List Nat) (budget : Int), 0 < budget →
      (is.length : Int) * ((end_ - begin : Nat) : Int) ≤ budget →
      capped_rows sx begin end_ print_gap right nw cw is budget =
        is.flatMap (fun i => row_line sx i begin end_ print_gap right nw cw) := by
  intro is
  induction is with
  | nil => intro budget _ _; simp [capped_rows]
  | cons i is ih =>
    intro budget h0 hle
    have hm : (0 : Int) ≤ ((end_ - begin : Nat) : Int) := Int.ofNat_nonneg _
    have hl : (0 : Int) ≤ (is.length : Int) * ((end_ - begin : Nat) : Int) :=
      mul_nonneg (Int.ofNat_nonneg _) hm
    have hle1 : (is.length : Int) * ((end_ - begin : Nat) : Int) +
        ((end_ - begin : Nat) : Int) ≤ budget := by
      have h : (((i :: is).length : Nat) : Int) * ((end_ - begin : Nat) : Int) =
          (is.length : Int) * ((end_ - begin : Nat) : Int) +
            ((end_ - begin : Nat) : Int) := by
        simp only [List.length_cons]
        push_cast
        ring
      rw [h] at hle
      exact hle
    rw [capped_rows, if_neg (by omega), if_pos (by omega), List.flatMap_cons]
    congr 1
    cases is with
    | nil => simp [capped_rows]
    | cons i2 is2 =>
      apply ih
      · rcases Nat.eq_zero_or_pos (end_ - begin) with h | h
        · rw [h]
          simpa using h0
        · have h2 : (((i2 :: is2).length : Nat) : Int) * ((end_ - begin : Nat) : Int) =
              (is2.length : Int) * ((end_ - begin : Nat) : Int) +
                ((end_ - begin : Nat) : Int) := by
            simp only [List.length_cons]
            push_cast
            ring
          rw [h2] at hle1
          have h3 : (0 : Int) ≤ (is2.length : Int) * ((end_ - begin : Nat) : Int) :=
            mul_nonneg (Int.ofNat_nonneg _) hm
          omega
      · omega

/-- Text and count of a call of `print_range` whose budget is used up inside
the rows: with a budget of `k` full rows and `t` more cells, the header line,
the first `k` rows in full and, when `t > 0`, row `k` through its first `t`
cells, ended with a newline; nothing follows. -/
theorem print_range_cut (sx : Table) (hwf : sx.wf) (begin end_ : Nat) (print_gap : Int)
    (right : Bool) (nw : Int) (hnw : 0 ≤ nw ∧ nw ≤ INT_MAX) (cw : List Int)
    (hcw : ∀ x ∈ cw, 0 ≤ x ∧ x ≤ INT_MAX) (k t : Nat) (hk : k < sx.nrow)
    (ht : t < end_ - begin)
    (hb : (k : Int) * ((end_ - begin : Nat) : Int) + (t : Int) ≤ INT_MAX) :
    print_range sx begin end_ print_gap right
        ((k : Int) * ((end_ - begin : Nat) : Int) + (t : Int)) nw cw =
      (print_header sx begin end_ print_gap right nw cw ++
          (List.range k).flatMap
            (fun i => row_line sx i begin end_ print_gap right nw cw) ++
          (if t = 0 then []
           else row_label_field sx k nw ++
             ((List.range' begin (end_ - begin)).take t).flatMap
               (cell_field sx k begin print_gap right cw) ++
             [Item.ch '\n']),
        (k : Int) * ((end_ - begin : Nat) : Int) + (t : Int)) := by
  have hk0 : (0 : Int) ≤ (k : Int) * ((end_ - begin : Nat) : Int) :=
    mul_nonneg (Int.ofNat_nonneg _) (Int.ofNat_nonneg _)
  have h0 : (0 : Int) ≤ (k : Int) * ((end_ - begin : Nat) : Int) + (t : Int) := by omega
  have h1 := print_range_capped sx hwf begin end_ print_gap right _ ⟨h0, hb⟩ nw hnw cw hcw
  have h2 := print_range_count sx hwf begin end_ print_gap right _ ⟨h0, hb⟩ nw hnw cw hcw
  rw [List.range_eq_range', capped_rows_closed sx begin end_ print_gap right nw cw k 0
    sx.nrow t hk ht, ← List.range_eq_range', Nat.zero_add, ← List.append_assoc] at h1
  have h3 : (k : Int) * ((end_ - begin : Nat) : Int) + (t : Int) ≤
      (sx.nrow : Int) * ((end_ - begin : Nat) : Int) := by
    have h4 : ((k + 1 : Nat) : Int) * ((end_ - begin : Nat) : Int) ≤
        (sx.nrow : Int) * ((end_ - begin : Nat) : Int) :=
      mul_le_mul_of_nonneg_right (by exact_mod_cast hk) (Int.ofNat_nonneg _)
    have h5 : ((k + 1 : Nat) : Int) * ((end_ - begin : Nat) : Int) =
        (k : Int) * ((end_ - begin : Nat) : Int) + ((end_ - begin : Nat) : Int) := by
      push_cast
      ring
    omega
  rw [min_eq_left h3] at h2
  exact Prod.ext h1 h2

/-- Text and count of a call of `print_range` whose budget is positive and
covers the group: the header line and every row in full. -/
theorem print_range_full (sx : Table) (hwf : sx.wf) (begin end_ : Nat) (print_gap : Int)
    (right : Bool) (nw : Int) (hnw : 0 ≤ nw ∧ nw ≤ INT_MAX) (cw : List Int)
    (hcw : ∀ x ∈ cw, 0 ≤ x ∧ x ≤ INT_MAX) (budget : Int) (h0 : 0 < budget)
    (hb : budget ≤ INT_MAX)
    (hle : (sx.nrow : Int) * ((end_ - begin : Nat) : Int) ≤ budget) :
    print_range sx begin end_ print_gap right budget nw cw =
      (print_header sx begin end_ print_gap right nw cw ++
          (List.range sx.nrow).flatMap
            (fun i => row_line sx i begin end_ print_gap right nw cw),
        (sx.nrow : Int) * ((end_ - begin : Nat) : Int)) := by
  have h1 := print_range_capped sx hwf begin end_ print_gap right budget ⟨le_of_lt h0, hb⟩
    nw hnw cw hcw
  have h2 := print_range_count sx hwf begin end_ print_gap right budget ⟨le_of_lt h0, hb⟩
    nw hnw cw hcw
  rw [capped_rows_full sx begin end_ print_gap right nw cw _ budget h0
    (by rw [List.length_range]; exact hle)] at h1
  rw [min_eq_right hle] at h2
  exact Prod.ext h1 h2

/-- With `ncol > 0` every call of `print_range` made by `print_table` has a
group with at least one column. -/
theorem print_table_calls_lt (sx : Table) (print_gap : Int) (right : Bool)
    (max width : Int) (hlen : sx.cells.length = sx.nrow * sx.ncol) (hcol : 0 < sx.ncol) :
    ∃ r, print_table sx print_gap right max width = some r ∧
      ∀ c ∈ r.calls, c.begin < c.end_ := by
  obtain ⟨cw, r, _, _, hP, hr⟩ := print_table_inv sx print_gap right max width hlen
    (fun _ r => ∀ c ∈ r.calls, c.begin < c.end_)
    (by simp)
    (by
      intro cw _ b r hb hP c hc
      have hne := next_end_bounds sx print_gap width (compute_namewidth sx) cw b hb
      simp only [call_range, List.mem_append, List.mem_singleton] at hc
      rcases hc with hc | hc
      · exact hP c hc
      · subst hc
        exact hne.1)
  refine ⟨r, ?_, hP⟩
  rw [hr, if_neg (by omega)]

/-! ## The text of a group rebuilt from the cells printed -/

theorem render_trace_nil (sx : Table) (begin : Nat) (print_gap : Int) (right : Bool)
    (nw : Int) (cw : List Int) (is : List Nat) :
    render_trace sx begin print_gap right nw cw [] is = [] := by
  unfold render_trace
  simp

theorem render_trace_cons (sx : Table) (begin : Nat) (print_gap : Int) (right : Bool)
    (nw : Int) (cw : List Int) (cells : List (Nat × Nat)) (i : Nat) (is : List Nat) :
    render_trace sx begin print_gap right nw cw cells (i :: is) =
      (if cells.filter (fun p => p.1 = i) = [] then []
       else
        row_label_field sx i nw ++
          (cells.filter (fun p => p.1 = i)).flatMap
            (fun p => cell_field sx p.1 begin print_gap right cw p.2) ++
          [Item.ch '\n']) ++
        render_trace sx begin print_gap right nw cw cells is := by
  unfold render_trace
  rw [List.flatMap_cons]

/-- The text rebuilt for the rows `is` depends only on the cells of these
rows. -/
theorem render_trace_congr (sx : Table) (begin : Nat) (print_gap : Int) (right : Bool)
    (nw : Int) (cw : List Int) (cells1 cells2 : List (Nat × Nat)) (is : List Nat)
    (h : ∀ i ∈ is, cells1.filter (fun p => p.1 = i) = cells2.filter (fun p => p.1 = i)) :
    render_trace sx begin print_gap right nw cw cells1 is =
      render_trace sx begin print_gap right nw cw cells2 is := by
  unfold render_trace
  apply List.flatMap_congr
  intro i hi
  rw [h i hi]

/-- On a group with at least one column and rows without repetition, the
text of the rows under a budget is the text rebuilt from the first `budget`
cells of the group, taken row after row. -/
theorem capped_rows_render (sx : Table) (begin end_ : Nat) (print_gap : Int) (right : Bool)
    (nw : Int) (cw : List Int) (hm : begin < end_) :
    ∀ (is : List Nat) (budget : Int), is.Nodup → 0 ≤ budget →
      capped_rows sx begin end_ print_gap right nw cw is budget =
        render_trace sx begin print_gap right nw cw
          ((is.flatMap (fun i => (List.range' begin (end_ - begin)).map (fun j => (i, j)))).take
            budget.toNat) is := by
  intro is
  induction is with
  | nil => intro budget _ _; simp [capped_rows, render_trace]
  | cons i is ih =>
    intro budget hnd h0
    have hni : i ∉ is := (List.nodup_cons.mp hnd).1
    have hnd2 : is.Nodup := (List.nodup_cons.mp hnd).2
    have hrow : ∀ p ∈ (List.range' begin (end_ - begin)).map (fun j => (i, j)), p.1 = i := by
      intro p hp
      obtain ⟨j, _, rfl⟩ := List.mem_map.mp hp
      rfl
    have hrest : ∀ p ∈ is.flatMap
        (fun i => (List.range' begin (end_ - begin)).map (fun j => (i, j))), p.1 ∈ is := by
      intro p hp
      obtain ⟨i2, hi2, hp2⟩ := List.mem_flatMap.mp hp
      obtain ⟨j, _, rfl⟩ := List.mem_map.mp hp2
      exact hi2
    have hlen : ((List.range' begin (end_ - begin)).map (fun j => (i, j))).length =
        end_ - begin := by simp
    rw [capped_rows, List.flatMap_cons]
    by_cases hb0 : budget = 0
    · subst hb0
      simp [render_trace]
    · rw [if_neg hb0]
      by_cases hfit : ((end_ - begin : Nat) : Int) ≤ budget
      · have htk : (budget - ((end_ - begin : Nat) : Int)).toNat =
            budget.toNat - (end_ - begin) := by omega
        rw [if_pos hfit, List.take_append_eq_append_take, hlen,
          List.take_of_length_le (by rw [hlen]; omega), ih _ hnd2 (by omega), htk]
        generalize hY : (is.flatMap
          (fun i => (List.range' begin (end_ - begin)).map (fun j => (i, j)))).take
            (budget.toNat - (end_ - begin)) = Y
        have hYm : ∀ p ∈ Y, p.1 ∈ is := by
          intro p hp
          rw [← hY] at hp
          exact hrest p (List.mem_of_mem_take hp)
        have hfi : (((List.range' begin (end_ - begin)).map (fun j => (i, j))) ++ Y).filter
            (fun p => p.1 = i) = (List.range' begin (end_ - begin)).map (fun j => (i, j)) := by
          rw [List.filter_append]
          have h1 : Y.filter (fun p => p.1 = i) = [] := by
            rw [List.filter_eq_nil_iff]
            intro p hp
            have := hYm p hp
            simp only [decide_eq_true_eq]
            intro h
            rw [h] at this
            exact hni this
          have h2 : ((List.range' begin (end_ - begin)).map (fun j => (i, j))).filter
              (fun p => p.1 = i) = (List.range' begin (end_ - begin)).map (fun j => (i, j)) := by
            rw [List.filter_eq_self]
            intro p hp
            simp only [decide_eq_true_eq]
            exact hrow p hp
          rw [h1, h2, List.append_nil]
        have hne : (List.range' begin (end_ - begin)).map (fun j => (i, j)) ≠ [] := by
          intro h
          have := congrArg List.length h
          rw [hlen] at this
          simp only [List.length_nil] at this
          omega
        have hcg := render_trace_congr sx begin print_gap right nw cw
          (((List.range' begin (end_ - begin)).map (fun j => (i, j))) ++ Y) Y is (by
            intro i2 hi2
            rw [List.filter_append]
            have h1 : ((List.range' begin (end_ - begin)).map (fun j => (i, j))).filter
                (fun p => p.1 = i2) = [] := by
              rw [List.filter_eq_nil_iff]
              intro p hp
              simp only [decide_eq_true_eq]
              intro h
              rw [hrow p hp] at h
              rw [h] at hni
              exact hni hi2
            rw [h1, List.nil_append])
        rw [render_trace_cons, hfi, if_neg hne, hcg]
        unfold row_line
        rw [List.flatMap_map]
      · rw [if_neg hfit]
        have hlt : budget.toNat ≤ end_ - begin := by omega
        rw [List.take_append_of_le_length (by rw [hlen]; exact hlt), ← List.map_take]
        generalize hX : (List.range' begin (end_ - begin)).take budget.toNat = X
        have hXne : X ≠ [] := by
          intro h
          have h1 := congrArg List.length h
          rw [← hX, List.length_take, List.length_range'] at h1
          simp only [List.length_nil] at h1
          omega
        have hXrow : ∀ p ∈ X.map (fun j => (i, j)), p.1 = i := by
          intro p hp
          obtain ⟨j, _, rfl⟩ := List.mem_map.mp hp
          rfl
        have hfi : (X.map (fun j => (i, j))).filter (fun p => p.1 = i) =
            X.map (fun j => (i, j)) := by
          rw [List.filter_eq_self]
          intro p hp
          simp only [decide_eq_true_eq]
          exact hXrow p hp
        have hne : X.map (fun j => (i, j)) ≠ [] := by
          intro h
          exact hXne (List.map_eq_nil_iff.mp h)
        have hcg := render_trace_congr sx begin print_gap right nw cw
          (X.map (fun j => (i, j))) [] is (by
            intro i2 hi2
            rw [List.filter_nil, List.filter_eq_nil_iff]
            intro p hp
            simp only [decide_eq_true_eq]
            intro h
            rw [hXrow p hp] at h
            rw [h] at hni
            exact hni hi2)
        rw [render_trace_nil] at hcg
        rw [render_trace_cons, hfi, if_neg hne, hcg, List.flatMap_map, List.append_nil]

/-- Text of a call of `print_range` on a group with at least one column: the
header line, then the text rebuilt from the cells that the call prints. -/
theorem print_range_render (sx : Table) (hwf : sx.wf) (begin end_ : Nat)
    (hm : begin < end_) (print_gap : Int) (right : Bool) (max : Int)
    (hmax : 0 ≤ max ∧ max ≤ INT_MAX) (nw : Int) (hnw : 0 ≤ nw ∧ nw ≤ INT_MAX)
    (cw : List Int) (hcw : ∀ x ∈ cw, 0 ≤ x ∧ x ≤ INT_MAX) :
    (print_range sx begin end_ print_gap right max nw cw).1 =
      print_header sx begin end_ print_gap right nw cw ++
        render_trace sx begin print_gap right nw cw (range_trace sx begin end_ max).1
          (List.range sx.nrow) := by
  rw [print_range_capped sx hwf begin end_ print_gap right max hmax nw hnw cw hcw,
    capped_rows_render sx begin end_ print_gap right nw cw hm (List.range sx.nrow) max
      (List.nodup_range _) hmax.1,
    range_trace_eq sx begin end_ max hmax]
  rfl

/-- The first `k` full rows and `t` more cells of the cells of the rows
`s, s + 1, …` of a group. -/
theorem row_cells_take (begin end_ : Nat) :
    ∀ (k s len t : Nat), k < len → t ≤ end_ - begin →
      ((List.range' s len).flatMap
          (fun i => (List.range' begin (end_ - begin)).map (fun j => (i, j)))).take
          (k * (end_ - begin) + t) =
        (List.range' s k).flatMap
            (fun i => (List.range' begin (end_ - begin)).map (fun j => (i, j))) ++
          ((List.range' begin (end_ - begin)).take t).map (fun j => (s + k, j)) := by
  intro k
  induction k with
  | zero =>
    intro s len t hk ht
    obtain ⟨len1, rfl⟩ : ∃ len1, len = len1 + 1 := ⟨len - 1, by omega⟩
    rw [List.range'_succ, List.flatMap_cons, Nat.zero_mul, Nat.zero_add,
      List.take_append_of_le_length (by simp; exact ht), List.map_take]
    simp
  | succ k ih =>
    intro s len t hk ht
    obtain ⟨len1, rfl⟩ : ∃ len1, len = len1 + 1 := ⟨len - 1, by omega⟩
    have hlen : ((List.range' begin (end_ - begin)).map (fun j => (s, j))).length =
        end_ - begin := by simp
    have hn : (k + 1) * (end_ - begin) + t - (end_ - begin) = k * (end_ - begin) + t := by
      rw [Nat.succ_mul]
      omega
    have hs : s + 1 + k = s + (k + 1) := by omega
    rw [List.range'_succ, List.flatMap_cons, List.take_append_eq_append_take, hlen,
      List.take_of_length_le (by rw [hlen, Nat.succ_mul]; omega), hn,
      ih (s + 1) len1 t (by omega) ht, List.range'_succ, List.flatMap_cons, hs]
    simp only [List.append_assoc]

/-- Cells printed by a call of `print_range` whose budget is `k` full rows and
`t` more cells: the cells of the first `k` rows, then the first `t` cells of
row `k`. -/
theorem range_trace_cut (sx : Table) (begin end_ : Nat) (k t : Nat) (hk : k < sx.nrow)
    (ht : t ≤ end_ - begin)
    (hb : (k : Int) * ((end_ - begin : Nat) : Int) + (t : Int) ≤ INT_MAX) :
    (range_trace sx begin end_ ((k : Int) * ((end_ - begin : Nat) : Int) + (t : Int))).1 =
      (List.range k).flatMap
          (fun i => (List.range' begin (end_ - begin)).map (fun j => (i, j))) ++
        ((List.range' begin (end_ - begin)).take t).map (fun j => (k, j)) := by
  have hk0 : (0 : Int) ≤ (k : Int) * ((end_ - begin : Nat) : Int) :=
    mul_nonneg (Int.ofNat_nonneg _) (Int.ofNat_nonneg _)
  have hcast : ((k : Int) * ((end_ - begin : Nat) : Int) + (t : Int)).toNat =
      k * (end_ - begin) + t := by
    have h : (k : Int) * ((end_ - begin : Nat) : Int) + (t : Int) =
        ((k * (end_ - begin) + t : Nat) : Int) := by push_cast; rfl
    rw [h, Int.toNat_ofNat]
  rw [range_trace_eq sx begin end_ _ ⟨by omega, hb⟩, hcast]
  unfold group_cells
  rw [List.range_eq_range', row_cells_take begin end_ k 0 sx.nrow t hk ht,
    ← List.range_eq_range', Nat.zero_add]

/-! ## The text written once the cap is reached -/

/-- C5, amended: for a well-formed grid and a cap `max_cells ≥ 0`, once the
count of printed cells has reached the cap no further cell and no further row
label is emitted; the only text that follows is the newline that ends the
current row when the cap falls inside a row, and the header line of every
later column group. Inside a call of `print_range`, the row loop returns
without emitting anything when the count equals the budget at the top of a
row, and the cell loop emits only the newline that ends the row when it finds
the count equal to the budget. Every column group that starts after the cap
was reached is handed the budget 0 and emits only its header line, which is
empty when there are no column labels. With `max_cells = 0` the text written
is exactly the header lines of the column groups, hence nothing without column
labels. The text of every call is fixed by its budget, which lies in
`[0, INT_MAX]`: a call whose budget is `k` full rows and `t` more cells, `t`
less than the width of the group and `k` less than the number of rows, writes
its header line, the first `k` rows in full and, when `t > 0`, row `k` through
its first `t` cells followed by one newline, and nothing else; a call whose
budget is positive and covers the group writes its header line and every row
in full. The text of the whole render is the text of the calls in order. -/
theorem cap_reached_output (sx : Table) (print_gap : Int) (right : Bool)
    (max width : Int) (hwf : sx.wf) (hmax : 0 ≤ max ∧ max ≤ INT_MAX) :
    (∀ (b e : Nat) (nw : Int) (cw : List Int) (is : List Nat) (out : List Item),
      print_rows sx b e print_gap right max nw cw is out max = (out, max)) ∧
    (∀ (i b : Nat) (cw : List Int) (j : Nat) (js : List Nat) (buf : List Item),
      print_row_cells sx i b print_gap right max cw (j :: js) buf max =
        (buf ++ [Item.ch '\n'], max, true)) ∧
    ∃ r cw, print_table sx print_gap right max width = some r ∧
      compute_colwidths sx = some cw ∧
      r.out = r.calls.flatMap (fun c =>
        (print_range sx c.begin c.end_ print_gap right c.max (compute_namewidth sx) cw).1) ∧
      (∀ c ∈ r.calls, max ≤ (sx.nrow : Int) * (c.begin : Int) →
        c.max = 0 ∧
        print_range sx c.begin c.end_ print_gap right c.max (compute_namewidth sx) cw =
          (print_header sx c.begin c.end_ print_gap right (compute_namewidth sx) cw, 0)) ∧
      (max = 0 → r.out = r.calls.flatMap (fun c =>
        print_header sx c.begin c.end_ print_gap right (compute_namewidth sx) cw)) ∧
      (max = 0 → sx.col_names = none → r.out = []) ∧
      (∀ c ∈ r.calls, c.max = max - min max ((sx.nrow : Int) * (c.begin : Int)) ∧
        0 ≤ c.max ∧ c.max ≤ INT_MAX) ∧
      (∀ (b e k t : Nat), k < sx.nrow → t < e - b →
        (k : Int) * ((e - b : Nat) : Int) + (t : Int) ≤ INT_MAX →
        print_range sx b e print_gap right ((k : Int) * ((e - b : Nat) : Int) + (t : Int))
            (compute_namewidth sx) cw =
          (print_header sx b e print_gap right (compute_namewidth sx) cw ++
              (List.range k).flatMap
                (fun i => row_line sx i b e print_gap right (compute_namewidth sx) cw) ++
              (if t = 0 then []
               else row_label_field sx k (compute_namewidth sx) ++
                 ((List.range' b (e - b)).take t).flatMap
                   (cell_field sx k b print_gap right cw) ++
                 [Item.ch '\n']),
            (k : Int) * ((e - b : Nat) : Int) + (t : Int))) ∧
      (∀ (b e : Nat) (budget : Int), 0 < budget → budget ≤ INT_MAX →
        (sx.nrow : Int) * ((e - b : Nat) : Int) ≤ budget →
        print_range sx b e print_gap right budget (compute_namewidth sx) cw =
          (print_header sx b e print_gap right (compute_namewidth sx) cw ++
              (List.range sx.nrow).flatMap
                (fun i => row_line sx i b e print_gap right (compute_namewidth sx) cw),
            (sx.nrow : Int) * ((e - b : Nat) : Int))) ∧
      r.out = r.calls.flatMap (fun c =>
        print_header sx c.begin c.end_ print_gap right (compute_namewidth sx) cw ++
          capped_rows sx c.begin c.end_ print_gap right (compute_namewidth sx) cw
            (List.range sx.nrow) c.max) := by
  refine ⟨?_, ?_, ?_⟩
  · intro b e nw cw is out
    cases is with
    | nil => simp [print_rows]
    | cons i is => simp [print_rows]
  · intro i b cw j js buf
    simp [print_row_cells, PRINT_CHAR]
  · obtain ⟨r, cw, hr, hcw, _, hcalls, hout⟩ :=
      print_table_trace sx print_gap right max width hwf hmax
    have hnw := compute_namewidth_range sx hwf
    have hcwr := compute_colwidths_range sx hwf cw hcw
    have hzero : ∀ c ∈ r.calls, max ≤ (sx.nrow : Int) * (c.begin : Int) →
        c.max = 0 ∧
        print_range sx c.begin c.end_ print_gap right c.max (compute_namewidth sx) cw =
          (print_header sx c.begin c.end_ print_gap right (compute_namewidth sx) cw, 0) := by
      intro c hc hle
      have h0 : c.max = 0 := by
        rw [(hcalls c hc).1]
        omega
      exact ⟨h0, by rw [h0]; exact print_range_zero _ _ _ _ _ _ _⟩
    have hhead : max = 0 → r.out = r.calls.flatMap (fun c =>
        print_header sx c.begin c.end_ print_gap right (compute_namewidth sx) cw) := by
      intro hm0
      rw [hout]
      apply List.flatMap_congr
      intro c hc
      have hle : max ≤ (sx.nrow : Int) * (c.begin : Int) := by
        rw [hm0]
        exact mul_nonneg (Int.ofNat_nonneg _) (Int.ofNat_nonneg _)
      rw [(hzero c hc hle).2]
    have hbud : ∀ c ∈ r.calls, c.max = max - min max ((sx.nrow : Int) * (c.begin : Int)) ∧
        0 ≤ c.max ∧ c.max ≤ INT_MAX := by
      intro c hc
      have h := (hcalls c hc).1
      have hN : (0 : Int) ≤ (sx.nrow : Int) * (c.begin : Int) :=
        mul_nonneg (Int.ofNat_nonneg _) (Int.ofNat_nonneg _)
      refine ⟨h, ?_, ?_⟩
      · rw [h]
        omega
      · rw [h]
        omega
    refine ⟨r, cw, hr, hcw, hout, hzero, hhead, ?_, hbud, ?_, ?_, ?_⟩
    · intro hm0 hnone
      rw [hhead hm0]
      simp [print_header, hnone]
    · intro b e k t hk ht hb
      exact print_range_cut sx hwf b e print_gap right _ hnw cw hcwr k t hk ht hb
    · intro b e budget h0 hb hle
      exact print_range_full sx hwf b e print_gap right _ hnw cw hcwr budget h0 hb hle
    · rw [hout]
      apply List.flatMap_congr
      intro c hc
      exact print_range_capped sx hwf c.begin c.end_ print_gap right c.max (hbud c hc).2 _ hnw
        cw hcwr

/-- The amended C5 on the 2-row, 2-column grid with row and column labels,
left-aligned, with `max_cells = 1`: the cap falls inside the first row, and
the render writes the header line, the label and the first cell of the first
row and one newline. With `line_width = 5` each column is a group, and the
second group, which starts after the cap was reached, writes its header line
only. With `max_cells = 3` the second row is cut after its first cell. -/
theorem cap_reached_output_witness :
    (labelled_grid.wf ∧ ((0 : Int) ≤ 1 ∧ (1 : Int) ≤ INT_MAX)) ∧
    ((∀ (b e : Nat) (nw : Int) (cw : List Int) (is : List Nat) (out : List Item),
      print_rows labelled_grid b e 1 false 1 nw cw is out 1 = (out, 1)) ∧
    (∀ (i b : Nat) (cw : List Int) (j : Nat) (js : List Nat) (buf : List Item),
      print_row_cells labelled_grid i b 1 false 1 cw (j :: js) buf 1 =
        (buf ++ [Item.ch '\n'], 1, true)) ∧
    ∃ r cw, print_table labelled_grid 1 false 1 80 = some r ∧
      compute_colwidths labelled_grid = some cw ∧
      r.out = r.calls.flatMap (fun c =>
        (print_range labelled_grid c.begin c.end_ 1 false c.max
          (compute_namewidth labelled_grid) cw).1) ∧
      (∀ c ∈ r.calls, (1 : Int) ≤ (labelled_grid.nrow : Int) * (c.begin : Int) →
        c.max = 0 ∧
        print_range labelled_grid c.begin c.end_ 1 false c.max
            (compute_namewidth labelled_grid) cw =
          (print_header labelled_grid c.begin c.end_ 1 false
            (compute_namewidth labelled_grid) cw, 0)) ∧
      ((1 : Int) = 0 → r.out = r.calls.flatMap (fun c =>
        print_header labelled_grid c.begin c.end_ 1 false
          (compute_namewidth labelled_grid) cw)) ∧
      ((1 : Int) = 0 → labelled_grid.col_names = none → r.out = []) ∧
      (∀ c ∈ r.calls,
        c.max = 1 - min 1 ((labelled_grid.nrow : Int) * (c.begin : Int)) ∧
        0 ≤ c.max ∧ c.max ≤ INT_MAX) ∧
      (∀ (b e k t : Nat), k < labelled_grid.nrow → t < e - b →
        (k : Int) * ((e - b : Nat) : Int) + (t : Int) ≤ INT_MAX →
        print_range labelled_grid b e 1 false
            ((k : Int) * ((e - b : Nat) : Int) + (t : Int))
            (compute_namewidth labelled_grid) cw =
          (print_header labelled_grid b e 1 false (compute_namewidth labelled_grid) cw ++
              (List.range k).flatMap
                (fun i => row_line labelled_grid i b e 1 false
                  (compute_namewidth labelled_grid) cw) ++
              (if t = 0 then []
               else row_label_field labelled_grid k (compute_namewidth labelled_grid) ++
                 ((List.range' b (e - b)).take t).flatMap
                   (cell_field labelled_grid k b 1 false cw) ++
                 [Item.ch '\n']),
            (k : Int) * ((e - b : Nat) : Int) + (t : Int))) ∧
      (∀ (b e : Nat) (budget : Int), 0 < budget → budget ≤ INT_MAX →
        (labelled_grid.nrow : Int) * ((e - b : Nat) : Int) ≤ budget →
        print_range labelled_grid b e 1 false budget (compute_namewidth labelled_grid) cw =
          (print_header labelled_grid b e 1 false (compute_namewidth labelled_grid) cw ++
              (List.range labelled_grid.nrow).flatMap
                (fun i => row_line labelled_grid i b e 1 false
                  (compute_namewidth labelled_grid) cw),
            (labelled_grid.nrow : Int) * ((e - b : Nat) : Int))) ∧
      r.out = r.calls.flatMap (fun c =>
        print_header labelled_grid c.begin c.end_ 1 false
            (compute_namewidth labelled_grid) cw ++
          capped_rows labelled_grid c.begin c.end_ 1 false
            (compute_namewidth labelled_grid) cw (List.range labelled_grid.nrow) c.max)) ∧
    (print_table labelled_grid 1 false 1 80).map (fun r => (bytes r.out, r.nprint)) =
      some ([' ', ' ', ' ', 'A', ' ', 'B', ' ', ' ', '\n', 'r', '1', ' ', 'a', '\n'], 1) ∧
    (print_table labelled_grid 1 false 1 5).map (fun r => (bytes r.out, r.nprint)) =
      some ([' ', ' ', ' ', 'A', '\n', 'r', '1', ' ', 'a', '\n',
        ' ', ' ', ' ', 'B', ' ', ' ', '\n'], 1) ∧
    (print_table labelled_grid 1 false 3 80).map (fun r => (bytes r.out, r.nprint)) =
      some ([' ', ' ', ' ', 'A', ' ', 'B', ' ', ' ', '\n',
        'r', '1', ' ', 'a', ' ', 'c', 'c', 'c', '\n', 'N', 'A', ' ', 'b', '\n'], 3) ∧
    (print_range labelled_grid 0 2 1 false 1 2 [1, 3]).1 =
      print_header labelled_grid 0 2 1 false 2 [1, 3] ++
        (row_label_field labelled_grid 0 2 ++ cell_field labelled_grid 0 0 1 false [1, 3] 0 ++
          [Item.ch '\n']) :=
  ⟨⟨labelled_grid_wf, by decide⟩,
    cap_reached_output labelled_grid 1 false 1 80 labelled_grid_wf (by decide),
    by decide, by decide, by decide, by decide⟩

/-! ## The cells and the text of the capped render -/

/-- C13: on a well-formed grid, for a cap `max_cells ≥ 0` and an uncapped
render (a cap `umax ≥ nrow * ncol`), both C `int`s: the two renders use the
same column groups, which form a chain from column 0 to `ncol`; the uncapped
render prints the `nrow * ncol` cells group after group, within a group row
after row, within a row column after column; the capped render prints exactly
the first `min(max_cells, nrow * ncol)` cells of that sequence, as many as the
count it returns. In the cell loop the text printed is made of the fields of
the cells of the trace and is followed by a newline exactly when the loop
returned on the cap. The text written is the text of these cells: a call of
`print_range` on a group with at least one column writes its header line and
then, for every row that has a cell in the trace of the call, the row label,
the fields of the cells of the trace in that row and a newline, and with
`ncol > 0` the text of the render is that of its calls in order. When the cap
falls inside row `k`, after `t > 0` cells of the row, the trace of the call is
the cells of the rows before `k` and the first `t` cells of row `k`, and the
text is the header line, the rows before `k` in full, and the label and the
first `t` fields of row `k` followed by a newline, after which nothing is
written. -/
theorem capped_cells (sx : Table) (print_gap : Int) (right : Bool)
    (max umax width : Int) (hwf : sx.wf) (hmax : 0 ≤ max ∧ max ≤ INT_MAX)
    (humax : (sx.nrow : Int) * (sx.ncol : Int) ≤ umax ∧ umax ≤ INT_MAX) :
    (∃ r u, print_table sx print_gap right max width = some r ∧
      print_table sx print_gap right umax width = some u ∧
      r.calls.map (fun c => (c.begin, c.end_)) = u.calls.map (fun c => (c.begin, c.end_)) ∧
      u.calls.map Call.begin ++ [sx.ncol] = 0 :: u.calls.map Call.end_ ∧
      table_cells sx u = u.calls.flatMap (fun c => group_cells sx.nrow c.begin c.end_) ∧
      (table_cells sx u).length = sx.nrow * sx.ncol ∧
      table_cells sx r =
        (table_cells sx u).take (min max ((sx.nrow : Int) * (sx.ncol : Int))).toNat ∧
      ((table_cells sx r).length : Int) = r.nprint) ∧
    (∀ (cw : List Int), (∀ x ∈ cw, 0 ≤ x ∧ x ≤ INT_MAX) →
      ∀ (i begin : Nat) (m : Int) (js : List Nat) (buf : List Item)
        (cells : List (Nat × Nat)) (n : Int),
        ∃ new, (row_cells_trace i m js cells n).1 = cells ++ new ∧
          print_row_cells sx i begin print_gap right m cw js buf n =
            (buf ++ new.flatMap (fun p => cell_field sx p.1 begin print_gap right cw p.2) ++
                (if (row_cells_trace i m js cells n).2.2 then [Item.ch '\n'] else []),
              (row_cells_trace i m js cells n).2.1,
              (row_cells_trace i m js cells n).2.2)) ∧
    (∀ (cw : List Int), (∀ x ∈ cw, 0 ≤ x ∧ x ≤ INT_MAX) →
      ∀ (begin end_ : Nat) (m nw : Int),
        (print_range sx begin end_ print_gap right m nw cw).2 =
          (range_trace sx begin end_ m).2) ∧
    (∃ r cw, print_table sx print_gap right max width = some r ∧
      compute_colwidths sx = some cw ∧
      (∀ (b e : Nat) (m : Int), b < e → 0 ≤ m → m ≤ INT_MAX →
        (print_range sx b e print_gap right m (compute_namewidth sx) cw).1 =
          print_header sx b e print_gap right (compute_namewidth sx) cw ++
            render_trace sx b print_gap right (compute_namewidth sx) cw
              (range_trace sx b e m).1 (List.range sx.nrow)) ∧
      (∀ (b e k t : Nat), k < sx.nrow → 0 < t → t < e - b →
        (k : Int) * ((e - b : Nat) : Int) + (t : Int) ≤ INT_MAX →
        (range_trace sx b e ((k : Int) * ((e - b : Nat) : Int) + (t : Int))).1 =
          (List.range k).flatMap
              (fun i => (List.range' b (e - b)).map (fun j => (i, j))) ++
            ((List.range' b (e - b)).take t).map (fun j => (k, j)) ∧
        (print_range sx b e print_gap right
            ((k : Int) * ((e - b : Nat) : Int) + (t : Int)) (compute_namewidth sx) cw).1 =
          print_header sx b e print_gap right (compute_namewidth sx) cw ++
            (List.range k).flatMap
              (fun i => row_line sx i b e print_gap right (compute_namewidth sx) cw) ++
            (row_label_field sx k (compute_namewidth sx) ++
              ((List.range' b (e - b)).take t).flatMap
                (cell_field sx k b print_gap right cw) ++
              [Item.ch '\n'])) ∧
      (0 < sx.ncol →
        (∀ c ∈ r.calls, c.begin < c.end_ ∧ 0 ≤ c.max ∧ c.max ≤ INT_MAX) ∧
        r.out = r.calls.flatMap (fun c =>
          print_header sx c.begin c.end_ print_gap right (compute_namewidth sx) cw ++
            render_trace sx c.begin print_gap right (compute_namewidth sx) cw
              (range_trace sx c.begin c.end_ c.max).1 (List.range sx.nrow)))) := by
  refine ⟨?_, ?_, ?_, ?_⟩
  · have hN : 0 ≤ (sx.nrow : Int) * (sx.ncol : Int) :=
      mul_nonneg (Int.ofNat_nonneg _) (Int.ofNat_nonneg _)
    have hu : 0 ≤ umax ∧ umax ≤ INT_MAX := ⟨by omega, humax.2⟩
    obtain ⟨r, _, hr, _, hrn, hrc, _⟩ := print_table_trace sx print_gap right max width hwf hmax
    obtain ⟨u, _, hu1, _, _, huc, _⟩ := print_table_trace sx print_gap right umax width hwf hu
    obtain ⟨r1, hr1, hrch⟩ := print_table_chain sx print_gap right max width hwf.1
    obtain ⟨u2, hu2, huch⟩ := print_table_chain sx print_gap right umax width hwf.1
    have e1 : r1 = r := by rw [hr] at hr1; exact (Option.some.inj hr1).symm
    have e2 : u2 = u := by rw [hu1] at hu2; exact (Option.some.inj hu2).symm
    subst e1
    subst e2
    have hg := print_table_groups sx print_gap right right max umax width
    rw [hr, hu1] at hg
    simp only [Option.map_some', Option.some.injEq] at hg
    obtain ⟨_, hlr, hcr⟩ := chain_cells sx max hmax sx.ncol r1.calls 0 hrch
      (fun c hc => ⟨(hrc c hc).2.1, (hrc c hc).1⟩)
    obtain ⟨_, hlu, hcu⟩ := chain_cells sx umax hu sx.ncol u2.calls 0 huch
      (fun c hc => ⟨(huc c hc).2.1, (huc c hc).1⟩)
    have hgc : r1.calls.flatMap (fun c => group_cells sx.nrow c.begin c.end_) =
        u2.calls.flatMap (fun c => group_cells sx.nrow c.begin c.end_) := by
      have h1 : ∀ l : List Call, l.flatMap (fun c => group_cells sx.nrow c.begin c.end_) =
          (l.map (fun c => (c.begin, c.end_))).flatMap
            (fun p => group_cells sx.nrow p.1 p.2) := by
        intro l
        rw [List.flatMap_map]
      rw [h1, h1, hg]
    have hcast : ((sx.nrow * sx.ncol : Nat) : Int) = (sx.nrow : Int) * (sx.ncol : Int) := by
      push_cast; rfl
    simp only [Nat.cast_zero, mul_zero, Nat.sub_zero] at hcr hcu hlr hlu
    have hfull : table_cells sx u2 =
        u2.calls.flatMap (fun c => group_cells sx.nrow c.begin c.end_) := by
      unfold table_cells
      rw [hcu]
      apply List.take_of_length_le
      rw [hlu]
      omega
    refine ⟨r1, u2, hr, hu1, hg, huch, hfull, by rw [hfull, hlu], ?_, ?_⟩
    · rw [hfull]
      unfold table_cells
      rw [hcr, hgc]
      rw [List.take_eq_take]
      rw [hlu]
      omega
    · unfold table_cells
      rw [hcr, hrn, List.length_take, hlr]
      omega
  · intro cw hcw i begin m js buf cells n
    exact print_row_cells_trace sx hwf.2.2.2.1 i begin print_gap right m cw hcw js buf cells n
  · intro cw hcw begin end_ m nw
    unfold print_range range_trace
    exact print_rows_trace_count sx begin end_ print_gap right m nw cw hwf.2.2.2.1 hcw _ _ _ _
  · obtain ⟨r, cw, hr, hcw, _, hcalls, hout⟩ :=
      print_table_trace sx print_gap right max width hwf hmax
    have hnw := compute_namewidth_range sx hwf
    have hcwr := compute_colwidths_range sx hwf cw hcw
    have hbud : ∀ c ∈ r.calls, 0 ≤ c.max ∧ c.max ≤ INT_MAX := by
      intro c hc
      have h := (hcalls c hc).1
      have hN : (0 : Int) ≤ (sx.nrow : Int) * (c.begin : Int) :=
        mul_nonneg (Int.ofNat_nonneg _) (Int.ofNat_nonneg _)
      constructor
      · rw [h]
        omega
      · rw [h]
        omega
    refine ⟨r, cw, hr, hcw, ?_, ?_, ?_⟩
    · intro b e m hbe h0 hm
      exact print_range_render sx hwf b e hbe print_gap right m ⟨h0, hm⟩ _ hnw cw hcwr
    · intro b e k t hk ht0 ht hb
      refine ⟨range_trace_cut sx b e k t hk (le_of_lt ht) hb, ?_⟩
      rw [print_range_cut sx hwf b e print_gap right _ hnw cw hcwr k t hk ht hb,
        if_neg (by omega)]
    · intro hcol
      obtain ⟨r2, hr2, hlt⟩ := print_table_calls_lt sx print_gap right max width hwf.1 hcol
      have e1 : r2 = r := by rw [hr] at hr2; exact (Option.some.inj hr2).symm
      subst e1
      refine ⟨fun c hc => ⟨hlt c hc, hbud c hc⟩, ?_⟩
      rw [hout]
      apply List.flatMap_congr
      intro c hc
      exact print_range_render sx hwf c.begin c.end_ (hlt c hc) print_gap right c.max
        (hbud c hc) _ hnw cw hcwr

/-- The cells of C13 on the 3-row, 2-column grid with `max_cells = 3` and
`line_width = 80`: the cap falls inside the second row, the cells printed are
the first three of the six of the uncapped render, and the text ends with the
line of the second row cut after its first cell. Printed with
`line_width = 2` each column is a group: uncapped, the cells come column after
column; with `max_cells = 4` the first four of them are printed. -/
theorem capped_cells_witness :
    (grid32.wf ∧ ((0 : Int) ≤ 3 ∧ (3 : Int) ≤ INT_MAX) ∧
      ((grid32.nrow : Int) * (grid32.ncol : Int) ≤ 100 ∧ (100 : Int) ≤ INT_MAX)) ∧
    (∃ r u, print_table grid32 1 true 3 80 = some r ∧
      print_table grid32 1 true 100 80 = some u ∧
      r.calls.map (fun c => (c.begin, c.end_)) = u.calls.map (fun c => (c.begin, c.end_)) ∧
      u.calls.map Call.begin ++ [grid32.ncol] = 0 :: u.calls.map Call.end_ ∧
      table_cells grid32 u =
        u.calls.flatMap (fun c => group_cells grid32.nrow c.begin c.end_) ∧
      (table_cells grid32 u).length = grid32.nrow * grid32.ncol ∧
      table_cells grid32 r =
        (table_cells grid32 u).take
          (min 3 ((grid32.nrow : Int) * (grid32.ncol : Int))).toNat ∧
      ((table_cells grid32 r).length : Int) = r.nprint) ∧
    (∃ r cw, print_table grid32 1 true 3 80 = some r ∧
      compute_colwidths grid32 = some cw ∧
      (∀ (b e : Nat) (m : Int), b < e → 0 ≤ m → m ≤ INT_MAX →
        (print_range grid32 b e 1 true m (compute_namewidth grid32) cw).1 =
          print_header grid32 b e 1 true (compute_namewidth grid32) cw ++
            render_trace grid32 b 1 true (compute_namewidth grid32) cw
              (range_trace grid32 b e m).1 (List.range grid32.nrow)) ∧
      (∀ (b e k t : Nat), k < grid32.nrow → 0 < t → t < e - b →
        (k : Int) * ((e - b : Nat) : Int) + (t : Int) ≤ INT_MAX →
        (range_trace grid32 b e ((k : Int) * ((e - b : Nat) : Int) + (t : Int))).1 =
          (List.range k).flatMap
              (fun i => (List.range' b (e - b)).map (fun j => (i, j))) ++
            ((List.range' b (e - b)).take t).map (fun j => (k, j)) ∧
        (print_range grid32 b e 1 true
            ((k : Int) * ((e - b : Nat) : Int) + (t : Int)) (compute_namewidth grid32) cw).1 =
          print_header grid32 b e 1 true (compute_namewidth grid32) cw ++
            (List.range k).flatMap
              (fun i => row_line grid32 i b e 1 true (compute_namewidth grid32) cw) ++
            (row_label_field grid32 k (compute_namewidth grid32) ++
              ((List.range' b (e - b)).take t).flatMap
                (cell_field grid32 k b 1 true cw) ++
              [Item.ch '\n'])) ∧
      (0 < grid32.ncol →
        (∀ c ∈ r.calls, c.begin < c.end_ ∧ 0 ≤ c.max ∧ c.max ≤ INT_MAX) ∧
        r.out = r.calls.flatMap (fun c =>
          print_header grid32 c.begin c.end_ 1 true (compute_namewidth grid32) cw ++
            render_trace grid32 c.begin 1 true (compute_namewidth grid32) cw
              (range_trace grid32 c.begin c.end_ c.max).1 (List.range grid32.nrow)))) ∧
    (print_table grid32 1 true 100 2).map (table_cells grid32) =
      some [(0, 0), (1, 0), (2, 0), (0, 1), (1, 1), (2, 1)] ∧
    (print_table grid32 1 true 4 2).map (table_cells grid32) =
      some [(0, 0), (1, 0), (2, 0), (0, 1)] ∧
    (print_table grid32 1 true 100 80).map (table_cells grid32) =
      some [(0, 0), (0, 1), (1, 0), (1, 1), (2, 0), (2, 1)] ∧
    (print_table grid32 1 true 3 80).map (fun r => (table_cells grid32 r, bytes r.out)) =
      some ([(0, 0), (0, 1), (1, 0)], ['A', ' ', 'B', '\n', 'a', ' ', 'd', '\n', 'b', '\n']) ∧
    (print_table labelled_grid 1 false 3 80).map
        (fun r => (table_cells labelled_grid r, bytes r.out)) =
      some ([(0, 0), (0, 1), (1, 0)], [' ', ' ', ' ', 'A', ' ', 'B', ' ', ' ', '\n',
        'r', '1', ' ', 'a', ' ', 'c', 'c', 'c', '\n', 'N', 'A', ' ', 'b', '\n']) :=
  ⟨⟨grid32_wf, by decide, by decide⟩,
    (capped_cells grid32 1 true 3 100 80 grid32_wf (by decide) (by decide)).1,
    (capped_cells grid32 1 true 3 100 80 grid32_wf (by decide) (by decide)).2.2.2,
    by decide, by decide, by decide, by decide, by decide⟩

end RCorpus
